import Mathlib

/-!
Verification development for the SQL schema describer / migration renderer core
of the prisma-engines repository.

The per-engine describers are embedded as pure functions over explicit catalog
result sets (one record type per catalog query row).  Catalog queries themselves
run on the database side; their documented ordering guarantees (ORDER BY
clauses) appear here as hypotheses on the row lists.  Rust panics are modelled
as `Except` errors, `BTreeMap` as a key-sorted association list, `IndexMap` as
an insertion-ordered association list, and `Vec::sort_by*` (a stable sort) as
insertion sort.
-/

set_option maxHeartbeats 1000000

/-- ASCII lowercasing, modelling Rust `str::to_lowercase` on the ASCII catalog
strings that appear in this code base. -/
def strLower (s : String) : String := String.mk (s.data.map Char.toLower)

/-- The single-quote character, written via its code point. -/
def squote : Char := Char.ofNat 39

/-- A string holding one single quote. -/
def squoteS : String := String.mk [squote]

/-- Whether `pat` occurs as a contiguous run inside `l` (substring test on
character lists, modelling Rust `str::contains`). -/
def listHasRun [DecidableEq α] (l pat : List α) : Bool :=
  match l with
  | [] => pat.isEmpty
  | _ :: rest => pat.isPrefixOf l || listHasRun rest pat

/-- Substring containment, modelling Rust `str::contains`. -/
def strContainsSub (s pat : String) : Bool := listHasRun s.data pat.data

/-- Prefix test, modelling Rust `str::starts_with` (kept on character lists so
that concrete evaluation reduces). -/
def strStarts (s pat : String) : Bool := List.isPrefixOf pat.data s.data

/-- Replace every non-overlapping occurrence of `pat` (leftmost first),
modelling Rust `str::replace` / `Regex::replace_all` on a literal pattern. -/
def listReplaceAll (pat rep : List Char) : List Char → List Char
  | [] => []
  | c :: rest =>
    if h : pat.isPrefixOf (c :: rest) ∧ pat ≠ [] then
      rep ++ listReplaceAll pat rep ((c :: rest).drop pat.length)
    else c :: listReplaceAll pat rep rest
termination_by l => l.length
decreasing_by
  all_goals simp only [List.length_drop, List.length_cons]
  · have : 0 < pat.length := List.length_pos.mpr h.2
    omega
  · omega

section SortByKey

variable {α : Type _} {K : Type _} [LinearOrder K]

/-- Rust `Vec::sort_by_key` / `sort_by_cached_key`: a stable sort by a key
function into a linearly ordered type.  Insertion sort is stable, matching the
stability guarantee of the Rust standard library sort. -/
def sortByKey (f : α → K) (l : List α) : List α :=
  List.insertionSort (fun a b => f a ≤ f b) l

instance sortByKeyRelTotal (f : α → K) : IsTotal α (fun a b => f a ≤ f b) :=
  ⟨fun a b => le_total (f a) (f b)⟩

instance sortByKeyRelTrans (f : α → K) : IsTrans α (fun a b => f a ≤ f b) :=
  ⟨fun _ _ _ h h2 => le_trans h h2⟩

theorem sortByKey_sorted (f : α → K) (l : List α) :
    List.Sorted (fun a b => f a ≤ f b) (sortByKey f l) :=
  List.sorted_insertionSort _ l

theorem sortByKey_perm (f : α → K) (l : List α) : List.Perm (sortByKey f l) l :=
  List.perm_insertionSort _ l

theorem mem_sortByKey (f : α → K) (l : List α) (a : α) :
    a ∈ sortByKey f l ↔ a ∈ l :=
  List.mem_insertionSort _

theorem length_sortByKey (f : α → K) (l : List α) :
    (sortByKey f l).length = l.length :=
  List.length_insertionSort _ l

theorem sortByKey_eq_self (f : α → K) {l : List α}
    (h : List.Sorted (fun a b => f a ≤ f b) l) : sortByKey f l = l :=
  List.Sorted.insertionSort_eq h

end SortByKey

section OMap

/-! Key-sorted association lists, modelling Rust `BTreeMap`.  Insertion keeps
keys strictly ascending; iteration order is the list order, i.e. ascending key
order, exactly as for `BTreeMap`. -/

variable {K : Type _} [LinearOrder K] {β : Type _}

/-- `BTreeMap::get`. -/
def omLookup : List (K × β) → K → Option β
  | [], _ => none
  | (k0, v) :: rest, k => if k = k0 then some v else omLookup rest k

/-- `BTreeMap::insert`: insert or replace, keeping keys ascending. -/
def omInsert : List (K × β) → K → β → List (K × β)
  | [], k, v => [(k, v)]
  | (k0, v0) :: rest, k, v =>
    if k < k0 then (k, v) :: (k0, v0) :: rest
    else if k = k0 then (k, v) :: rest
    else (k0, v0) :: omInsert rest k v

/-- Keys strictly ascending: the `BTreeMap` representation invariant. -/
def OmSorted (m : List (K × β)) : Prop :=
  List.Sorted (fun a b => a.1 < b.1) m

theorem omSorted_nil : OmSorted ([] : List (K × β)) := List.sorted_nil

theorem omLookup_omInsert_self (m : List (K × β)) (k : K) (v : β) :
    omLookup (omInsert m k v) k = some v := by
  induction m with
  | nil => simp [omInsert, omLookup]
  | cons p rest ih =>
    obtain ⟨k0, v0⟩ := p
    by_cases h1 : k < k0
    · simp [omInsert, h1, omLookup]
    · by_cases h2 : k = k0
      · simp [omInsert, h1, h2, omLookup]
      · simp [omInsert, h1, h2, omLookup, ih]

theorem omLookup_omInsert_ne (m : List (K × β)) (k k' : K) (v : β)
    (hne : k' ≠ k) : omLookup (omInsert m k v) k' = omLookup m k' := by
  induction m with
  | nil => simp [omInsert, omLookup, hne]
  | cons p rest ih =>
    obtain ⟨k0, v0⟩ := p
    by_cases h1 : k < k0
    · simp only [omInsert, if_pos h1, omLookup, if_neg hne]
    · by_cases h2 : k = k0
      · subst h2
        simp only [omInsert, if_neg h1, if_pos rfl, omLookup, if_neg hne]
      · simp only [omInsert, if_neg h1, if_neg h2, omLookup]
        by_cases h3 : k' = k0
        · simp only [if_pos h3]
        · simp only [if_neg h3, ih]

theorem mem_omInsert_sub {m : List (K × β)} {k : K} {v : β} {b : K × β}
    (hb : b ∈ omInsert m k v) : b = (k, v) ∨ b ∈ m := by
  induction m with
  | nil => simpa [omInsert] using hb
  | cons p rest ih =>
    by_cases h1 : k < p.1
    · rw [show omInsert (p :: rest) k v = (k, v) :: p :: rest by
        cases p; simp only [omInsert, if_pos h1]] at hb
      rcases List.mem_cons.mp hb with hb | hb
      · exact Or.inl hb
      · exact Or.inr hb
    · by_cases h2 : k = p.1
      · rw [show omInsert (p :: rest) k v = (k, v) :: rest by
          cases p; simp only [omInsert, if_neg h1]; rw [if_pos h2]] at hb
        rcases List.mem_cons.mp hb with hb | hb
        · exact Or.inl hb
        · exact Or.inr (List.mem_cons_of_mem _ hb)
      · rw [show omInsert (p :: rest) k v = p :: omInsert rest k v by
          cases p; simp only [omInsert, if_neg h1]; rw [if_neg h2]] at hb
        rcases List.mem_cons.mp hb with hb | hb
        · exact Or.inr (hb ▸ List.mem_cons_self _ _)
        · rcases ih hb with h | h
          · exact Or.inl h
          · exact Or.inr (List.mem_cons_of_mem _ h)

theorem omInsert_sorted {m : List (K × β)} (hs : OmSorted m) (k : K) (v : β) :
    OmSorted (omInsert m k v) := by
  induction m with
  | nil => simp [omInsert, OmSorted]
  | cons p rest ih =>
    have hrest : OmSorted rest := hs.tail
    have hhead := List.rel_of_sorted_cons hs
    by_cases h1 : k < p.1
    · rw [show omInsert (p :: rest) k v = (k, v) :: p :: rest by
        cases p; simp only [omInsert, if_pos h1]]
      refine List.Pairwise.cons ?_ hs
      intro b hb
      rcases List.mem_cons.mp hb with hb | hb
      · subst hb; exact h1
      · exact lt_trans h1 (hhead _ hb)
    · by_cases h2 : k = p.1
      · rw [show omInsert (p :: rest) k v = (k, v) :: rest by
          cases p; simp only [omInsert, if_neg h1]; rw [if_pos h2]]
        refine List.Pairwise.cons ?_ hrest
        intro b hb
        exact h2 ▸ hhead _ hb
      · have hgt : p.1 < k := by
          rcases lt_trichotomy k p.1 with h | h | h
          · exact absurd h h1
          · exact absurd h h2
          · exact h
        rw [show omInsert (p :: rest) k v = p :: omInsert rest k v by
          cases p; simp only [omInsert, if_neg h1]; rw [if_neg h2]]
        refine List.Pairwise.cons ?_ (ih hrest)
        intro b hb
        rcases mem_omInsert_sub hb with hb | hb
        · subst hb; exact hgt
        · exact hhead _ hb

theorem omLookup_eq_some_of_mem {m : List (K × β)} (hs : OmSorted m)
    {k : K} {v : β} (hm : (k, v) ∈ m) : omLookup m k = some v := by
  induction m with
  | nil => cases hm
  | cons p rest ih =>
    rcases List.mem_cons.mp hm with hb | hb
    · cases p
      cases hb
      simp [omLookup]
    · have hlt : p.1 < k := List.rel_of_sorted_cons hs _ hb
      have hne : k ≠ p.1 := fun he => absurd (he ▸ hlt) (lt_irrefl k)
      cases p
      simp only [omLookup, if_neg hne]
      exact ih hs.tail hb

theorem mem_of_omLookup_eq_some {m : List (K × β)} {k : K} {v : β}
    (h : omLookup m k = some v) : (k, v) ∈ m := by
  induction m with
  | nil => simp [omLookup] at h
  | cons p rest ih =>
    obtain ⟨k0, v0⟩ := p
    by_cases he : k = k0
    · subst he
      simp only [omLookup, if_pos rfl] at h
      injection h with h
      subst h
      exact List.mem_cons_self _ _
    · simp only [omLookup, if_neg he] at h
      exact List.mem_cons_of_mem _ (ih h)

end OMap

section BSearch

/-! Rust `slice::binary_search_by_key`, as used by the `PostgresSchemaExt`
accessors and the walkers on the id-sorted side vectors. -/

variable {K : Type _} [LinearOrder K] {β : Type _}

/-- Binary search on the slice `[lo, hi)` of a key-value list. -/
def bsearchGo (l : List (K × β)) (key : K) (lo hi : Nat) (hhi : hi ≤ l.length) :
    Option β :=
  if h : lo < hi then
    have hm : (lo + hi) / 2 < l.length := by omega
    let e := l.get ⟨(lo + hi) / 2, hm⟩
    if e.1 < key then bsearchGo l key ((lo + hi) / 2 + 1) hi hhi
    else if key < e.1 then bsearchGo l key lo ((lo + hi) / 2) (by omega)
    else some e.2
  else none
termination_by hi - lo
decreasing_by all_goals omega

/-- `slice::binary_search_by_key` over the whole vector, returning the found
value (`None` models `Err(_)`, i.e. the key is absent). -/
def bsearchByKey (l : List (K × β)) (key : K) : Option β :=
  bsearchGo l key 0 l.length (le_refl _)

theorem bsearchGo_finds (l : List (K × β)) (key : K)
    (hs : List.Sorted (fun a b => a.1 ≤ b.1) l) :
    ∀ fuel lo hi (hhi : hi ≤ l.length), hi - lo ≤ fuel →
    (∃ i, ∃ hil : i < l.length, lo ≤ i ∧ i < hi ∧ (l.get ⟨i, hil⟩).1 = key) →
    ∃ v, bsearchGo l key lo hi hhi = some v ∧ (key, v) ∈ l := by
  intro fuel
  induction fuel with
  | zero =>
    rintro lo hi hhi hf ⟨i, hil, h1, h2, h3⟩
    omega
  | succ n ih =>
    rintro lo hi hhi hf ⟨i, hil, h1, h2, h3⟩
    have hlt : lo < hi := by omega
    have hm : (lo + hi) / 2 < l.length := by omega
    have hmlo : lo ≤ (lo + hi) / 2 := by omega
    have hmhi : (lo + hi) / 2 < hi := by omega
    rw [bsearchGo]
    simp only [dif_pos hlt]
    by_cases hc1 : (l.get ⟨(lo + hi) / 2, hm⟩).1 < key
    · simp only [if_pos hc1]
      have hright : (lo + hi) / 2 + 1 ≤ i := by
        by_contra hcon
        push_neg at hcon
        have hle : (l.get ⟨i, hil⟩).1 ≤ (l.get ⟨(lo + hi) / 2, hm⟩).1 := by
          rcases Nat.lt_or_ge i ((lo + hi) / 2) with hl | hg
          · exact hs.rel_get_of_lt (Fin.mk_lt_mk.mpr hl)
          · have : i = (lo + hi) / 2 := by omega
            subst this
            exact le_refl _
        rw [h3] at hle
        exact absurd hc1 (not_lt_of_le hle)
      exact ih ((lo + hi) / 2 + 1) hi hhi (by omega) ⟨i, hil, hright, h2, h3⟩
    · simp only [if_neg hc1]
      by_cases hc2 : key < (l.get ⟨(lo + hi) / 2, hm⟩).1
      · simp only [if_pos hc2]
        have hleft : i < (lo + hi) / 2 := by
          by_contra hcon
          push_neg at hcon
          have hle : (l.get ⟨(lo + hi) / 2, hm⟩).1 ≤ (l.get ⟨i, hil⟩).1 := by
            rcases Nat.lt_or_ge ((lo + hi) / 2) i with hl | hg
            · exact hs.rel_get_of_lt (Fin.mk_lt_mk.mpr hl)
            · have : i = (lo + hi) / 2 := by omega
              subst this
              exact le_refl _
          rw [h3] at hle
          exact absurd hc2 (not_lt_of_le hle)
        exact ih lo ((lo + hi) / 2) (by omega) (by omega) ⟨i, hil, h1, hleft, h3⟩
      · simp only [if_neg hc2]
        have heq : (l.get ⟨(lo + hi) / 2, hm⟩).1 = key :=
          le_antisymm (not_lt.mp hc2) (not_lt.mp hc1)
        refine ⟨(l.get ⟨(lo + hi) / 2, hm⟩).2, rfl, ?_⟩
        have hmem := l.get_mem ((lo + hi) / 2) hm
        have : (key, (l.get ⟨(lo + hi) / 2, hm⟩).2) = l.get ⟨(lo + hi) / 2, hm⟩ := by
          rw [← heq]
        rw [this]
        exact hmem

/-- On a key-sorted vector, binary search finds every key that is present. -/
theorem bsearchByKey_finds {l : List (K × β)} {key : K} {v : β}
    (hs : List.Sorted (fun a b => a.1 ≤ b.1) l) (hmem : (key, v) ∈ l) :
    ∃ v2, bsearchByKey l key = some v2 ∧ (key, v2) ∈ l := by
  obtain ⟨i, hget⟩ := List.mem_iff_get.mp hmem
  exact bsearchGo_finds l key hs l.length 0 l.length (le_refl _) (by omega)
    ⟨i.1, i.2, Nat.zero_le _, i.2, congrArg Prod.fst hget⟩

end BSearch


/-! ### Core schema model (sql-schema-describer) -/

/-- `TableId`: a dense arena index into `SqlSchema.tables`. -/
abbrev TableId := Nat

/-- `ForeignKeyId`: an index into `SqlSchema.foreign_keys`. -/
abbrev ForeignKeyId := Nat

/-- `IndexId(TableId, u32)` with its derived lexicographic ordering. -/
structure IndexId where
  tableId : TableId
  idx : Nat
deriving DecidableEq

def IndexId.key (i : IndexId) : Lex (Nat × Nat) := toLex (i.tableId, i.idx)

theorem indexIdKey_injective : Function.Injective IndexId.key := by
  intro a b h
  cases a; cases b
  simp only [IndexId.key, toLex_inj, Prod.mk.injEq] at h
  obtain ⟨h1, h2⟩ := h
  simp [h1, h2]

instance : LinearOrder IndexId := LinearOrder.lift' IndexId.key indexIdKey_injective

/-- `IndexFieldId(IndexId, u32)` with its derived lexicographic ordering. -/
structure IndexFieldId where
  indexId : IndexId
  position : Nat
deriving DecidableEq

def IndexFieldId.key (i : IndexFieldId) : Lex (Lex (Nat × Nat) × Nat) :=
  toLex (i.indexId.key, i.position)

theorem indexFieldIdKey_injective : Function.Injective IndexFieldId.key := by
  intro a b h
  cases a; cases b
  simp only [IndexFieldId.key, toLex_inj, Prod.mk.injEq] at h
  obtain ⟨h1, h2⟩ := h
  have h3 := indexIdKey_injective h1
  simp [h3, h2]

instance : LinearOrder IndexFieldId :=
  LinearOrder.lift' IndexFieldId.key indexFieldIdKey_injective

inductive SQLSortOrder where
  | Asc
  | Desc
deriving DecidableEq

inductive ForeignKeyAction where
  | NoAction
  | Restrict
  | Cascade
  | SetNull
  | SetDefault
deriving DecidableEq

inductive IndexType where
  | Unique
  | Normal
  | Fulltext
deriving DecidableEq

inductive ColumnArity where
  | Required
  | Nullable
  | List
deriving DecidableEq

inductive ColumnTypeFamily where
  | Int
  | BigInt
  | Float
  | Decimal
  | Boolean
  | String
  | DateTime
  | Binary
  | Json
  | Uuid
  | Enum (name : String)
  | Unsupported (raw : String)
deriving DecidableEq

/-- `native_types::PostgresType` (the constructors used by the describer). -/
inductive PostgresType where
  | SmallInt
  | Integer
  | BigInt
  | Oid
  | Real
  | DoublePrecision
  | Boolean
  | Text
  | Citext
  | VarChar (n : Option Nat)
  | Char (n : Option Nat)
  | Date
  | ByteA
  | Json
  | JsonB
  | Uuid
  | Xml
  | Bit (n : Option Nat)
  | VarBit (n : Option Nat)
  | Decimal (ps : Option (Nat × Nat))
  | Money
  | Time (n : Option Nat)
  | Timetz (n : Option Nat)
  | Timestamp (n : Option Nat)
  | Timestamptz (n : Option Nat)
  | Inet
deriving DecidableEq

/-- `native_types::CockroachType` (the constructors used by the describer). -/
inductive CockroachType where
  | Int2
  | Int4
  | Int8
  | Float4
  | Float8
  | Bool
  | String (n : Option Nat)
  | Char (n : Option Nat)
  | CatalogSingleChar
  | Date
  | Bytes
  | JsonB
  | Uuid
  | Bit (n : Option Nat)
  | VarBit (n : Option Nat)
  | Decimal (ps : Option (Nat × Nat))
  | Oid
  | Time (n : Option Nat)
  | Timetz (n : Option Nat)
  | Timestamp (n : Option Nat)
  | Timestamptz (n : Option Nat)
  | Inet
deriving DecidableEq

/-- The serialized native-type payload stored on a column
(`native_type: Option<serde_json::Value>` in the source; modelled as the value
that was serialized). -/
inductive NativeTypeInstance where
  | pg (t : PostgresType)
  | crdb (t : CockroachType)
deriving DecidableEq

structure ColumnType where
  full_data_type : String
  family : ColumnTypeFamily
  arity : ColumnArity
  native_type : Option NativeTypeInstance
deriving DecidableEq

/-- `PrismaValue` (the constructors reachable from these describers).  Float
defaults carry their source text: no claim depends on float arithmetic and
floating point is not representable here. -/
inductive PrismaValue where
  | int (i : Int)
  | boolean (b : Bool)
  | string (s : String)
  | enumv (s : String)
  | float (repr : String)
deriving DecidableEq

inductive DefaultKind where
  | Value (v : PrismaValue)
  | Now
  | DbGenerated (expr : String)
  | Sequence (name : String)
deriving DecidableEq

structure DefaultValue where
  kind : DefaultKind
deriving DecidableEq

def DefaultValue.value (v : PrismaValue) : DefaultValue := ⟨DefaultKind.Value v⟩
def DefaultValue.db_generated (s : String) : DefaultValue := ⟨DefaultKind.DbGenerated s⟩
def DefaultValue.now : DefaultValue := ⟨DefaultKind.Now⟩

structure Column where
  name : String
  tpe : ColumnType
  default : Option DefaultValue
  auto_increment : Bool
deriving DecidableEq

structure PrimaryKeyColumn where
  name : String
deriving DecidableEq

structure PrimaryKey where
  columns : List PrimaryKeyColumn
  constraint_name : Option String
deriving DecidableEq

structure IndexColumn where
  name : String
  sort_order : Option SQLSortOrder
deriving DecidableEq

def IndexColumn.new (name : String) : IndexColumn := ⟨name, none⟩

instance : Inhabited IndexColumn := ⟨⟨"", none⟩⟩

structure Index where
  name : String
  columns : List IndexColumn
  tpe : IndexType
deriving DecidableEq

structure ForeignKey where
  constraint_name : Option String
  columns : List String
  referenced_table : TableId
  referenced_columns : List String
  on_delete_action : ForeignKeyAction
  on_update_action : ForeignKeyAction
deriving DecidableEq

structure Table where
  name : String
  indices : List Index
  primary_key : Option PrimaryKey
deriving DecidableEq

instance : Inhabited Table := ⟨⟨"", [], none⟩⟩

structure Enum where
  name : String
  values : List String
deriving DecidableEq

structure View where
  name : String
  definition : Option String
deriving DecidableEq

structure Procedure where
  name : String
  definition : Option String
deriving DecidableEq

structure SqlMetadata where
  table_count : Nat
  size_in_bytes : Nat
deriving DecidableEq

/-- The engine-agnostic schema model with its flat, id-keyed side vectors. -/
structure SqlSchema where
  tables : List Table
  enums : List Enum
  columns : List (TableId × Column)
  foreign_keys : List (TableId × ForeignKey)
  views : List View
  procedures : List Procedure
deriving DecidableEq

def SqlSchema.default : SqlSchema := ⟨[], [], [], [], [], []⟩

/-- `SqlSchema::push_table`: appends a table and returns its dense id. -/
def SqlSchema.push_table (s : SqlSchema) (name : String) : TableId × SqlSchema :=
  (s.tables.length, { s with tables := s.tables ++ [⟨name, [], none⟩] })

/-- The walker lookup `table.column(name)`.
Modelled from the spec: the walker layer (`walkers.rs`) is not among the
provided sources; per the spec a walker navigates "table → its columns" on the
id-keyed `columns` vector, so the lookup finds the first column of the given
table carrying the given name. -/
def SqlSchema.tableColumn (s : SqlSchema) (tid : TableId) (name : String) :
    Option Column :=
  ((s.columns.filter (fun p => p.1 == tid)).map (·.2)).find? (fun c => c.name == name)

/-- The describer error taxonomy (`DescriberErrorKind`), plus Rust panics
modelled as a `fatal` variant so that no embedded function is partial. -/
inductive DescriberError where
  | crossSchema (fromTable toTable constraint : String)
  | fatal (msg : String)
deriving DecidableEq

instance {E A : Type _} [DecidableEq E] [DecidableEq A] : DecidableEq (Except E A) :=
  fun a b =>
    match a, b with
    | Except.ok x, Except.ok y =>
      if h : x = y then Decidable.isTrue (by rw [h])
      else Decidable.isFalse (by intro he; injection he; exact h (by assumption))
    | Except.error x, Except.error y =>
      if h : x = y then Decidable.isTrue (by rw [h])
      else Decidable.isFalse (by intro he; injection he; exact h (by assumption))
    | Except.ok _, Except.error _ => Decidable.isFalse (by intro he; cases he)
    | Except.error _, Except.ok _ => Decidable.isFalse (by intro he; cases he)

/-! ### Sort keys used by the describers -/

/-- Sort key of `sort_by_cached_key(|(id, fk)| (*id, fk.columns.to_owned()))`. -/
def fkSortKey (p : TableId × ForeignKey) : Lex (Nat × List String) :=
  toLex (p.1, p.2.columns)

/-- The "sorted by (owning table id, columns)" relation on the global
foreign-key list. -/
def FkListSorted (l : List (TableId × ForeignKey)) : Prop :=
  List.Sorted (fun a b => fkSortKey a ≤ fkSortKey b) l

/-! ### DDL renderer common helpers (sql_renderer/common.rs) -/

/-- `Quoted<T>`: the four identifier/literal quoting styles. -/
inductive Quoted (T : Type) where
  | Double (inner : T)
  | Single (inner : T)
  | Backticks (inner : T)
  | SquareBrackets (inner : T)
deriving DecidableEq

namespace Quoted

def mssql_string (contents : T) : Quoted T := Quoted.Single contents

def mysql_string (contents : T) : Quoted T := Quoted.Single contents

def mysql_ident (name : T) : Quoted T := Quoted.Backticks name

def postgres_string (contents : T) : Quoted T := Quoted.Single contents

def postgres_ident (name : T) : Quoted T := Quoted.Double name

def sqlite_ident (name : T) : Quoted T := Quoted.Double name

def sqlite_string (name : T) : Quoted T := Quoted.Single name

def mssql_ident (name : T) : Quoted T := Quoted.SquareBrackets name

/-- The `Display` implementation. -/
def render : Quoted String → String
  | Quoted.Double inner => "\"" ++ inner ++ "\""
  | Quoted.Single inner => squoteS ++ inner ++ squoteS
  | Quoted.Backticks inner => "`" ++ inner ++ "`"
  | Quoted.SquareBrackets inner => "[" ++ inner ++ "]"

end Quoted

/-- `render_referential_action`. -/
def render_referential_action : ForeignKeyAction → String
  | ForeignKeyAction.NoAction => "NO ACTION"
  | ForeignKeyAction.Restrict => "RESTRICT"
  | ForeignKeyAction.Cascade => "CASCADE"
  | ForeignKeyAction.SetNull => "SET NULL"
  | ForeignKeyAction.SetDefault => "SET DEFAULT"

/-! ### Postgres catalog rows and column-type mapping (postgres.rs) -/

structure Precision where
  character_maximum_length : Option Nat
  numeric_precision : Option Nat
  numeric_scale : Option Nat
  time_precision : Option Nat
deriving DecidableEq

/-- One row of the Postgres column catalog query (`numeric_precision_radix` is
selected by the query but never read by the describer, so it is omitted). -/
structure PgColRow where
  table_name : String
  column_name : String
  formatted_type : String
  numeric_precision : Option Nat
  numeric_scale : Option Nat
  datetime_precision : Option Nat
  data_type : String
  full_data_type : String
  column_default : Option String
  is_nullable : String
  is_identity : Option String
  character_maximum_length : Option Nat
deriving DecidableEq

/-- Parse a nonempty all-digit character run (Rust `str::parse::<u32>` on a
regex capture of `[0-9]*`; an empty capture fails to parse). -/
def digitsToNat? (cs : List Char) : Option Nat :=
  match cs with
  | [] => none
  | _ => some (cs.foldl (fun n c => n * 10 + (c.toNat - 48)) 0)

/-- All parenthesized digit groups `\(([0-9]*)\)` of a character list, in
order of occurrence. -/
def parenDigitGroups : List Char → List (List Char)
  | [] => []
  | c :: rest =>
    if c = Char.ofNat 40 then
      let ds := rest.takeWhile Char.isDigit
      match rest.dropWhile Char.isDigit with
      | c2 :: _ =>
        if c2 = Char.ofNat 41 then ds :: parenDigitGroups rest
        else parenDigitGroups rest
      | [] => parenDigitGroups rest
    else parenDigitGroups rest

/-- `get_single` in `get_precision`: the regex `.*\(([0-9]*)\).*\[\]$` with
greedy `.*`, i.e. the last parenthesized digit group of a string ending in
`[]`, parsed as a number. -/
def pgGetSingle (formatted_type : String) : Option Nat :=
  if formatted_type.endsWith "[]" then
    (parenDigitGroups formatted_type.data).getLast?.bind digitsToNat?
  else none

/-- `get_dual` in `get_precision`: the regex `numeric\(([0-9]*),([0-9]*)\)\[\]$`,
i.e. a string ending in `numeric(<digits>,<digits>)[]`, each capture parsed
independently. -/
def pgGetDual (formatted_type : String) : Option Nat × Option Nat :=
  match formatted_type.data.reverse with
  | ']' :: '[' :: ')' :: rest =>
    let d2r := rest.takeWhile Char.isDigit
    match rest.dropWhile Char.isDigit with
    | ',' :: rest3 =>
      let d1r := rest3.takeWhile Char.isDigit
      match rest3.dropWhile Char.isDigit with
      | '(' :: rest5 =>
        if List.isPrefixOf ("numeric".data.reverse) rest5 then
          (digitsToNat? d1r.reverse, digitsToNat? d2r.reverse)
        else (none, none)
      | _ => (none, none)
    | _ => (none, none)
  | _ => (none, none)

/-- `SqlSchemaDescriber::get_precision`. -/
def get_precision (col : PgColRow) : Precision :=
  if col.data_type == "ARRAY" then
    let fdt := col.full_data_type
    let char_max_length :=
      if fdt ∈ ["_bpchar", "_varchar", "_bit", "_varbit"] then
        pgGetSingle col.formatted_type
      else none
    let numPair :=
      if fdt == "_numeric" then pgGetDual col.formatted_type else (none, none)
    let time :=
      if fdt ∈ ["_timestamptz", "_timestamp", "_timetz", "_time", "_interval"] then
        pgGetSingle col.formatted_type
      else none
    { character_maximum_length := char_max_length
      numeric_precision := numPair.1
      numeric_scale := numPair.2
      time_precision := time }
  else
    { character_maximum_length := col.character_maximum_length
      numeric_precision := col.numeric_precision
      numeric_scale := col.numeric_scale
      time_precision := col.datetime_precision }

def enum_exists (enums : List Enum) (name : String) : Bool :=
  enums.any (fun e => e.name == name)

/-- Rust `str::trim_start_matches('_')`. -/
def stripLeadingUnderscores (s : String) : String :=
  String.mk (s.data.dropWhile (fun c => c = Char.ofNat 95))

/-- The literal type names matched by `get_column_type_postgresql` (every
pattern of the match except the guarded enum arms and the default). -/
def pgKnownNames : List String :=
  ["int2", "_int2", "int4", "_int4", "int8", "_int8", "oid", "_oid",
   "float4", "_float4", "float8", "_float8", "bool", "_bool", "text", "_text",
   "citext", "_citext", "varchar", "_varchar", "bpchar", "_bpchar",
   "char", "_char", "date", "_date", "bytea", "_bytea", "json", "_json",
   "jsonb", "_jsonb", "uuid", "_uuid", "xml", "_xml", "bit", "_bit",
   "varbit", "_varbit", "numeric", "_numeric", "money", "_money",
   "pg_lsn", "_pg_lsn", "time", "_time", "timetz", "_timetz",
   "timestamp", "_timestamp", "timestamptz", "_timestamptz",
   "tsquery", "_tsquery", "tsvector", "_tsvector",
   "txid_snapshot", "_txid_snapshot", "inet", "_inet", "box", "_box",
   "circle", "_circle", "line", "_line", "lseg", "_lseg", "path", "_path",
   "polygon", "_polygon"]

/-- The name dispatch of `get_column_type_postgresql`: the match on
`full_data_type`, after the two guarded enum arms. -/
def pgFamilyDispatch (enums : List Enum) (precision : Precision)
    (full_data_type : String) : ColumnTypeFamily × Option PostgresType :=
  let unsupported := (ColumnTypeFamily.Unsupported full_data_type, (none : Option PostgresType))
  match full_data_type with
  | "int2" | "_int2" => (ColumnTypeFamily.Int, some PostgresType.SmallInt)
  | "int4" | "_int4" => (ColumnTypeFamily.Int, some PostgresType.Integer)
  | "int8" | "_int8" => (ColumnTypeFamily.BigInt, some PostgresType.BigInt)
  | "oid" | "_oid" => (ColumnTypeFamily.Int, some PostgresType.Oid)
  | "float4" | "_float4" => (ColumnTypeFamily.Float, some PostgresType.Real)
  | "float8" | "_float8" => (ColumnTypeFamily.Float, some PostgresType.DoublePrecision)
  | "bool" | "_bool" => (ColumnTypeFamily.Boolean, some PostgresType.Boolean)
  | "text" | "_text" => (ColumnTypeFamily.String, some PostgresType.Text)
  | "citext" | "_citext" => (ColumnTypeFamily.String, some PostgresType.Citext)
  | "varchar" | "_varchar" =>
    (ColumnTypeFamily.String, some (PostgresType.VarChar precision.character_maximum_length))
  | "bpchar" | "_bpchar" =>
    (ColumnTypeFamily.String, some (PostgresType.Char precision.character_maximum_length))
  | "char" | "_char" => (ColumnTypeFamily.String, some (PostgresType.Char none))
  | "date" | "_date" => (ColumnTypeFamily.DateTime, some PostgresType.Date)
  | "bytea" | "_bytea" => (ColumnTypeFamily.Binary, some PostgresType.ByteA)
  | "json" | "_json" => (ColumnTypeFamily.Json, some PostgresType.Json)
  | "jsonb" | "_jsonb" => (ColumnTypeFamily.Json, some PostgresType.JsonB)
  | "uuid" | "_uuid" => (ColumnTypeFamily.Uuid, some PostgresType.Uuid)
  | "xml" | "_xml" => (ColumnTypeFamily.String, some PostgresType.Xml)
  | "bit" | "_bit" =>
    (ColumnTypeFamily.String, some (PostgresType.Bit precision.character_maximum_length))
  | "varbit" | "_varbit" =>
    (ColumnTypeFamily.String, some (PostgresType.VarBit precision.character_maximum_length))
  | "numeric" | "_numeric" =>
    (ColumnTypeFamily.Decimal, some (PostgresType.Decimal
      (match precision.numeric_precision, precision.numeric_scale with
       | none, none => none
       | some prec, some scale => some (prec, scale)
       | _, _ => none)))
  | "money" | "_money" => (ColumnTypeFamily.Decimal, some PostgresType.Money)
  | "pg_lsn" | "_pg_lsn" => unsupported
  | "time" | "_time" =>
    (ColumnTypeFamily.DateTime, some (PostgresType.Time precision.time_precision))
  | "timetz" | "_timetz" =>
    (ColumnTypeFamily.DateTime, some (PostgresType.Timetz precision.time_precision))
  | "timestamp" | "_timestamp" =>
    (ColumnTypeFamily.DateTime, some (PostgresType.Timestamp precision.time_precision))
  | "timestamptz" | "_timestamptz" =>
    (ColumnTypeFamily.DateTime, some (PostgresType.Timestamptz precision.time_precision))
  | "tsquery" | "_tsquery" => unsupported
  | "tsvector" | "_tsvector" => unsupported
  | "txid_snapshot" | "_txid_snapshot" => unsupported
  | "inet" | "_inet" => (ColumnTypeFamily.String, some PostgresType.Inet)
  | "box" | "_box" => unsupported
  | "circle" | "_circle" => unsupported
  | "line" | "_line" => unsupported
  | "lseg" | "_lseg" => unsupported
  | "path" | "_path" => unsupported
  | "polygon" | "_polygon" => unsupported
  | name =>
    if enum_exists enums name then (ColumnTypeFamily.Enum name, none) else unsupported

/-- `get_column_type_postgresql`.  Returns `none` exactly where the source
panics (an unrecognized `is_nullable` catalog value). -/
def get_column_type_postgresql (row : PgColRow) (enums : List Enum) :
    Option ColumnType :=
  let data_type := row.data_type
  let full_data_type := row.full_data_type
  match strLower row.is_nullable with
  | "no" | "yes" =>
    let is_required := strLower row.is_nullable == "no"
    let arity :=
      if data_type == "ARRAY" then ColumnArity.List
      else if is_required then ColumnArity.Required
      else ColumnArity.Nullable
    let precision := get_precision row
    let fam_nt : ColumnTypeFamily × Option PostgresType :=
      if data_type == "USER-DEFINED" && enum_exists enums full_data_type then
        (ColumnTypeFamily.Enum full_data_type, none)
      else if data_type == "ARRAY" && strStarts full_data_type "_"
          && enum_exists enums (stripLeadingUnderscores full_data_type) then
        (ColumnTypeFamily.Enum (stripLeadingUnderscores full_data_type), none)
      else pgFamilyDispatch enums precision full_data_type
    some { full_data_type := full_data_type
           family := fam_nt.1
           arity := arity
           native_type := fam_nt.2.map NativeTypeInstance.pg }
  | _ => none

/-- The literal type names matched by `get_column_type_cockroachdb`. -/
def crdbKnownNames : List String :=
  ["int2", "_int2", "int4", "_int4", "int8", "_int8",
   "float4", "_float4", "float8", "_float8", "bool", "_bool", "text", "_text",
   "varchar", "_varchar", "bpchar", "_bpchar", "char", "_char",
   "date", "_date", "bytea", "_bytea", "jsonb", "_jsonb", "uuid", "_uuid",
   "bit", "_bit", "varbit", "_varbit", "numeric", "_numeric",
   "pg_lsn", "_pg_lsn", "oid", "_oid", "time", "_time", "timetz", "_timetz",
   "timestamp", "_timestamp", "timestamptz", "_timestamptz",
   "tsquery", "_tsquery", "tsvector", "_tsvector",
   "txid_snapshot", "_txid_snapshot", "inet", "_inet", "box", "_box",
   "circle", "_circle", "line", "_line", "lseg", "_lseg", "path", "_path",
   "polygon", "_polygon"]

/-- The name dispatch of `get_column_type_cockroachdb` (the guarded
`"char"` arm is folded into its literal arm: a failed guard falls through to
the identical-pattern arm right below it). -/
def crdbFamilyDispatch (enums : List Enum) (precision : Precision)
    (data_type full_data_type : String) : ColumnTypeFamily × Option CockroachType :=
  let unsupported := (ColumnTypeFamily.Unsupported full_data_type, (none : Option CockroachType))
  match full_data_type with
  | "int2" | "_int2" => (ColumnTypeFamily.Int, some CockroachType.Int2)
  | "int4" | "_int4" => (ColumnTypeFamily.Int, some CockroachType.Int4)
  | "int8" | "_int8" => (ColumnTypeFamily.BigInt, some CockroachType.Int8)
  | "float4" | "_float4" => (ColumnTypeFamily.Float, some CockroachType.Float4)
  | "float8" | "_float8" => (ColumnTypeFamily.Float, some CockroachType.Float8)
  | "bool" | "_bool" => (ColumnTypeFamily.Boolean, some CockroachType.Bool)
  | "text" | "_text" =>
    (ColumnTypeFamily.String, some (CockroachType.String precision.character_maximum_length))
  | "varchar" | "_varchar" =>
    (ColumnTypeFamily.String, some (CockroachType.String precision.character_maximum_length))
  | "bpchar" | "_bpchar" =>
    (ColumnTypeFamily.String, some (CockroachType.Char precision.character_maximum_length))
  | "char" | "_char" =>
    if data_type == "\"char\"" then (ColumnTypeFamily.String, some CockroachType.CatalogSingleChar)
    else (ColumnTypeFamily.String, some (CockroachType.Char precision.character_maximum_length))
  | "date" | "_date" => (ColumnTypeFamily.DateTime, some CockroachType.Date)
  | "bytea" | "_bytea" => (ColumnTypeFamily.Binary, some CockroachType.Bytes)
  | "jsonb" | "_jsonb" => (ColumnTypeFamily.Json, some CockroachType.JsonB)
  | "uuid" | "_uuid" => (ColumnTypeFamily.Uuid, some CockroachType.Uuid)
  | "bit" | "_bit" =>
    (ColumnTypeFamily.String, some (CockroachType.Bit precision.character_maximum_length))
  | "varbit" | "_varbit" =>
    (ColumnTypeFamily.String, some (CockroachType.VarBit precision.character_maximum_length))
  | "numeric" | "_numeric" =>
    (ColumnTypeFamily.Decimal, some (CockroachType.Decimal
      (match precision.numeric_precision, precision.numeric_scale with
       | none, none => none
       | some prec, some scale => some (prec, scale)
       | _, _ => none)))
  | "pg_lsn" | "_pg_lsn" => unsupported
  | "oid" | "_oid" => (ColumnTypeFamily.Int, some CockroachType.Oid)
  | "time" | "_time" =>
    (ColumnTypeFamily.DateTime, some (CockroachType.Time precision.time_precision))
  | "timetz" | "_timetz" =>
    (ColumnTypeFamily.DateTime, some (CockroachType.Timetz precision.time_precision))
  | "timestamp" | "_timestamp" =>
    (ColumnTypeFamily.DateTime, some (CockroachType.Timestamp precision.time_precision))
  | "timestamptz" | "_timestamptz" =>
    (ColumnTypeFamily.DateTime, some (CockroachType.Timestamptz precision.time_precision))
  | "tsquery" | "_tsquery" => unsupported
  | "tsvector" | "_tsvector" => unsupported
  | "txid_snapshot" | "_txid_snapshot" => unsupported
  | "inet" | "_inet" => (ColumnTypeFamily.String, some CockroachType.Inet)
  | "box" | "_box" => unsupported
  | "circle" | "_circle" => unsupported
  | "line" | "_line" => unsupported
  | "lseg" | "_lseg" => unsupported
  | "path" | "_path" => unsupported
  | "polygon" | "_polygon" => unsupported
  | name =>
    if enum_exists enums name then (ColumnTypeFamily.Enum name, none) else unsupported

/-- `get_column_type_cockroachdb`.  Returns `none` exactly where the source
panics (an unrecognized `is_nullable` catalog value). -/
def get_column_type_cockroachdb (row : PgColRow) (enums : List Enum) :
    Option ColumnType :=
  let data_type := row.data_type
  let full_data_type := row.full_data_type
  match strLower row.is_nullable with
  | "no" | "yes" =>
    let is_required := strLower row.is_nullable == "no"
    let arity :=
      if data_type == "ARRAY" then ColumnArity.List
      else if is_required then ColumnArity.Required
      else ColumnArity.Nullable
    let precision := get_precision row
    let fam_nt : ColumnTypeFamily × Option CockroachType :=
      if data_type == "USER-DEFINED" && enum_exists enums full_data_type then
        (ColumnTypeFamily.Enum full_data_type, none)
      else if data_type == "ARRAY" && strStarts full_data_type "_"
          && enum_exists enums (stripLeadingUnderscores full_data_type) then
        (ColumnTypeFamily.Enum (stripLeadingUnderscores full_data_type), none)
      else crdbFamilyDispatch enums precision data_type full_data_type
    some { full_data_type := full_data_type
           family := fam_nt.1
           arity := arity
           native_type := fam_nt.2.map NativeTypeInstance.crdb }
  | _ => none

/-! ### Postgres describer (postgres.rs) -/

structure Sequence where
  name : String
  start_value : Int
  min_value : Int
  max_value : Int
  increment_by : Int
  cycle : Bool
  cache_size : Int
  isVirtual : Bool
deriving DecidableEq

inductive SqlIndexAlgorithm where
  | BTree
  | Hash
  | Gist
  | Gin
  | SpGist
  | Brin
deriving DecidableEq

inductive SQLOperatorClassKind where
  | InetOps
  | JsonbOps
  | JsonbPathOps
  | ArrayOps
  | TextOps
  | BitMinMaxOps
  | VarBitMinMaxOps
  | BpcharBloomOps
  | BpcharMinMaxOps
  | ByteaBloomOps
  | ByteaMinMaxOps
  | DateBloomOps
  | DateMinMaxOps
  | DateMinMaxMultiOps
  | Float4BloomOps
  | Float4MinMaxOps
  | Float4MinMaxMultiOps
  | Float8BloomOps
  | Float8MinMaxOps
  | Float8MinMaxMultiOps
  | InetInclusionOps
  | InetBloomOps
  | InetMinMaxOps
  | InetMinMaxMultiOps
  | Int2BloomOps
  | Int2MinMaxOps
  | Int2MinMaxMultiOps
  | Int4BloomOps
  | Int4MinMaxOps
  | Int4MinMaxMultiOps
  | Int8BloomOps
  | Int8MinMaxOps
  | Int8MinMaxMultiOps
  | NumericBloomOps
  | NumericMinMaxOps
  | NumericMinMaxMultiOps
  | OidBloomOps
  | OidMinMaxOps
  | OidMinMaxMultiOps
  | TextBloomOps
  | TextMinMaxOps
  | TimestampBloomOps
  | TimestampMinMaxOps
  | TimestampMinMaxMultiOps
  | TimestampTzBloomOps
  | TimestampTzMinMaxOps
  | TimestampTzMinMaxMultiOps
  | TimeBloomOps
  | TimeMinMaxOps
  | TimeMinMaxMultiOps
  | TimeTzBloomOps
  | TimeTzMinMaxOps
  | TimeTzMinMaxMultiOps
  | UuidBloomOps
  | UuidMinMaxOps
  | UuidMinMaxMultiOps
  | Raw (s : String)

/-- An injective code for `SQLOperatorClassKind`, used to give it a
`DecidableEq` instance whose terms stay shallow (the derived instance
matches on constructor pairs). -/
def SQLOperatorClassKind.code : SQLOperatorClassKind → Nat × String
  | SQLOperatorClassKind.InetOps => (0, "")
  | SQLOperatorClassKind.JsonbOps => (1, "")
  | SQLOperatorClassKind.JsonbPathOps => (2, "")
  | SQLOperatorClassKind.ArrayOps => (3, "")
  | SQLOperatorClassKind.TextOps => (4, "")
  | SQLOperatorClassKind.BitMinMaxOps => (5, "")
  | SQLOperatorClassKind.VarBitMinMaxOps => (6, "")
  | SQLOperatorClassKind.BpcharBloomOps => (7, "")
  | SQLOperatorClassKind.BpcharMinMaxOps => (8, "")
  | SQLOperatorClassKind.ByteaBloomOps => (9, "")
  | SQLOperatorClassKind.ByteaMinMaxOps => (10, "")
  | SQLOperatorClassKind.DateBloomOps => (11, "")
  | SQLOperatorClassKind.DateMinMaxOps => (12, "")
  | SQLOperatorClassKind.DateMinMaxMultiOps => (13, "")
  | SQLOperatorClassKind.Float4BloomOps => (14, "")
  | SQLOperatorClassKind.Float4MinMaxOps => (15, "")
  | SQLOperatorClassKind.Float4MinMaxMultiOps => (16, "")
  | SQLOperatorClassKind.Float8BloomOps => (17, "")
  | SQLOperatorClassKind.Float8MinMaxOps => (18, "")
  | SQLOperatorClassKind.Float8MinMaxMultiOps => (19, "")
  | SQLOperatorClassKind.InetInclusionOps => (20, "")
  | SQLOperatorClassKind.InetBloomOps => (21, "")
  | SQLOperatorClassKind.InetMinMaxOps => (22, "")
  | SQLOperatorClassKind.InetMinMaxMultiOps => (23, "")
  | SQLOperatorClassKind.Int2BloomOps => (24, "")
  | SQLOperatorClassKind.Int2MinMaxOps => (25, "")
  | SQLOperatorClassKind.Int2MinMaxMultiOps => (26, "")
  | SQLOperatorClassKind.Int4BloomOps => (27, "")
  | SQLOperatorClassKind.Int4MinMaxOps => (28, "")
  | SQLOperatorClassKind.Int4MinMaxMultiOps => (29, "")
  | SQLOperatorClassKind.Int8BloomOps => (30, "")
  | SQLOperatorClassKind.Int8MinMaxOps => (31, "")
  | SQLOperatorClassKind.Int8MinMaxMultiOps => (32, "")
  | SQLOperatorClassKind.NumericBloomOps => (33, "")
  | SQLOperatorClassKind.NumericMinMaxOps => (34, "")
  | SQLOperatorClassKind.NumericMinMaxMultiOps => (35, "")
  | SQLOperatorClassKind.OidBloomOps => (36, "")
  | SQLOperatorClassKind.OidMinMaxOps => (37, "")
  | SQLOperatorClassKind.OidMinMaxMultiOps => (38, "")
  | SQLOperatorClassKind.TextBloomOps => (39, "")
  | SQLOperatorClassKind.TextMinMaxOps => (40, "")
  | SQLOperatorClassKind.TimestampBloomOps => (41, "")
  | SQLOperatorClassKind.TimestampMinMaxOps => (42, "")
  | SQLOperatorClassKind.TimestampMinMaxMultiOps => (43, "")
  | SQLOperatorClassKind.TimestampTzBloomOps => (44, "")
  | SQLOperatorClassKind.TimestampTzMinMaxOps => (45, "")
  | SQLOperatorClassKind.TimestampTzMinMaxMultiOps => (46, "")
  | SQLOperatorClassKind.TimeBloomOps => (47, "")
  | SQLOperatorClassKind.TimeMinMaxOps => (48, "")
  | SQLOperatorClassKind.TimeMinMaxMultiOps => (49, "")
  | SQLOperatorClassKind.TimeTzBloomOps => (50, "")
  | SQLOperatorClassKind.TimeTzMinMaxOps => (51, "")
  | SQLOperatorClassKind.TimeTzMinMaxMultiOps => (52, "")
  | SQLOperatorClassKind.UuidBloomOps => (53, "")
  | SQLOperatorClassKind.UuidMinMaxOps => (54, "")
  | SQLOperatorClassKind.UuidMinMaxMultiOps => (55, "")
  | SQLOperatorClassKind.Raw s => (56, s)

/-- The left inverse of `SQLOperatorClassKind.code`. -/
def SQLOperatorClassKind.ofCode : Nat × String → SQLOperatorClassKind
  | (0, _) => SQLOperatorClassKind.InetOps
  | (1, _) => SQLOperatorClassKind.JsonbOps
  | (2, _) => SQLOperatorClassKind.JsonbPathOps
  | (3, _) => SQLOperatorClassKind.ArrayOps
  | (4, _) => SQLOperatorClassKind.TextOps
  | (5, _) => SQLOperatorClassKind.BitMinMaxOps
  | (6, _) => SQLOperatorClassKind.VarBitMinMaxOps
  | (7, _) => SQLOperatorClassKind.BpcharBloomOps
  | (8, _) => SQLOperatorClassKind.BpcharMinMaxOps
  | (9, _) => SQLOperatorClassKind.ByteaBloomOps
  | (10, _) => SQLOperatorClassKind.ByteaMinMaxOps
  | (11, _) => SQLOperatorClassKind.DateBloomOps
  | (12, _) => SQLOperatorClassKind.DateMinMaxOps
  | (13, _) => SQLOperatorClassKind.DateMinMaxMultiOps
  | (14, _) => SQLOperatorClassKind.Float4BloomOps
  | (15, _) => SQLOperatorClassKind.Float4MinMaxOps
  | (16, _) => SQLOperatorClassKind.Float4MinMaxMultiOps
  | (17, _) => SQLOperatorClassKind.Float8BloomOps
  | (18, _) => SQLOperatorClassKind.Float8MinMaxOps
  | (19, _) => SQLOperatorClassKind.Float8MinMaxMultiOps
  | (20, _) => SQLOperatorClassKind.InetInclusionOps
  | (21, _) => SQLOperatorClassKind.InetBloomOps
  | (22, _) => SQLOperatorClassKind.InetMinMaxOps
  | (23, _) => SQLOperatorClassKind.InetMinMaxMultiOps
  | (24, _) => SQLOperatorClassKind.Int2BloomOps
  | (25, _) => SQLOperatorClassKind.Int2MinMaxOps
  | (26, _) => SQLOperatorClassKind.Int2MinMaxMultiOps
  | (27, _) => SQLOperatorClassKind.Int4BloomOps
  | (28, _) => SQLOperatorClassKind.Int4MinMaxOps
  | (29, _) => SQLOperatorClassKind.Int4MinMaxMultiOps
  | (30, _) => SQLOperatorClassKind.Int8BloomOps
  | (31, _) => SQLOperatorClassKind.Int8MinMaxOps
  | (32, _) => SQLOperatorClassKind.Int8MinMaxMultiOps
  | (33, _) => SQLOperatorClassKind.NumericBloomOps
  | (34, _) => SQLOperatorClassKind.NumericMinMaxOps
  | (35, _) => SQLOperatorClassKind.NumericMinMaxMultiOps
  | (36, _) => SQLOperatorClassKind.OidBloomOps
  | (37, _) => SQLOperatorClassKind.OidMinMaxOps
  | (38, _) => SQLOperatorClassKind.OidMinMaxMultiOps
  | (39, _) => SQLOperatorClassKind.TextBloomOps
  | (40, _) => SQLOperatorClassKind.TextMinMaxOps
  | (41, _) => SQLOperatorClassKind.TimestampBloomOps
  | (42, _) => SQLOperatorClassKind.TimestampMinMaxOps
  | (43, _) => SQLOperatorClassKind.TimestampMinMaxMultiOps
  | (44, _) => SQLOperatorClassKind.TimestampTzBloomOps
  | (45, _) => SQLOperatorClassKind.TimestampTzMinMaxOps
  | (46, _) => SQLOperatorClassKind.TimestampTzMinMaxMultiOps
  | (47, _) => SQLOperatorClassKind.TimeBloomOps
  | (48, _) => SQLOperatorClassKind.TimeMinMaxOps
  | (49, _) => SQLOperatorClassKind.TimeMinMaxMultiOps
  | (50, _) => SQLOperatorClassKind.TimeTzBloomOps
  | (51, _) => SQLOperatorClassKind.TimeTzMinMaxOps
  | (52, _) => SQLOperatorClassKind.TimeTzMinMaxMultiOps
  | (53, _) => SQLOperatorClassKind.UuidBloomOps
  | (54, _) => SQLOperatorClassKind.UuidMinMaxOps
  | (55, _) => SQLOperatorClassKind.UuidMinMaxMultiOps
  | (56, s) => SQLOperatorClassKind.Raw s
  | _ => SQLOperatorClassKind.InetOps

theorem SQLOperatorClassKind.ofCode_code :
    ∀ a : SQLOperatorClassKind, SQLOperatorClassKind.ofCode a.code = a := by
  intro a
  cases a <;> rfl

instance : DecidableEq SQLOperatorClassKind := fun a b =>
  if h : a.code = b.code then
    Decidable.isTrue (by
      rw [← SQLOperatorClassKind.ofCode_code a, ← SQLOperatorClassKind.ofCode_code b, h])
  else Decidable.isFalse (fun he => h (by rw [he]))

/-- `impl From<&str> for SQLOperatorClassKind`. -/
def sqlOpClassKindFrom (s : String) : SQLOperatorClassKind :=
  match s with
  | "array_ops" => SQLOperatorClassKind.ArrayOps
  | "jsonb_ops" => SQLOperatorClassKind.JsonbOps
  | "text_ops" => SQLOperatorClassKind.TextOps
  | "bit_minmax_ops" => SQLOperatorClassKind.BitMinMaxOps
  | "varbit_minmax_ops" => SQLOperatorClassKind.VarBitMinMaxOps
  | "bpchar_minmax_ops" => SQLOperatorClassKind.BpcharMinMaxOps
  | "bytea_minmax_ops" => SQLOperatorClassKind.ByteaMinMaxOps
  | "float4_minmax_ops" => SQLOperatorClassKind.Float4MinMaxOps
  | "date_minmax_ops" => SQLOperatorClassKind.DateMinMaxOps
  | "float8_minmax_ops" => SQLOperatorClassKind.Float8MinMaxOps
  | "inet_inclusion_ops" => SQLOperatorClassKind.InetInclusionOps
  | "int2_minmax_ops" => SQLOperatorClassKind.Int2MinMaxOps
  | "int4_minmax_ops" => SQLOperatorClassKind.Int4MinMaxOps
  | "int8_minmax_ops" => SQLOperatorClassKind.Int8MinMaxOps
  | "numeric_minmax_ops" => SQLOperatorClassKind.NumericMinMaxOps
  | "oid_minmax_ops" => SQLOperatorClassKind.OidMinMaxOps
  | "text_minmax_ops" => SQLOperatorClassKind.TextMinMaxOps
  | "timestamp_minmax_ops" => SQLOperatorClassKind.TimestampMinMaxOps
  | "timestamptz_minmax_ops" => SQLOperatorClassKind.TimestampTzMinMaxOps
  | "time_minmax_ops" => SQLOperatorClassKind.TimeMinMaxOps
  | "timetz_minmax_ops" => SQLOperatorClassKind.TimeTzMinMaxOps
  | "uuid_minmax_ops" => SQLOperatorClassKind.UuidMinMaxOps
  | "inet_ops" => SQLOperatorClassKind.InetOps
  | "jsonb_path_ops" => SQLOperatorClassKind.JsonbPathOps
  | "bpchar_bloom_ops" => SQLOperatorClassKind.BpcharBloomOps
  | "bytea_bloom_ops" => SQLOperatorClassKind.ByteaBloomOps
  | "date_bloom_ops" => SQLOperatorClassKind.DateBloomOps
  | "date_minmax_multi_ops" => SQLOperatorClassKind.DateMinMaxMultiOps
  | "float4_bloom_ops" => SQLOperatorClassKind.Float4BloomOps
  | "float4_minmax_multi_ops" => SQLOperatorClassKind.Float4MinMaxMultiOps
  | "float8_bloom_ops" => SQLOperatorClassKind.Float8BloomOps
  | "float8_minmax_multi_ops" => SQLOperatorClassKind.Float8MinMaxMultiOps
  | "inet_bloom_ops" => SQLOperatorClassKind.InetBloomOps
  | "inet_minmax_ops" => SQLOperatorClassKind.InetMinMaxOps
  | "inet_minmax_multi_ops" => SQLOperatorClassKind.InetMinMaxMultiOps
  | "int2_bloom_ops" => SQLOperatorClassKind.Int2BloomOps
  | "int2_minmax_multi_ops" => SQLOperatorClassKind.Int2MinMaxMultiOps
  | "int4_bloom_ops" => SQLOperatorClassKind.Int4BloomOps
  | "int4_minmax_multi_ops" => SQLOperatorClassKind.Int4MinMaxMultiOps
  | "int8_bloom_ops" => SQLOperatorClassKind.Int8BloomOps
  | "int8_minmax_multi_ops" => SQLOperatorClassKind.Int8MinMaxMultiOps
  | "numeric_bloom_ops" => SQLOperatorClassKind.NumericBloomOps
  | "numeric_minmax_multi_ops" => SQLOperatorClassKind.NumericMinMaxMultiOps
  | "oid_bloom_ops" => SQLOperatorClassKind.OidBloomOps
  | "oid_minmax_multi_ops" => SQLOperatorClassKind.OidMinMaxMultiOps
  | "text_bloom_ops" => SQLOperatorClassKind.TextBloomOps
  | "timestamp_bloom_ops" => SQLOperatorClassKind.TimestampBloomOps
  | "timestamp_minmax_multi_ops" => SQLOperatorClassKind.TimestampMinMaxMultiOps
  | "timestamptz_bloom_ops" => SQLOperatorClassKind.TimestampTzBloomOps
  | "timestamptz_minmax_multi_ops" => SQLOperatorClassKind.TimestampTzMinMaxMultiOps
  | "time_bloom_ops" => SQLOperatorClassKind.TimeBloomOps
  | "time_minmax_multi_ops" => SQLOperatorClassKind.TimeMinMaxMultiOps
  | "timetz_bloom_ops" => SQLOperatorClassKind.TimeTzBloomOps
  | "timetz_minmax_multi_ops" => SQLOperatorClassKind.TimeTzMinMaxMultiOps
  | "uuid_bloom_ops" => SQLOperatorClassKind.UuidBloomOps
  | "uuid_minmax_multi_ops" => SQLOperatorClassKind.UuidMinMaxMultiOps
  | other => SQLOperatorClassKind.Raw other

structure SQLOperatorClass where
  kind : SQLOperatorClassKind
  is_default : Bool
deriving DecidableEq

structure PostgresSchemaExt where
  opclasses : List (IndexFieldId × SQLOperatorClass)
  indexes : List (IndexId × SqlIndexAlgorithm)
  sequences : List Sequence
deriving DecidableEq

def PostgresSchemaExt.default : PostgresSchemaExt := ⟨[], [], []⟩

/-- `PostgresSchemaExt::index_algorithm`: a binary search by `IndexId`;
`none` models the `panic!` on a missing id. -/
def PostgresSchemaExt.index_algorithm (ext : PostgresSchemaExt) (index_id : IndexId) :
    Option SqlIndexAlgorithm :=
  bsearchByKey ext.indexes index_id

/-- `PostgresSchemaExt::get_opclass`: a binary search by `IndexFieldId`. -/
def PostgresSchemaExt.get_opclass (ext : PostgresSchemaExt) (index_field_id : IndexFieldId) :
    Option SQLOperatorClass :=
  bsearchByKey ext.opclasses index_field_id

/-- One row of the foreign-key catalog query.  `colidx`
(`generate_subscripts(con1.conkey, 1)`) appears in the inner select and in the
`ORDER BY con_id, con.colidx` clause; the Rust loop itself never reads it, so
it is a ghost field used only to state the catalog's ordering guarantee. -/
structure PgFkRow where
  con_id : Int
  child_column : String
  parent_table : String
  parent_column : String
  confdeltype : Char
  confupdtype : Char
  referenced_schema_name : String
  constraint_name : String
  table_name : String
  colidx : Nat
deriving DecidableEq

/-- One row of the index catalog query.  `indkeyidx` is selected and used in
`ORDER BY indexinfos.relname, rawIndex.indkeyidx` but never read by the Rust
loop; it is kept to state the catalog's ordering guarantee. -/
structure PgIndexRow where
  name : String
  column_name : String
  is_unique : Bool
  is_primary_key : Bool
  table_name : String
  index_algo : String
  indkeyidx : Nat
  opclass : Option String
  opcdefault : Option Bool
  column_order : Option String
deriving DecidableEq

structure PgSequenceRow where
  sequence_name : String
  start_value : Int
  min_value : Int
  max_value : Int
  increment_by : Int
  cycle : Bool
  cache_size : Int
deriving DecidableEq

structure PgEnumRow where
  name : String
  value : String
deriving DecidableEq

structure PgViewRow where
  view_name : String
  view_sql : Option String
deriving DecidableEq

structure PgProcedureRow where
  name : String
  definition : Option String
deriving DecidableEq

/-- The result sets of the fixed sequence of read-only catalog queries one
`describe` call issues, plus the size returned by the `get_size` query. -/
structure PgCatalog where
  tables : List String
  sequences : List PgSequenceRow
  enums : List PgEnumRow
  columns : List PgColRow
  fks : List PgFkRow
  indexes : List PgIndexRow
  views : List PgViewRow
  procedures : List PgProcedureRow
  size : Nat

/-! `IndexMap<String, TableId>`: an insertion-ordered map. -/

def imGet (m : List (String × TableId)) (k : String) : Option TableId :=
  (m.find? (fun p => p.1 == k)).map (·.2)

def imInsert (m : List (String × TableId)) (k : String) (v : TableId) :
    List (String × TableId) :=
  if m.any (fun p => p.1 == k) then
    m.map (fun p => if p.1 == k then (p.1, v) else p)
  else m ++ [(k, v)]

/-- The shared `get_table_names` loop: push each table into the schema and
record its dense id in the insertion-ordered map. -/
def getTableNamesLoop (names : List String) (m : List (String × TableId))
    (s : SqlSchema) : List (String × TableId) × SqlSchema :=
  match names with
  | [] => (m, s)
  | n :: rest =>
    let (id, s2) := s.push_table n
    getTableNamesLoop rest (imInsert m n id) s2

def pgSequenceOf (r : PgSequenceRow) : Sequence :=
  ⟨r.sequence_name, r.start_value, r.min_value, r.max_value, r.increment_by,
    r.cycle, r.cache_size, false⟩

/-- `get_enums`: group values by enum name in a `BTreeMap`, then sort by name. -/
def pgGetEnums (rows : List PgEnumRow) : List Enum :=
  let m := rows.foldl (fun m r =>
    match omLookup m r.name with
    | some vs => omInsert m r.name (vs ++ [r.value])
    | none => omInsert m r.name [r.value]) ([] : List (String × List String))
  sortByKey (fun e => e.name) (m.map (fun p => Enum.mk p.1 p.2))

/-- The `is_identity` parse of `get_columns`; `none` models the `panic!`. -/
def pgIsIdentity : Option String → Option Bool
  | some s =>
    if strLower s == "yes" then some true
    else if strLower s == "no" then some false
    else none
  | none => some false

/-- The `get_columns` row loop. -/
def pgColsLoop (cockroach pgNativeTypes : Bool) (enums : List Enum)
    (table_ids : List (String × TableId))
    (getDefault : String → ColumnType → Option DefaultValue)
    (rows : List PgColRow) (acc : List (TableId × Column)) :
    Except DescriberError (List (TableId × Column)) :=
  match rows with
  | [] => Except.ok acc
  | col :: rest =>
    match imGet table_ids col.table_name with
    | none => pgColsLoop cockroach pgNativeTypes enums table_ids getDefault rest acc
    | some table_id =>
      match pgIsIdentity col.is_identity with
      | none => Except.error (DescriberError.fatal "unrecognized is_identity variant")
      | some is_identity =>
        match (if cockroach && !pgNativeTypes then get_column_type_cockroachdb col enums
               else get_column_type_postgresql col enums) with
        | none => Except.error (DescriberError.fatal "unrecognized is_nullable variant")
        | some tpe =>
          let default := col.column_default.bind (fun raw => getDefault raw tpe)
          let auto_increment := is_identity
            || (match default with
                | some d => (match d.kind with | DefaultKind.Sequence _ => true | _ => false)
                | none => false)
            || (cockroach && (match default with
                | some d => (match d.kind with
                   | DefaultKind.DbGenerated s => s == "unique_rowid()"
                   | _ => false)
                | none => false))
          pgColsLoop cockroach pgNativeTypes enums table_ids getDefault rest
            (acc ++ [(table_id, ⟨col.column_name, tpe, default, auto_increment⟩)])

/-- The referential-action decode of `get_foreign_keys`; `none` models the
`panic!` on an unrecognized action character. -/
def pgFkAction : Char → Option ForeignKeyAction
  | 'a' => some ForeignKeyAction.NoAction
  | 'r' => some ForeignKeyAction.Restrict
  | 'c' => some ForeignKeyAction.Cascade
  | 'n' => some ForeignKeyAction.SetNull
  | 'd' => some ForeignKeyAction.SetDefault
  | _ => none

/-- The `get_foreign_keys` row loop, accumulating multi-column keys by
constraint id in a `BTreeMap`. -/
def pgFkLoop (schemaName : String) (table_ids : List (String × TableId))
    (rows : List PgFkRow) (m : List (Int × (TableId × ForeignKey))) :
    Except DescriberError (List (Int × (TableId × ForeignKey))) :=
  match rows with
  | [] => Except.ok m
  | row :: rest =>
    if schemaName ≠ row.referenced_schema_name then
      Except.error (DescriberError.crossSchema
        (schemaName ++ "." ++ row.table_name)
        (row.referenced_schema_name ++ "." ++ row.parent_table)
        row.constraint_name)
    else
      match imGet table_ids row.parent_table with
      | none => pgFkLoop schemaName table_ids rest m
      | some referenced_table_id =>
        match imGet table_ids row.table_name with
        | none => pgFkLoop schemaName table_ids rest m
        | some table_id =>
          match pgFkAction row.confdeltype with
          | none => Except.error (DescriberError.fatal "unrecognized foreign key action (on delete)")
          | some on_delete_action =>
            match pgFkAction row.confupdtype with
            | none => Except.error (DescriberError.fatal "unrecognized foreign key action (on update)")
            | some on_update_action =>
              let m2 := match omLookup m row.con_id with
                | some (tid, fk) =>
                  omInsert m row.con_id (tid,
                    { fk with columns := fk.columns ++ [row.child_column],
                              referenced_columns := fk.referenced_columns ++ [row.parent_column] })
                | none =>
                  omInsert m row.con_id (table_id,
                    ⟨some row.constraint_name, [row.child_column], referenced_table_id,
                      [row.parent_column], on_delete_action, on_update_action⟩)
              pgFkLoop schemaName table_ids rest m2

/-- `get_foreign_keys`: run the row loop, push the accumulated keys in
ascending constraint-id order, then sort by `(table id, columns)`. -/
def pgGetForeignKeys (schemaName : String) (table_ids : List (String × TableId))
    (rows : List PgFkRow) (foreign_keys : List (TableId × ForeignKey)) :
    Except DescriberError (List (TableId × ForeignKey)) :=
  match pgFkLoop schemaName table_ids rows [] with
  | Except.error e => Except.error e
  | Except.ok m => Except.ok (sortByKey fkSortKey (foreign_keys ++ m.map (·.2)))

/-- The sort-order decode of `get_indices`; `none` in the inner option models
the `panic!` on an unexpected collation value. -/
def pgSortOrderOf (column_order : Option String) :
    Except DescriberError (Option SQLSortOrder) :=
  match column_order with
  | none => Except.ok none
  | some v =>
    if v == "ASC" then Except.ok (some SQLSortOrder.Asc)
    else if v == "DESC" then Except.ok (some SQLSortOrder.Desc)
    else Except.error (DescriberError.fatal "unexpected sort order")

/-- The index-algorithm decode of `get_indices` (unknown algorithms fall back
to BTree with a warning; on Cockroach only `inverted` is special-cased). -/
def pgAlgorithmOf (cockroach : Bool) (index_algo : String) : SqlIndexAlgorithm :=
  if cockroach then
    if index_algo == "inverted" then SqlIndexAlgorithm.Gin else SqlIndexAlgorithm.BTree
  else if index_algo == "btree" then SqlIndexAlgorithm.BTree
  else if index_algo == "hash" then SqlIndexAlgorithm.Hash
  else if index_algo == "gist" then SqlIndexAlgorithm.Gist
  else if index_algo == "gin" then SqlIndexAlgorithm.Gin
  else if index_algo == "spgist" then SqlIndexAlgorithm.SpGist
  else if index_algo == "brin" then SqlIndexAlgorithm.Brin
  else SqlIndexAlgorithm.BTree

/-- `entry.0.iter_mut().position(|idx| idx.name == name)` plus the found
element. -/
def findIndexByName : List Index → String → Option (Nat × Index)
  | [], _ => none
  | idx :: rest, n =>
    if idx.name == n then some (0, idx)
    else (findIndexByName rest n).map (fun p => (p.1 + 1, p.2))

/-- The per-table accumulator of `get_indices`: ordinary indexes so far and
the primary key under assembly. -/
abbrev PgIndexEntry := List Index × Option PrimaryKey

/-- One row of the `get_indices` loop. -/
def pgIndexStep (cockroach : Bool) (table_ids : List (String × TableId))
    (st : List (TableId × PgIndexEntry) × PostgresSchemaExt) (row : PgIndexRow) :
    Except DescriberError (List (TableId × PgIndexEntry) × PostgresSchemaExt) :=
  let (m, ext) := st
  match imGet table_ids row.table_name with
  | none => Except.ok st
  | some table_id =>
    match pgSortOrderOf row.column_order with
    | Except.error e => Except.error e
    | Except.ok sort_order =>
      let algorithm := pgAlgorithmOf cockroach row.index_algo
      if row.is_primary_key then
        let entry := (omLookup m table_id).getD ([], none)
        let entry2 : PgIndexEntry :=
          match entry.2 with
          | some pk =>
            (entry.1, some { pk with columns := pk.columns ++ [PrimaryKeyColumn.mk row.column_name] })
          | none =>
            (entry.1, some ⟨[PrimaryKeyColumn.mk row.column_name], some row.name⟩)
        Except.ok (omInsert m table_id entry2, ext)
      else
        let operator_class : Option SQLOperatorClass :=
          if !(algorithm = SqlIndexAlgorithm.BTree ∨ algorithm = SqlIndexAlgorithm.Hash : Bool) then
            row.opclass.map (fun c => ⟨sqlOpClassKindFrom c, row.opcdefault.getD false⟩)
          else none
        let entry := (omLookup m table_id).getD ([], none)
        let column : IndexColumn := ⟨row.column_name, sort_order⟩
        match findIndexByName entry.1 row.name with
        | some (index_pos, existing_index) =>
          let index_id : IndexId := ⟨table_id, index_pos⟩
          let ext2 := { ext with indexes := ext.indexes ++ [(index_id, algorithm)] }
          let ext3 := match operator_class with
            | some opclass =>
              { ext2 with opclasses := ext2.opclasses ++
                  [(⟨index_id, existing_index.columns.length⟩, opclass)] }
            | none => ext2
          let newIndexes := entry.1.set index_pos
            { existing_index with columns := existing_index.columns ++ [column] }
          Except.ok (omInsert m table_id (newIndexes, entry.2), ext3)
        | none =>
          let index_id : IndexId := ⟨table_id, entry.1.length⟩
          let ext2 := { ext with indexes := ext.indexes ++ [(index_id, algorithm)] }
          let ext3 := match operator_class with
            | some opclass =>
              { ext2 with opclasses := ext2.opclasses ++ [(⟨index_id, 0⟩, opclass)] }
            | none => ext2
          Except.ok (omInsert m table_id
            (entry.1 ++ [⟨row.name,
              [column],
              if row.is_unique then IndexType.Unique else IndexType.Normal⟩], entry.2), ext3)

/-- The `get_indices` row loop. -/
def pgIndicesLoop (cockroach : Bool) (table_ids : List (String × TableId))
    (rows : List PgIndexRow)
    (st : List (TableId × PgIndexEntry) × PostgresSchemaExt) :
    Except DescriberError (List (TableId × PgIndexEntry) × PostgresSchemaExt) :=
  match rows with
  | [] => Except.ok st
  | row :: rest =>
    match pgIndexStep cockroach table_ids st row with
    | Except.error e => Except.error e
    | Except.ok st2 => pgIndicesLoop cockroach table_ids rest st2

/-- The final loop of `get_indices`: attach the assembled indexes and primary
key to each table, silently dropping a primary key all of whose columns are
absent from the described columns.  (Out-of-range table ids cannot occur and
`List.set` is the identity there.) -/
def pgAttachStep (s : SqlSchema) (e : TableId × PgIndexEntry) : SqlSchema :=
  let table_id := e.1
  let indexes := e.2.1
  let pk := e.2.2
  let pk_is_invalid :=
    match pk with
    | some pk => pk.columns.all (fun col => (s.tableColumn table_id col.name).isNone)
    | none => false
  let newTable :=
    match s.tables[table_id]? with
    | some t => { t with primary_key := if pk_is_invalid then none else pk,
                         indices := indexes }
    | none => default
  { s with tables := s.tables.set table_id newTable }

def pgAttachIndexes (m : List (TableId × PgIndexEntry)) (s : SqlSchema) : SqlSchema :=
  m.foldl pgAttachStep s

/-- `get_indices`. -/
def pgGetIndices (cockroach : Bool) (table_ids : List (String × TableId))
    (rows : List PgIndexRow) (ext : PostgresSchemaExt) (s : SqlSchema) :
    Except DescriberError (SqlSchema × PostgresSchemaExt) :=
  match pgIndicesLoop cockroach table_ids rows ([], ext) with
  | Except.error e => Except.error e
  | Except.ok (m, ext2) => Except.ok (pgAttachIndexes m s, ext2)

/-- `SqlSchemaDescriberBackend::describe` for Postgres/CockroachDB.
`get_default_value` lives in the `default` submodule, which is not among the
provided sources; it is a pure function of the raw default string and the
column type, passed in as a parameter. -/
def pgDescribe (cockroach pgNativeTypes : Bool) (schemaName : String)
    (getDefault : String → ColumnType → Option DefaultValue) (cat : PgCatalog) :
    Except DescriberError (SqlSchema × PostgresSchemaExt) :=
  let (table_ids, s1) := getTableNamesLoop cat.tables [] SqlSchema.default
  let ext1 := { PostgresSchemaExt.default with
    sequences := PostgresSchemaExt.default.sequences ++ cat.sequences.map pgSequenceOf }
  let enums := pgGetEnums cat.enums
  let s2 := { s1 with enums := enums }
  match pgColsLoop cockroach pgNativeTypes enums table_ids getDefault cat.columns [] with
  | Except.error e => Except.error e
  | Except.ok cols =>
    let s3 := { s2 with columns := cols }
    match pgGetForeignKeys schemaName table_ids cat.fks s3.foreign_keys with
    | Except.error e => Except.error e
    | Except.ok fks =>
      let s4 := { s3 with foreign_keys := fks }
      match pgGetIndices cockroach table_ids cat.indexes ext1 s4 with
      | Except.error e => Except.error e
      | Except.ok (s5, ext2) =>
        let s6 := { s5 with
          views := cat.views.map (fun (r : PgViewRow) => View.mk r.view_name r.view_sql) }
        let s7 := { s6 with procedures :=
          if cockroach then []
          else cat.procedures.map (fun (r : PgProcedureRow) => Procedure.mk r.name r.definition) }
        let s8 := { s7 with
          foreign_keys := sortByKey (fun p => p.1) s7.foreign_keys,
          columns := sortByKey (fun p => p.1) s7.columns }
        let ext3 := { ext2 with
          indexes := sortByKey (fun p => p.1) ext2.indexes,
          opclasses := sortByKey (fun p => p.1) ext2.opclasses }
        Except.ok (s8, ext3)

/-- `SqlSchemaDescriberBackend::get_metadata` for Postgres: counts the map
built by the same `get_table_names` routine `describe` uses (the size query is
a catalog input). -/
def pgGetMetadata (cat : PgCatalog) : SqlMetadata :=
  let (table_ids, _) := getTableNamesLoop cat.tables [] SqlSchema.default
  { table_count := table_ids.length, size_in_bytes := cat.size }

/-! ### SQLite describer (sqlite.rs) -/

/-- `get_column_type` for SQLite. -/
def get_column_type (tpe : String) (arity : ColumnArity) : ColumnType :=
  let tpe_lower := strLower tpe
  let family :=
    if tpe_lower == "int" then ColumnTypeFamily.Int
    else if tpe_lower == "integer" then ColumnTypeFamily.Int
    else if tpe_lower == "bigint" then ColumnTypeFamily.BigInt
    else if tpe_lower == "real" then ColumnTypeFamily.Float
    else if tpe_lower == "float" then ColumnTypeFamily.Float
    else if tpe_lower == "serial" then ColumnTypeFamily.Int
    else if tpe_lower == "boolean" then ColumnTypeFamily.Boolean
    else if tpe_lower == "text" then ColumnTypeFamily.String
    else if strContainsSub tpe_lower "char" then ColumnTypeFamily.String
    else if strContainsSub tpe_lower "numeric" then ColumnTypeFamily.Decimal
    else if strContainsSub tpe_lower "decimal" then ColumnTypeFamily.Decimal
    else if tpe_lower == "date" then ColumnTypeFamily.DateTime
    else if tpe_lower == "datetime" then ColumnTypeFamily.DateTime
    else if tpe_lower == "timestamp" then ColumnTypeFamily.DateTime
    else if tpe_lower == "binary" || tpe_lower == "blob" then ColumnTypeFamily.Binary
    else if tpe_lower == "double" then ColumnTypeFamily.Float
    else if tpe_lower == "binary[]" then ColumnTypeFamily.Binary
    else if tpe_lower == "boolean[]" then ColumnTypeFamily.Boolean
    else if tpe_lower == "date[]" then ColumnTypeFamily.DateTime
    else if tpe_lower == "datetime[]" then ColumnTypeFamily.DateTime
    else if tpe_lower == "timestamp[]" then ColumnTypeFamily.DateTime
    else if tpe_lower == "double[]" then ColumnTypeFamily.Float
    else if tpe_lower == "float[]" then ColumnTypeFamily.Float
    else if tpe_lower == "int[]" then ColumnTypeFamily.Int
    else if tpe_lower == "integer[]" then ColumnTypeFamily.Int
    else if tpe_lower == "text[]" then ColumnTypeFamily.String
    else if strStarts tpe_lower "decimal" then ColumnTypeFamily.Decimal
    else ColumnTypeFamily.Unsupported tpe_lower
  { full_data_type := tpe, family := family, arity := arity, native_type := none }

/-- `unquote_sqlite_string_default`: strip one pair of matching outer single
or double quotes, then collapse each doubled single quote.  (The source
implements the outer strip with the regex
`(?ms)^'(.*)'$|^"(.*)"$` and the unescape with a global replacement of two
single quotes by one.) -/
def unquote_sqlite_string_default (s : String) : String :=
  let cs := s.data
  let stripped :=
    match cs with
    | c :: (_ :: _) =>
      if (c = squote ∨ c = '"') ∧ cs.getLast? = some c then
        (cs.drop 1).dropLast
      else cs
    | _ => cs
  String.mk (listReplaceAll [squote, squote] [squote] stripped)

/-- Modelled from the spec: the `Parser` trait (`parsers.rs`, providing
`parse_int`, `parse_big_int`, `parse_float`, `parse_bool`) is not among the
provided sources.  Integer parsing is plain decimal parsing; no claim depends
on these values. -/
def parse_int (s : String) : Option PrismaValue :=
  (s.trim.toInt?).map PrismaValue.int

/-- Modelled from the spec: see `parse_int`. -/
def parse_big_int (s : String) : Option PrismaValue :=
  (s.trim.toInt?).map PrismaValue.int

/-- Modelled from the spec: float defaults keep their source text; a value is
recognized when it is a decimal integer (no claim depends on this). -/
def parse_float (s : String) : Option PrismaValue :=
  (s.trim.toInt?).map (fun _ => PrismaValue.float s.trim)

/-- Modelled from the spec: see `parse_int`. -/
def parse_bool (s : String) : Option PrismaValue :=
  if strLower s == "true" then some (PrismaValue.boolean true)
  else if strLower s == "false" then some (PrismaValue.boolean false)
  else none

/-- The lowercase spellings of `now()`-like datetime defaults recognized by
`get_columns` (`current_timestamp`, `datetime('now')`,
`datetime('now', 'localtime')`). -/
def sqliteNowSpellings : List String :=
  ["current_timestamp",
   "datetime(" ++ squoteS ++ "now" ++ squoteS ++ ")",
   "datetime(" ++ squoteS ++ "now" ++ squoteS ++ ", " ++ squoteS ++ "localtime" ++ squoteS ++ ")"]

/-- A raw `dflt_value` cell of `PRAGMA table_info`:  absent, SQL null, a text
value, or a non-text value. -/
inductive SqliteDefaultCell where
  | nullValue
  | text (s : String)
  | other
deriving DecidableEq

/-- One row of `PRAGMA table_info("<table>")`. -/
structure SqliteColRow where
  cid : Nat
  name : String
  ctype : String
  notnull : Bool
  dflt_value : Option SqliteDefaultCell
  pk : Int
deriving DecidableEq

/-- The default-value decode of SQLite `get_columns`. -/
def sqliteDefaultOf (tpe : ColumnType) (cell : Option SqliteDefaultCell) :
    Option DefaultValue :=
  match cell with
  | none => none
  | some SqliteDefaultCell.nullValue => none
  | some SqliteDefaultCell.other => none
  | some (SqliteDefaultCell.text default_string) =>
    if strLower default_string == "null" then none
    else some (match tpe.family with
      | ColumnTypeFamily.Int =>
        match parse_int default_string with
        | some v => DefaultValue.value v
        | none => DefaultValue.db_generated default_string
      | ColumnTypeFamily.BigInt =>
        match parse_big_int default_string with
        | some v => DefaultValue.value v
        | none => DefaultValue.db_generated default_string
      | ColumnTypeFamily.Float =>
        match parse_float default_string with
        | some v => DefaultValue.value v
        | none => DefaultValue.db_generated default_string
      | ColumnTypeFamily.Decimal =>
        match parse_float default_string with
        | some v => DefaultValue.value v
        | none => DefaultValue.db_generated default_string
      | ColumnTypeFamily.Boolean =>
        match parse_int default_string with
        | some (PrismaValue.int 1) => DefaultValue.value (PrismaValue.boolean true)
        | some (PrismaValue.int 0) => DefaultValue.value (PrismaValue.boolean false)
        | _ =>
          match parse_bool default_string with
          | some v => DefaultValue.value v
          | none => DefaultValue.db_generated default_string
      | ColumnTypeFamily.String =>
        DefaultValue.value (PrismaValue.string (unquote_sqlite_string_default default_string))
      | ColumnTypeFamily.DateTime =>
        if strLower default_string ∈ sqliteNowSpellings then DefaultValue.now
        else DefaultValue.db_generated default_string
      | ColumnTypeFamily.Binary => DefaultValue.db_generated default_string
      | ColumnTypeFamily.Json => DefaultValue.db_generated default_string
      | ColumnTypeFamily.Uuid => DefaultValue.db_generated default_string
      | ColumnTypeFamily.Enum _ => DefaultValue.value (PrismaValue.enumv default_string)
      | ColumnTypeFamily.Unsupported _ => DefaultValue.db_generated default_string)

/-- One column of the `get_columns` row map. -/
def sqliteMkColumn (row : SqliteColRow) : Column :=
  let arity := if row.notnull then ColumnArity.Required else ColumnArity.Nullable
  let tpe := get_column_type row.ctype arity
  let default := sqliteDefaultOf tpe row.dflt_value
  ⟨row.name, tpe, default, false⟩

/-- The single row pass of SQLite `get_columns`: build the column list and the
`pk_cols` map (pk rank → column name) in row order. -/
def sqliteColsPass : List SqliteColRow → List (Int × String) →
    List Column × List (Int × String)
  | [], m => ([], m)
  | row :: rest, m =>
    let m2 := if row.pk > 0 then omInsert m row.pk row.name else m
    let (cols, mf) := sqliteColsPass rest m2
    (sqliteMkColumn row :: cols, mf)

/-- SQLite `get_columns`: columns plus the inferred primary key, with the
auto-increment / forced-`Required` rule for a single `INTEGER` primary-key
column. -/
def sqliteGetColumns (rows : List SqliteColRow) :
    List Column × Option PrimaryKey :=
  let (cols, pk_cols) := sqliteColsPass rows []
  match pk_cols with
  | [] => (cols, none)
  | [p] =>
    let pkc := PrimaryKeyColumn.mk p.2
    let cols2 := cols.map (fun c =>
      if c.name == pkc.name ∧ strLower c.tpe.full_data_type == "integer" then
        { c with auto_increment := true, tpe := { c.tpe with arity := ColumnArity.Required } }
      else c)
    (cols2, some ⟨[pkc], none⟩)
  | ps =>
    (cols, some ⟨ps.map (fun p => PrimaryKeyColumn.mk p.2), none⟩)

/-- One row of `PRAGMA foreign_key_list("<table>")`. -/
structure SqliteFkRow where
  id : Int
  seq : Int
  fromCol : String
  toCol : Option String
  table : String
  on_delete : String
  on_update : String
deriving DecidableEq

/-- The `IntermediateForeignKey` accumulator of `push_foreign_keys`: column
maps keyed by the catalog `seq` (column position) field. -/
structure IntermediateForeignKey where
  columns : List (Int × String)
  referenced_table : TableId
  referenced_columns : List (Int × String)
  on_delete_action : ForeignKeyAction
  on_update_action : ForeignKeyAction
deriving DecidableEq

/-- The referential-action decode of `push_foreign_keys`; `none` models the
`panic!`. -/
def sqliteFkActionOf (s : String) : Option ForeignKeyAction :=
  match strLower s with
  | "no action" => some ForeignKeyAction.NoAction
  | "restrict" => some ForeignKeyAction.Restrict
  | "set null" => some ForeignKeyAction.SetNull
  | "set default" => some ForeignKeyAction.SetDefault
  | "cascade" => some ForeignKeyAction.Cascade
  | _ => none

/-- The `push_foreign_keys` row loop. -/
def sqliteFkLoop (table_ids : List (String × TableId)) (rows : List SqliteFkRow)
    (m : List (Int × IntermediateForeignKey)) :
    Except DescriberError (List (Int × IntermediateForeignKey)) :=
  match rows with
  | [] => Except.ok m
  | row :: rest =>
    match imGet table_ids row.table with
    | none => sqliteFkLoop table_ids rest m
    | some referenced_table_id =>
      match omLookup m row.id with
      | some fk =>
        let fk2 := { fk with
          columns := omInsert fk.columns row.seq row.fromCol,
          referenced_columns :=
            match row.toCol with
            | some c => omInsert fk.referenced_columns row.seq c
            | none => fk.referenced_columns }
        sqliteFkLoop table_ids rest (omInsert m row.id fk2)
      | none =>
        match sqliteFkActionOf row.on_delete with
        | none => Except.error (DescriberError.fatal "Unrecognized on delete action")
        | some on_delete_action =>
          match sqliteFkActionOf row.on_update with
          | none => Except.error (DescriberError.fatal "Unrecognized on update action")
          | some on_update_action =>
            let fk : IntermediateForeignKey :=
              { columns := omInsert [] row.seq row.fromCol,
                referenced_table := referenced_table_id,
                referenced_columns :=
                  match row.toCol with
                  | some c => omInsert [] row.seq c
                  | none => [],
                on_delete_action := on_delete_action,
                on_update_action := on_update_action }
            sqliteFkLoop table_ids rest (omInsert m row.id fk)

/-- The second pass of `push_foreign_keys`: read each accumulated key in
ascending constraint-id order, its column lists in ascending `seq` order
(`BTreeMap` iteration; the explicit key sort in the source re-sorts an already
ascending key list), and push the real foreign keys. -/
def sqliteFkFinish (table_id : TableId) (m : List (Int × IntermediateForeignKey))
    (s : SqlSchema) : SqlSchema :=
  m.foldl (fun s p =>
    let ifk := p.2
    let fk : ForeignKey :=
      ⟨none, ifk.columns.map (·.2), ifk.referenced_table,
        ifk.referenced_columns.map (·.2), ifk.on_delete_action, ifk.on_update_action⟩
    { s with foreign_keys := s.foreign_keys ++ [(table_id, fk)] }) s

/-- `push_foreign_keys`. -/
def sqlitePushForeignKeys (table_id : TableId) (table_ids : List (String × TableId))
    (rows : List SqliteFkRow) (s : SqlSchema) : Except DescriberError SqlSchema :=
  match sqliteFkLoop table_ids rows [] with
  | Except.error e => Except.error e
  | Except.ok m => Except.ok (sqliteFkFinish table_id m s)

/-- One row of `PRAGMA index_list("<table>")`. -/
structure SqliteIndexListRow where
  name : String
  unique : Bool
  origin : String
  isPartial : Bool
deriving DecidableEq

/-- One row of `PRAGMA index_info("<index>")`. -/
structure SqliteIdxInfoRow where
  seqno : Int
  name : Option String
deriving DecidableEq

/-- One row of `PRAGMA index_xinfo("<index>")`. -/
structure SqliteIdxXinfoRow where
  seqno : Int
  name : Option String
  desc : Option Int
deriving DecidableEq

/-- The `index_info` pass of SQLite `get_indices`: place each named column at
its `seqno` position (growing the list as needed); a null column name marks an
expression or rowid index, making the whole index invalid. -/
def sqliteInfoPass (rows : List SqliteIdxInfoRow) (index : Index) (valid : Bool) :
    Index × Bool :=
  match rows with
  | [] => (index, valid)
  | row :: rest =>
    match row.name with
    | some name =>
      let pos := row.seqno.toNat
      let cols :=
        if index.columns.length ≤ pos then
          index.columns ++ List.replicate (pos + 1 - index.columns.length) default
        else index.columns
      sqliteInfoPass rest { index with columns := cols.set pos (IndexColumn.new name) } valid
    | none => sqliteInfoPass rest index false

/-- The `index_xinfo` pass of SQLite `get_indices`: set the sort order of each
named column; `error` models the panic of an out-of-bounds position index. -/
def sqliteXinfoPass (rows : List SqliteIdxXinfoRow) (index : Index) :
    Except DescriberError Index :=
  match rows with
  | [] => Except.ok index
  | row :: rest =>
    match row.name with
    | some _ =>
      let pos := row.seqno.toNat
      match index.columns[pos]? with
      | none => Except.error (DescriberError.fatal "index column position out of bounds")
      | some col =>
        let sort_order := row.desc.map (fun v =>
          if v = 0 then SQLSortOrder.Asc else SQLSortOrder.Desc)
        sqliteXinfoPass rest
          { index with columns := index.columns.set pos { col with sort_order := sort_order } }
    | none => sqliteXinfoPass rest index

structure SqliteViewRow where
  view_name : String
  view_sql : Option String
deriving DecidableEq

/-- The result sets of the pragma queries one SQLite `describe` call issues,
as functions of the queried table / index name. -/
structure SqliteCatalog where
  tableNames : List String
  colRows : String → List SqliteColRow
  fkRows : String → List SqliteFkRow
  indexListRows : String → List SqliteIndexListRow
  indexInfoRows : String → List SqliteIdxInfoRow
  indexXinfoRows : String → List SqliteIdxXinfoRow
  views : List SqliteViewRow
  size : Nat

/-- `SQLITE_SYSTEM_TABLES`. -/
def SQLITE_SYSTEM_TABLES : List String :=
  ["sqlite_sequence", "sqlite_stat1", "sqlite_stat2", "sqlite_stat3", "sqlite_stat4"]

/-- `is_system_table`. -/
def is_system_table (table_name : String) : Bool :=
  SQLITE_SYSTEM_TABLES.any (fun t => table_name == t)

/-- SQLite `get_table_names`: list tables from `sqlite_master` (name-sorted by
the query), drop system tables, push the rest. -/
def sqliteGetTableNames (cat : SqliteCatalog) (s : SqlSchema) :
    List (String × TableId) × SqlSchema :=
  getTableNamesLoop (cat.tableNames.filter (fun n => !is_system_table n)) [] s

/-- SQLite `get_indices` for one table. -/
def sqliteGetIndices (cat : SqliteCatalog) (rows : List SqliteIndexListRow) :
    Except DescriberError (List Index) :=
  match rows with
  | [] => Except.ok []
  | row :: rest =>
    if row.origin == "pk" || row.isPartial then sqliteGetIndices cat rest
    else
      let index0 : Index :=
        ⟨row.name, [], if row.unique then IndexType.Unique else IndexType.Normal⟩
      let (index1, valid) := sqliteInfoPass (cat.indexInfoRows row.name) index0 true
      match sqliteXinfoPass (cat.indexXinfoRows row.name) index1 with
      | Except.error e => Except.error e
      | Except.ok index2 =>
        match sqliteGetIndices cat rest with
        | Except.error e => Except.error e
        | Except.ok indices => Except.ok (if valid then index2 :: indices else indices)

/-- SQLite `get_table`. -/
def sqliteGetTable (cat : SqliteCatalog) (name : String) (table_id : TableId)
    (table_ids : List (String × TableId)) (s : SqlSchema) :
    Except DescriberError SqlSchema :=
  let (table_columns, primary_key) := sqliteGetColumns (cat.colRows name)
  match sqliteGetIndices cat (cat.indexListRows name) with
  | Except.error e => Except.error e
  | Except.ok indices =>
    let s2 := { s with tables := s.tables.set table_id ⟨name, indices, primary_key⟩ }
    let s3 := { s2 with columns := s2.columns ++ table_columns.map (fun c => (table_id, c)) }
    sqlitePushForeignKeys table_id table_ids (cat.fkRows name) s3

/-- The `for (table_name, table_id) in &table_ids` loop of SQLite `describe`. -/
def sqliteTablesLoop (cat : SqliteCatalog) (entries : List (String × TableId))
    (table_ids : List (String × TableId)) (s : SqlSchema) :
    Except DescriberError SqlSchema :=
  match entries with
  | [] => Except.ok s
  | (name, tid) :: rest =>
    match sqliteGetTable cat name tid table_ids s with
    | Except.error e => Except.error e
    | Except.ok s2 => sqliteTablesLoop cat rest table_ids s2

/-- The collection half of the shortened-foreign-key fixup in SQLite
`describe`: foreign keys with no referenced columns get the referenced
table's primary-key column names (the `.unwrap()` on a missing primary key is
the modelled panic).  The walker iteration (`walk_foreign_keys`,
`referenced_columns_count`, `referenced_table().primary_key()`) is modelled
from the spec, `walkers.rs` not being among the provided sources: a
foreign-key id is the index into the flat `foreign_keys` vector. -/
def sqliteFkFixupCollect (s : SqlSchema) (i : Nat) (fks : List (TableId × ForeignKey)) :
    Except DescriberError (List (ForeignKeyId × List String)) :=
  match fks with
  | [] => Except.ok []
  | (_, fk) :: rest =>
    if fk.referenced_columns.length = 0 then
      match (s.tables[fk.referenced_table]?).bind (fun t => t.primary_key) with
      | none => Except.error (DescriberError.fatal "unwrap: referenced table has no primary key")
      | some pk =>
        match sqliteFkFixupCollect s (i + 1) rest with
        | Except.error e => Except.error e
        | Except.ok tailList => Except.ok ((i, pk.columns.map (·.name)) :: tailList)
    else sqliteFkFixupCollect s (i + 1) rest

/-- The assignment half of the shortened-foreign-key fixup
(`schema[foreign_key_id].1.referenced_columns = columns`). -/
def sqliteFkAssign (s : SqlSchema) (l : List (ForeignKeyId × List String)) : SqlSchema :=
  l.foldl (fun s p =>
    match s.foreign_keys[p.1]? with
    | some (tid, fk) =>
      { s with foreign_keys :=
          s.foreign_keys.set p.1 (tid, { fk with referenced_columns := p.2 }) }
    | none => s) s

/-- `SqlSchemaDescriberBackend::describe` for SQLite. -/
def sqliteDescribe (cat : SqliteCatalog) : Except DescriberError SqlSchema :=
  let (table_ids, s1) := sqliteGetTableNames cat SqlSchema.default
  match sqliteTablesLoop cat table_ids table_ids s1 with
  | Except.error e => Except.error e
  | Except.ok s2 =>
    match sqliteFkFixupCollect s2 0 s2.foreign_keys with
    | Except.error e => Except.error e
    | Except.ok fixups =>
      let s3 := sqliteFkAssign s2 fixups
      let s4 := { s3 with
        views := cat.views.map (fun (r : SqliteViewRow) => View.mk r.view_name r.view_sql) }
      Except.ok { s4 with foreign_keys := sortByKey fkSortKey s4.foreign_keys }

/-- `SqlSchemaDescriberBackend::get_metadata` for SQLite: counts the map built
by the same `get_table_names` routine `describe` uses, system-table denylist
included. -/
def sqliteGetMetadata (cat : SqliteCatalog) : SqlMetadata :=
  let (table_ids, _) := sqliteGetTableNames cat SqlSchema.default
  { table_count := table_ids.length, size_in_bytes := cat.size }

/-! ### Helper lemmas -/

theorem ne_of_not_mem {α : Type _} {a b : α} {l : List α}
    (ha : a ∉ l) (hb : b ∈ l) : a ≠ b :=
  fun he => ha (he ▸ hb)

/-- The unknown-name catch-all of the Postgres dispatch. -/
theorem pgFamilyDispatch_unknown (enums : List Enum) (precision : Precision)
    (name : String) (hn : name ∉ pgKnownNames)
    (he : enum_exists enums name = false) :
    pgFamilyDispatch enums precision name =
      (ColumnTypeFamily.Unsupported name, none) := by
  simp only [pgFamilyDispatch]
  split
  all_goals first
    | (exfalso; apply hn; decide)
    | simp [he]

/-- The unknown-name catch-all of the CockroachDB dispatch. -/
theorem crdbFamilyDispatch_unknown (enums : List Enum) (precision : Precision)
    (data_type name : String) (hn : name ∉ crdbKnownNames)
    (he : enum_exists enums name = false) :
    crdbFamilyDispatch enums precision data_type name =
      (ColumnTypeFamily.Unsupported name, none) := by
  simp only [crdbFamilyDispatch]
  split
  all_goals first
    | (exfalso; apply hn; decide)
    | simp [he]

/-! ### C8 -/

/-- C8: the renderer selects double quotes for Postgres and SQLite
identifiers, backticks for MySQL identifiers, square brackets for MSSQL
identifiers, single quotes for string literals on every engine, and maps each
of the five referential actions to its SQL keyword. -/
theorem c8_renderer_quoting_and_actions :
    (∀ s : String,
      Quoted.render (Quoted.postgres_ident s) = "\"" ++ s ++ "\"" ∧
      Quoted.render (Quoted.sqlite_ident s) = "\"" ++ s ++ "\"" ∧
      Quoted.render (Quoted.mysql_ident s) = "`" ++ s ++ "`" ∧
      Quoted.render (Quoted.mssql_ident s) = "[" ++ s ++ "]" ∧
      Quoted.render (Quoted.postgres_string s) = squoteS ++ s ++ squoteS ∧
      Quoted.render (Quoted.sqlite_string s) = squoteS ++ s ++ squoteS ∧
      Quoted.render (Quoted.mysql_string s) = squoteS ++ s ++ squoteS ∧
      Quoted.render (Quoted.mssql_string s) = squoteS ++ s ++ squoteS) ∧
    render_referential_action ForeignKeyAction.NoAction = "NO ACTION" ∧
    render_referential_action ForeignKeyAction.Restrict = "RESTRICT" ∧
    render_referential_action ForeignKeyAction.Cascade = "CASCADE" ∧
    render_referential_action ForeignKeyAction.SetNull = "SET NULL" ∧
    render_referential_action ForeignKeyAction.SetDefault = "SET DEFAULT" :=
  ⟨fun _ => ⟨rfl, rfl, rfl, rfl, rfl, rfl, rfl, rfl⟩, rfl, rfl, rfl, rfl, rfl⟩

/-! ### C6 -/

/-- The exact-name arms of the SQLite `get_column_type` chain. -/
def sqliteKnownTypeNames : List String :=
  ["int", "integer", "bigint", "real", "float", "serial", "boolean", "text",
   "date", "datetime", "timestamp", "binary", "blob", "double",
   "binary[]", "boolean[]", "date[]", "datetime[]", "timestamp[]",
   "double[]", "float[]", "int[]", "integer[]", "text[]"]

/-- C6 counterexample: on SQLite, an unmapped native type is stored as
`Unsupported` of the LOWERCASED raw type string, not the raw type string
itself: `FOOBAR` maps to `Unsupported("foobar")`. -/
theorem c6_counterexample_sqlite_lowercases :
    (get_column_type "FOOBAR" ColumnArity.Nullable).family
        = ColumnTypeFamily.Unsupported "foobar" ∧
    (get_column_type "FOOBAR" ColumnArity.Nullable).family
        ≠ ColumnTypeFamily.Unsupported "FOOBAR" := by
  constructor
  · decide
  · decide

/-- C6 (amended): a catalog column whose native type name is not in the
explicit name-to-family mapping maps to `Unsupported` carrying the raw type
string (on SQLite, the lowercased raw type string), and the mapping neither
errors nor panics on the unknown name (the only modelled panic is the
`is_nullable` decode, excluded by the validity hypothesis). -/
theorem c6_unmapped_native_types :
    (∀ (row : PgColRow) (enums : List Enum),
      (strLower row.is_nullable = "no" ∨ strLower row.is_nullable = "yes") →
      row.full_data_type ∉ pgKnownNames →
      enum_exists enums row.full_data_type = false →
      enum_exists enums (stripLeadingUnderscores row.full_data_type) = false →
      ∃ ct, get_column_type_postgresql row enums = some ct ∧
        ct.family = ColumnTypeFamily.Unsupported row.full_data_type) ∧
    (∀ (row : PgColRow) (enums : List Enum),
      (strLower row.is_nullable = "no" ∨ strLower row.is_nullable = "yes") →
      row.full_data_type ∉ crdbKnownNames →
      enum_exists enums row.full_data_type = false →
      enum_exists enums (stripLeadingUnderscores row.full_data_type) = false →
      ∃ ct, get_column_type_cockroachdb row enums = some ct ∧
        ct.family = ColumnTypeFamily.Unsupported row.full_data_type) ∧
    (∀ (tpe : String) (arity : ColumnArity),
      strLower tpe ∉ sqliteKnownTypeNames →
      strContainsSub (strLower tpe) "char" = false →
      strContainsSub (strLower tpe) "numeric" = false →
      strContainsSub (strLower tpe) "decimal" = false →
      strStarts (strLower tpe) "decimal" = false →
      (get_column_type tpe arity).family
        = ColumnTypeFamily.Unsupported (strLower tpe)) := by
  refine ⟨?_, ?_, ?_⟩
  · intro row enums hnul hn he1 he2
    rcases hnul with h | h <;>
    · refine ⟨_, by simp only [get_column_type_postgresql, h]; rfl, ?_⟩
      simp only [get_column_type_postgresql, h]
      simp only [he1, he2, Bool.and_false, Bool.false_and, Bool.and_self,
        if_false, pgFamilyDispatch_unknown _ _ _ hn he1]
      simp
  · intro row enums hnul hn he1 he2
    rcases hnul with h | h <;>
    · refine ⟨_, by simp only [get_column_type_cockroachdb, h]; rfl, ?_⟩
      simp only [get_column_type_cockroachdb, h]
      simp only [he1, he2, Bool.and_false, Bool.false_and, Bool.and_self,
        if_false, crdbFamilyDispatch_unknown _ _ _ _ hn he1]
      simp
  · intro tpe arity hn hc1 hc2 hc3 hst
    have hb : ∀ p ∈ sqliteKnownTypeNames, (strLower tpe == p) = false := by
      intro p hp
      exact beq_eq_false_iff_ne.mpr (ne_of_not_mem hn hp)
    have h01 := hb "int" (by decide)
    have h02 := hb "integer" (by decide)
    have h03 := hb "bigint" (by decide)
    have h04 := hb "real" (by decide)
    have h05 := hb "float" (by decide)
    have h06 := hb "serial" (by decide)
    have h07 := hb "boolean" (by decide)
    have h08 := hb "text" (by decide)
    have h09 := hb "date" (by decide)
    have h10 := hb "datetime" (by decide)
    have h11 := hb "timestamp" (by decide)
    have h12 := hb "binary" (by decide)
    have h13 := hb "blob" (by decide)
    have h14 := hb "double" (by decide)
    have h15 := hb "binary[]" (by decide)
    have h16 := hb "boolean[]" (by decide)
    have h17 := hb "date[]" (by decide)
    have h18 := hb "datetime[]" (by decide)
    have h19 := hb "timestamp[]" (by decide)
    have h20 := hb "double[]" (by decide)
    have h21 := hb "float[]" (by decide)
    have h22 := hb "int[]" (by decide)
    have h23 := hb "integer[]" (by decide)
    have h24 := hb "text[]" (by decide)
    simp only [get_column_type, h01, h02, h03, h04, h05, h06, h07, h08, h09,
      h10, h11, h12, h13, h14, h15, h16, h17, h18, h19, h20, h21, h22, h23,
      h24, hc1, hc2, hc3, hst]
    simp

/-! C6 witness -/

def c6PgRowW : PgColRow :=
  { table_name := "t", column_name := "c", formatted_type := "xirtam",
    numeric_precision := none, numeric_scale := none, datetime_precision := none,
    data_type := "xirtam", full_data_type := "xirtam", column_default := none,
    is_nullable := "YES", is_identity := none, character_maximum_length := none }

theorem c6_unmapped_native_types_witness :
    (∃ ct, get_column_type_postgresql c6PgRowW [] = some ct ∧
      ct.family = ColumnTypeFamily.Unsupported "xirtam") ∧
    (∃ ct, get_column_type_cockroachdb c6PgRowW [] = some ct ∧
      ct.family = ColumnTypeFamily.Unsupported "xirtam") ∧
    (get_column_type "xirtam" ColumnArity.Nullable).family
      = ColumnTypeFamily.Unsupported (strLower "xirtam") :=
  ⟨c6_unmapped_native_types.1 c6PgRowW [] (Or.inr (by decide)) (by decide)
      (by decide) (by decide),
   c6_unmapped_native_types.2.1 c6PgRowW [] (Or.inr (by decide)) (by decide)
      (by decide) (by decide),
   c6_unmapped_native_types.2.2 "xirtam" ColumnArity.Nullable (by decide)
      (by decide) (by decide) (by decide) (by decide)⟩

/-! C5 lemmas -/

theorem sqliteColsPass_fst (rows : List SqliteColRow) (m : List (Int × String)) :
    (sqliteColsPass rows m).1 = rows.map sqliteMkColumn := by
  induction rows generalizing m with
  | nil => simp [sqliteColsPass]
  | cons r rest ih => simp [sqliteColsPass, ih]

theorem sqliteColsPass_snd (rows : List SqliteColRow) (m : List (Int × String)) :
    (sqliteColsPass rows m).2 =
      (rows.filter (fun r => decide (r.pk > 0))).foldl
        (fun m r => omInsert m r.pk r.name) m := by
  induction rows generalizing m with
  | nil => simp [sqliteColsPass]
  | cons r rest ih =>
    by_cases h : r.pk > 0
    · simp [sqliteColsPass, h, List.filter, ih]
    · simp [sqliteColsPass, h, List.filter, ih]

theorem foldl_omInsert_lookup_isSome (ps : List SqliteColRow)
    (m : List (Int × String)) (k : Int) :
    (omLookup (ps.foldl (fun m r => omInsert m r.pk r.name) m) k).isSome
      ↔ (∃ r ∈ ps, r.pk = k) ∨ (omLookup m k).isSome := by
  induction ps generalizing m with
  | nil => simp
  | cons r rest ih =>
    simp only [List.foldl_cons, ih, List.mem_cons]
    constructor
    · rintro (⟨r2, hr2, hk⟩ | hs)
      · exact Or.inl ⟨r2, Or.inr hr2, hk⟩
      · by_cases hk : k = r.pk
        · exact Or.inl ⟨r, Or.inl rfl, hk.symm⟩
        · rw [omLookup_omInsert_ne _ _ _ _ hk] at hs
          exact Or.inr hs
    · rintro (⟨r2, hr2 | hr2, hk⟩ | hs)
      · refine Or.inr ?_
        subst hr2
        rw [hk, omLookup_omInsert_self]
        rfl
      · exact Or.inl ⟨r2, hr2, hk⟩
      · by_cases hk : k = r.pk
        · refine Or.inr ?_
          rw [hk, omLookup_omInsert_self]
          rfl
        · rw [omLookup_omInsert_ne _ _ _ _ hk]
          exact Or.inr hs

theorem om_two_keys_two_le_length {β : Type _} (m : List (Int × β)) (k1 k2 : Int)
    (hne : k1 ≠ k2) (h1 : (omLookup m k1).isSome) (h2 : (omLookup m k2).isSome) :
    2 ≤ m.length := by
  match m with
  | [] => simp [omLookup] at h1
  | [x] =>
    by_cases e1 : k1 = x.1
    · by_cases e2 : k2 = x.1
      · exact absurd (e1.trans e2.symm) hne
      · cases x
        simp [omLookup, e2] at h2
    · cases x
      simp [omLookup, e1] at h1
  | _ :: _ :: _ =>
    simp only [List.length_cons]
    omega

/-! C5 theorem -/

/-- C5: SQLite auto-increment inference. -/
theorem c5_sqlite_rowid_alias_autoincrement :
    ∀ (rows : List SqliteColRow), (rows.map (fun r => r.name)).Nodup →
      (∀ r, rows.filter (fun r2 => decide (r2.pk > 0)) = [r] →
        strLower r.ctype = "integer" →
        (sqliteGetColumns rows).2 = some ⟨[⟨r.name⟩], none⟩ ∧
        ∃ c ∈ (sqliteGetColumns rows).1,
          c.name = r.name ∧ c.auto_increment = true ∧
          c.tpe.arity = ColumnArity.Required) ∧
      (∀ r, rows.filter (fun r2 => decide (r2.pk > 0)) = [r] →
        ¬ strLower r.ctype = "integer" →
        ∀ c ∈ (sqliteGetColumns rows).1, c.auto_increment = false) ∧
      ((∃ r1 ∈ rows, ∃ r2 ∈ rows, r1.pk > 0 ∧ r2.pk > 0 ∧ r1.pk ≠ r2.pk) →
        ∀ c ∈ (sqliteGetColumns rows).1, c.auto_increment = false) := by
  intro rows hnodup
  refine ⟨?_, ?_, ?_⟩
  · intro r hfilter hint
    have hmem : r ∈ rows := by
      have h2 : r ∈ rows.filter (fun r2 => decide (r2.pk > 0)) := by
        rw [hfilter]; exact List.mem_singleton_self r
      exact List.mem_of_mem_filter h2
    have hpair : sqliteColsPass rows [] = (rows.map sqliteMkColumn, [(r.pk, r.name)]) := by
      have h1 := sqliteColsPass_fst rows []
      have h2 := sqliteColsPass_snd rows []
      rw [hfilter] at h2
      simp only [List.foldl_cons, List.foldl_nil, omInsert] at h2
      exact Prod.ext h1 h2
    refine ⟨?_, ?_⟩
    · simp [sqliteGetColumns, hpair]
    · simp only [sqliteGetColumns, hpair]
      refine ⟨_, List.mem_map_of_mem _ (List.mem_map_of_mem _ hmem), ?_⟩
      have hcond : ((sqliteMkColumn r).name == (PrimaryKeyColumn.mk r.name).name) = true
          ∧ (strLower (sqliteMkColumn r).tpe.full_data_type == "integer") = true := by
        constructor
        · simp [sqliteMkColumn]
        · simp only [sqliteMkColumn, get_column_type]
          simpa using hint
      rw [if_pos hcond]
      exact ⟨rfl, rfl, rfl⟩
  · intro r hfilter hint
    have hrmem : r ∈ rows := by
      have h2 : r ∈ rows.filter (fun r2 => decide (r2.pk > 0)) := by
        rw [hfilter]; exact List.mem_singleton_self r
      exact List.mem_of_mem_filter h2
    have hpair : sqliteColsPass rows [] = (rows.map sqliteMkColumn, [(r.pk, r.name)]) := by
      have h1 := sqliteColsPass_fst rows []
      have h2 := sqliteColsPass_snd rows []
      rw [hfilter] at h2
      simp only [List.foldl_cons, List.foldl_nil, omInsert] at h2
      exact Prod.ext h1 h2
    intro c hc
    simp only [sqliteGetColumns, hpair] at hc
    obtain ⟨c0, hc0, rfl⟩ := List.mem_map.mp hc
    obtain ⟨r2, hr2, rfl⟩ := List.mem_map.mp hc0
    have hcondF : ¬ (((sqliteMkColumn r2).name == (PrimaryKeyColumn.mk r.name).name) = true
        ∧ (strLower (sqliteMkColumn r2).tpe.full_data_type == "integer") = true) := by
      rintro ⟨hname, htyp⟩
      have hname2 : r2.name = r.name := by
        simpa [sqliteMkColumn] using hname
      have heq : r2 = r := List.inj_on_of_nodup_map hnodup hr2 hrmem hname2
      subst heq
      apply hint
      simpa [sqliteMkColumn, get_column_type] using htyp
    rw [if_neg hcondF]
    rfl
  · rintro ⟨r1, hr1, r2, hr2, hp1, hp2, hne⟩
    intro c hc
    have hlen : 2 ≤ (sqliteColsPass rows []).2.length := by
      rw [sqliteColsPass_snd]
      refine om_two_keys_two_le_length _ r1.pk r2.pk hne ?_ ?_
      · rw [foldl_omInsert_lookup_isSome]
        exact Or.inl ⟨r1, List.mem_filter.mpr ⟨hr1, by simpa using hp1⟩, rfl⟩
      · rw [foldl_omInsert_lookup_isSome]
        exact Or.inl ⟨r2, List.mem_filter.mpr ⟨hr2, by simpa using hp2⟩, rfl⟩
    rcases hsplit : (sqliteColsPass rows []).2 with _ | ⟨p1, _ | ⟨p2, ps⟩⟩
    · rw [hsplit] at hlen; simp at hlen
    · rw [hsplit] at hlen; simp at hlen
    · have hpair : sqliteColsPass rows []
          = (rows.map sqliteMkColumn, p1 :: p2 :: ps) := by
        rw [← sqliteColsPass_fst rows [], ← hsplit]
      simp only [sqliteGetColumns, hpair] at hc
      obtain ⟨r3, hr3, rfl⟩ := List.mem_map.mp hc
      rfl

/-! C10 lemmas -/

theorem pgAttachStep_columns (s : SqlSchema) (e : TableId × PgIndexEntry) :
    (pgAttachStep s e).columns = s.columns := rfl

theorem pgAttachStep_tables_length (s : SqlSchema) (e : TableId × PgIndexEntry) :
    (pgAttachStep s e).tables.length = s.tables.length := by
  simp [pgAttachStep, List.length_set]

theorem pgAttachIndexes_columns (m : List (TableId × PgIndexEntry)) (s : SqlSchema) :
    (pgAttachIndexes m s).columns = s.columns := by
  induction m generalizing s with
  | nil => rfl
  | cons e rest ih =>
    simp only [pgAttachIndexes, List.foldl_cons] at *
    rw [ih, pgAttachStep_columns]

theorem pgAttachIndexes_tables_length (m : List (TableId × PgIndexEntry)) (s : SqlSchema) :
    (pgAttachIndexes m s).tables.length = s.tables.length := by
  induction m generalizing s with
  | nil => rfl
  | cons e rest ih =>
    simp only [pgAttachIndexes, List.foldl_cons] at *
    rw [ih, pgAttachStep_tables_length]

theorem pgAttachIndexes_getElem?_of_not_key (m : List (TableId × PgIndexEntry))
    (s : SqlSchema) (tid : TableId) (h : tid ∉ m.map (fun p => p.1)) :
    (pgAttachIndexes m s).tables[tid]? = s.tables[tid]? := by
  induction m generalizing s with
  | nil => rfl
  | cons e rest ih =>
    simp only [List.map_cons, List.mem_cons, not_or] at h
    simp only [pgAttachIndexes, List.foldl_cons] at *
    rw [ih _ h.2]
    simp only [pgAttachStep]
    rw [List.getElem?_set_ne (fun he2 => h.1 he2.symm)]

/-- C10: in the Postgres describer, a primary key assembled from index rows is
silently discarded (the table is returned with primary_key = none) exactly
when every one of its columns is absent from the table described column list;
if at least one of its columns exists, the primary key is attached unchanged,
even when some of its other columns do not exist. -/
theorem c10_pg_pk_dropped_iff_all_columns_missing :
    ∀ (m : List (TableId × PgIndexEntry)) (s : SqlSchema) (tid : TableId)
      (idxs : List Index) (pk : PrimaryKey),
      (m.map (fun p => p.1)).Nodup →
      (tid, (idxs, some pk)) ∈ m →
      tid < s.tables.length →
      ((pk.columns.all (fun col => (s.tableColumn tid col.name).isNone) = true →
          ((pgAttachIndexes m s).tables[tid]?).map Table.primary_key = some none) ∧
       (pk.columns.all (fun col => (s.tableColumn tid col.name).isNone) = false →
          ((pgAttachIndexes m s).tables[tid]?).map Table.primary_key = some (some pk))) := by
  intro m
  induction m with
  | nil =>
    intro s tid idxs pk _ hmem
    cases hmem
  | cons e rest ih =>
    intro s tid idxs pk hnodup hmem hlt
    simp only [List.map_cons, List.nodup_cons] at hnodup
    rcases List.mem_cons.mp hmem with he | hmem2
    · subst he
      have hnotin : tid ∉ rest.map (fun p => p.1) := hnodup.1
      simp only [pgAttachIndexes, List.foldl_cons]
      rw [show List.foldl pgAttachStep (pgAttachStep s (tid, (idxs, some pk))) rest
            = pgAttachIndexes rest (pgAttachStep s (tid, (idxs, some pk))) from rfl]
      rw [pgAttachIndexes_getElem?_of_not_key rest _ tid hnotin]
      simp only [pgAttachStep]
      have ht := List.getElem?_eq_getElem hlt
      simp only [ht]
      rw [List.getElem?_set_self (by exact hlt)]
      constructor
      · intro hcond
        simp [hcond]
      · intro hcond
        simp [hcond]
    · have hstep : ∀ n, ((pgAttachStep s e).tableColumn tid n) = s.tableColumn tid n :=
        fun _ => rfl
      simp only [pgAttachIndexes, List.foldl_cons]
      rw [show List.foldl pgAttachStep (pgAttachStep s e) rest
            = pgAttachIndexes rest (pgAttachStep s e) from rfl]
      have hx := ih (pgAttachStep s e) tid idxs pk hnodup.2 hmem2
        (by rw [pgAttachStep_tables_length]; exact hlt)
      simp only [hstep] at hx
      exact hx

/-! C5 and C10 witnesses -/

def c5RowW : SqliteColRow :=
  { cid := 0, name := "id", ctype := "INTEGER", notnull := false,
    dflt_value := none, pk := 1 }

theorem c5_witness :
    (sqliteGetColumns [c5RowW]).2 = some ⟨[⟨"id"⟩], none⟩ ∧
    ∃ c ∈ (sqliteGetColumns [c5RowW]).1,
      c.name = "id" ∧ c.auto_increment = true ∧ c.tpe.arity = ColumnArity.Required :=
  (c5_sqlite_rowid_alias_autoincrement [c5RowW] (by decide)).1 c5RowW
    (by decide) (by decide)

def c10ColW : Column :=
  ⟨"a", ⟨"text", ColumnTypeFamily.String, ColumnArity.Nullable, none⟩, none, false⟩

def c10SchemaW : SqlSchema := ⟨[⟨"t", [], none⟩], [], [(0, c10ColW)], [], [], []⟩

def c10PkW : PrimaryKey := ⟨[⟨"a"⟩, ⟨"ghost"⟩], some "tpk"⟩

def c10MW : List (TableId × PgIndexEntry) := [(0, ([], some c10PkW))]

theorem c10_witness :
    (c10PkW.columns.all (fun col => (c10SchemaW.tableColumn 0 col.name).isNone) = false) ∧
    ((pgAttachIndexes c10MW c10SchemaW).tables[0]?).map Table.primary_key
      = some (some c10PkW) :=
  ⟨by decide,
   (c10_pg_pk_dropped_iff_all_columns_missing c10MW c10SchemaW 0 [] c10PkW
      (by decide) (by decide) (by decide)).2 (by decide)⟩

/-! C2 lemmas: Postgres side -/

theorem pgFkLoop_len_inv (schemaName : String) (table_ids : List (String × TableId)) :
    ∀ (rows : List PgFkRow) (m m2 : List (Int × (TableId × ForeignKey))),
      pgFkLoop schemaName table_ids rows m = Except.ok m2 →
      (∀ e ∈ m, (e.2.2.columns.length = e.2.2.referenced_columns.length)) →
      ∀ e ∈ m2, e.2.2.columns.length = e.2.2.referenced_columns.length := by
  intro rows
  induction rows with
  | nil =>
    intro m m2 hok hm
    simp only [pgFkLoop] at hok
    cases hok
    exact hm
  | cons row rest ih =>
    intro m m2 hok hm
    simp only [pgFkLoop] at hok
    split at hok
    · cases hok
    · split at hok
      · exact ih m m2 hok hm
      · split at hok
        · exact ih m m2 hok hm
        · split at hok
          · cases hok
          · split at hok
            · cases hok
            · rename_i referenced_table_id hpar table_id htab od hdel ou hupd
              refine ih _ m2 hok ?_
              intro e he
              split at he
              · rename_i tid fk hlook
                rcases mem_omInsert_sub he with he2 | he2
                · subst he2
                  have hold := hm _ (mem_of_omLookup_eq_some hlook)
                  simp only [List.length_append, List.length_cons, List.length_nil]
                  simp only at hold
                  omega
                · exact hm _ he2
              · rcases mem_omInsert_sub he with he2 | he2
                · subst he2
                  rfl
                · exact hm _ he2

theorem pgGetForeignKeys_len (schemaName : String) (table_ids : List (String × TableId))
    (rows : List PgFkRow) (init fks : List (TableId × ForeignKey))
    (hok : pgGetForeignKeys schemaName table_ids rows init = Except.ok fks)
    (hinit : ∀ p ∈ init, p.2.columns.length = p.2.referenced_columns.length) :
    ∀ p ∈ fks, p.2.columns.length = p.2.referenced_columns.length := by
  simp only [pgGetForeignKeys] at hok
  split at hok
  · cases hok
  · rename_i m hloop
    cases hok
    intro p hp
    rw [mem_sortByKey] at hp
    rcases List.mem_append.mp hp with hp2 | hp2
    · exact hinit p hp2
    · obtain ⟨e, he, rfl⟩ := List.mem_map.mp hp2
      exact pgFkLoop_len_inv schemaName table_ids rows [] m hloop (by intro e he2; cases he2) e he

theorem pgAttachStep_foreign_keys (s : SqlSchema) (e : TableId × PgIndexEntry) :
    (pgAttachStep s e).foreign_keys = s.foreign_keys := rfl

theorem pgAttachIndexes_foreign_keys (m : List (TableId × PgIndexEntry)) (s : SqlSchema) :
    (pgAttachIndexes m s).foreign_keys = s.foreign_keys := by
  induction m generalizing s with
  | nil => rfl
  | cons e rest ih =>
    simp only [pgAttachIndexes, List.foldl_cons] at *
    rw [ih, pgAttachStep_foreign_keys]

theorem pgGetIndices_foreign_keys (cockroach : Bool) (table_ids : List (String × TableId))
    (rows : List PgIndexRow) (ext : PostgresSchemaExt) (s s2 : SqlSchema)
    (ext2 : PostgresSchemaExt)
    (hok : pgGetIndices cockroach table_ids rows ext s = Except.ok (s2, ext2)) :
    s2.foreign_keys = s.foreign_keys := by
  simp only [pgGetIndices] at hok
  split at hok
  · cases hok
  · rename_i p heq
    cases hok
    exact pgAttachIndexes_foreign_keys _ _

theorem getTableNamesLoop_foreign_keys :
    ∀ (names : List String) (m : List (String × TableId)) (s : SqlSchema),
      ((getTableNamesLoop names m s).2).foreign_keys = s.foreign_keys := by
  intro names
  induction names with
  | nil => intro m s; rfl
  | cons n rest ih =>
    intro m s
    simp only [getTableNamesLoop, SqlSchema.push_table]
    rw [ih]

theorem pgDescribe_fk_len (cockroach pgNativeTypes : Bool) (schemaName : String)
    (gd : String → ColumnType → Option DefaultValue) (cat : PgCatalog)
    (s : SqlSchema) (ext : PostgresSchemaExt)
    (hok : pgDescribe cockroach pgNativeTypes schemaName gd cat = Except.ok (s, ext)) :
    ∀ p ∈ s.foreign_keys, p.2.columns.length = p.2.referenced_columns.length := by
  simp only [pgDescribe] at hok
  split at hok
  · cases hok
  · rename_i cols hcols
    split at hok
    · cases hok
    · rename_i fks hfks
      split at hok
      · cases hok
      · rename_i s5 ext2 hidx
        injection hok with h
        rw [Prod.mk.injEq] at h
        obtain ⟨h1, h2⟩ := h
        subst h1
        subst h2
        intro p hp
        simp only at hp
        rw [mem_sortByKey] at hp
        have hfk5 := pgGetIndices_foreign_keys cockroach _ cat.indexes _ _ s5 ext2 hidx
        rw [hfk5] at hp
        refine pgGetForeignKeys_len schemaName _ cat.fks _ fks hfks ?_ p hp
        intro q hq
        rw [getTableNamesLoop_foreign_keys] at hq
        cases hq

/-! C2 lemmas: SQLite side -/

def omKeyInsert {K : Type _} [LinearOrder K] : List K → K → List K
  | [], k => [k]
  | k0 :: rest, k =>
    if k < k0 then k :: k0 :: rest
    else if k = k0 then k :: rest
    else k0 :: omKeyInsert rest k

theorem omInsert_map_fst {K : Type _} [LinearOrder K] {β : Type _}
    (l : List (K × β)) (k : K) (v : β) :
    (omInsert l k v).map Prod.fst = omKeyInsert (l.map Prod.fst) k := by
  induction l with
  | nil => rfl
  | cons p rest ih =>
    by_cases h1 : k < p.1
    · cases p; simp [omInsert, omKeyInsert, h1]
    · by_cases h2 : k = p.1
      · cases p; simp [omInsert, omKeyInsert, h1, h2]
      · cases p
        simp only [omInsert, omKeyInsert, if_neg h1, if_neg h2, List.map_cons]
        rw [ih]

theorem omInsert_ne_nil {K : Type _} [LinearOrder K] {β : Type _}
    (l : List (K × β)) (k : K) (v : β) : omInsert l k v ≠ [] := by
  cases l with
  | nil => simp [omInsert]
  | cons p rest =>
    cases p
    simp only [omInsert]
    split
    · simp
    · split <;> simp

/-- The invariant carried by the SQLite intermediate foreign keys when every
catalog row names its referenced column. -/
def SqliteFkInv (e : Int × IntermediateForeignKey) : Prop :=
  e.2.columns.map Prod.fst = e.2.referenced_columns.map Prod.fst ∧
  e.2.columns ≠ []

theorem sqliteFkLoop_inv (table_ids : List (String × TableId)) :
    ∀ (rows : List SqliteFkRow) (m m2 : List (Int × IntermediateForeignKey)),
      (∀ r ∈ rows, r.toCol.isSome) →
      sqliteFkLoop table_ids rows m = Except.ok m2 →
      (∀ e ∈ m, SqliteFkInv e) →
      ∀ e ∈ m2, SqliteFkInv e := by
  intro rows
  induction rows with
  | nil =>
    intro m m2 _ hok hm
    simp only [sqliteFkLoop] at hok
    cases hok
    exact hm
  | cons row rest ih =>
    intro m m2 hall hok hm
    have hrow : row.toCol.isSome := hall row (List.mem_cons_self _ _)
    have hrest : ∀ r ∈ rest, r.toCol.isSome :=
      fun r hr => hall r (List.mem_cons_of_mem _ hr)
    obtain ⟨c, hc⟩ := Option.isSome_iff_exists.mp hrow
    simp only [sqliteFkLoop] at hok
    split at hok
    · exact ih m m2 hrest hok hm
    · split at hok
      · rename_i fk hlook
        refine ih _ m2 hrest hok ?_
        intro e he
        rcases mem_omInsert_sub he with he2 | he2
        · subst he2
          have hold := hm _ (mem_of_omLookup_eq_some hlook)
          constructor
          · simp only [hc]
            rw [omInsert_map_fst, omInsert_map_fst, hold.1]
          · exact omInsert_ne_nil _ _ _
        · exact hm _ he2
      · split at hok
        · cases hok
        · split at hok
          · cases hok
          · refine ih _ m2 hrest hok ?_
            intro e he
            rcases mem_omInsert_sub he with he2 | he2
            · subst he2
              constructor
              · simp [hc, omInsert]
              · exact omInsert_ne_nil _ _ _
            · exact hm _ he2

theorem sqliteFkFinish_fk_mem (tid : TableId) :
    ∀ (m : List (Int × IntermediateForeignKey)) (s : SqlSchema)
      (p : TableId × ForeignKey), p ∈ (sqliteFkFinish tid m s).foreign_keys →
      p ∈ s.foreign_keys ∨
      ∃ e ∈ m, p = (tid, ⟨none, e.2.columns.map (·.2), e.2.referenced_table,
        e.2.referenced_columns.map (·.2), e.2.on_delete_action, e.2.on_update_action⟩) := by
  intro m
  induction m with
  | nil =>
    intro s p hp
    exact Or.inl hp
  | cons e rest ih =>
    intro s p hp
    simp only [sqliteFkFinish, List.foldl_cons] at hp
    rcases ih _ p hp with hp2 | ⟨e2, he2, hpe⟩
    · simp only [List.mem_append, List.mem_singleton] at hp2
      rcases hp2 with hp3 | hp3
      · exact Or.inl hp3
      · exact Or.inr ⟨e, List.mem_cons_self _ _, hp3⟩
    · exact Or.inr ⟨e2, List.mem_cons_of_mem _ he2, hpe⟩

/-- The per-foreign-key conclusion carried up through SQLite describe. -/
def SqliteFkQ (p : TableId × ForeignKey) : Prop :=
  p.2.columns.length = p.2.referenced_columns.length ∧ p.2.referenced_columns ≠ []

theorem sqlitePushForeignKeys_inv (tid : TableId) (table_ids : List (String × TableId))
    (rows : List SqliteFkRow) (s s2 : SqlSchema)
    (hall : ∀ r ∈ rows, r.toCol.isSome)
    (hok : sqlitePushForeignKeys tid table_ids rows s = Except.ok s2) :
    ∀ p ∈ s2.foreign_keys, p ∈ s.foreign_keys ∨ SqliteFkQ p := by
  simp only [sqlitePushForeignKeys] at hok
  split at hok
  · cases hok
  · rename_i m hloop
    cases hok
    intro p hp
    rcases sqliteFkFinish_fk_mem tid m s p hp with hp2 | ⟨e, he, hpe⟩
    · exact Or.inl hp2
    · refine Or.inr ?_
      have hinv := sqliteFkLoop_inv table_ids rows [] m hall hloop
        (by intro e2 he2; cases he2) e he
      subst hpe
      constructor
      · have := congrArg List.length hinv.1
        simpa using this
      · intro hnil
        have h1 : e.2.referenced_columns = [] := List.map_eq_nil_iff.mp hnil
        have h2 : e.2.columns.map Prod.fst = [] := by rw [hinv.1, h1]; rfl
        exact hinv.2 (List.map_eq_nil_iff.mp h2)

theorem sqliteGetTable_fk_inv (cat : SqliteCatalog) (name : String) (tid : TableId)
    (table_ids : List (String × TableId)) (s s2 : SqlSchema)
    (hall : ∀ r ∈ cat.fkRows name, r.toCol.isSome)
    (hok : sqliteGetTable cat name tid table_ids s = Except.ok s2) :
    ∀ p ∈ s2.foreign_keys, p ∈ s.foreign_keys ∨ SqliteFkQ p := by
  simp only [sqliteGetTable] at hok
  split at hok
  · cases hok
  · intro p hp
    exact sqlitePushForeignKeys_inv tid table_ids (cat.fkRows name) _ s2 hall hok p hp

theorem sqliteTablesLoop_fk_inv (cat : SqliteCatalog) :
    ∀ (entries table_ids : List (String × TableId)) (s s2 : SqlSchema),
      (∀ t, ∀ r ∈ cat.fkRows t, r.toCol.isSome) →
      sqliteTablesLoop cat entries table_ids s = Except.ok s2 →
      ∀ p ∈ s2.foreign_keys, p ∈ s.foreign_keys ∨ SqliteFkQ p := by
  intro entries
  induction entries with
  | nil =>
    intro table_ids s s2 _ hok
    simp only [sqliteTablesLoop] at hok
    cases hok
    exact fun p hp => Or.inl hp
  | cons e rest ih =>
    intro table_ids s s2 hall hok
    obtain ⟨name, tid⟩ := e
    simp only [sqliteTablesLoop] at hok
    split at hok
    · cases hok
    · rename_i s3 htab
      intro p hp
      rcases ih table_ids s3 s2 hall hok p hp with h | h
      · exact sqliteGetTable_fk_inv cat name tid table_ids s s3 (hall name) htab p h
      · exact Or.inr h

theorem sqliteFkFixupCollect_nil (s : SqlSchema) :
    ∀ (fks : List (TableId × ForeignKey)) (i : Nat),
      (∀ p ∈ fks, p.2.referenced_columns ≠ []) →
      sqliteFkFixupCollect s i fks = Except.ok [] := by
  intro fks
  induction fks with
  | nil => intro i _; rfl
  | cons p rest ih =>
    intro i hall
    obtain ⟨tid, fk⟩ := p
    have hne : fk.referenced_columns.length ≠ 0 := by
      intro h
      exact hall _ (List.mem_cons_self _ _) (List.length_eq_zero.mp h)
    simp only [sqliteFkFixupCollect, if_neg hne]
    exact ih (i + 1) (fun q hq => hall q (List.mem_cons_of_mem _ hq))

theorem sqliteDescribe_fk_len (cat : SqliteCatalog) (s : SqlSchema)
    (hall : ∀ t, ∀ r ∈ cat.fkRows t, r.toCol.isSome)
    (hok : sqliteDescribe cat = Except.ok s) :
    ∀ p ∈ s.foreign_keys, p.2.columns.length = p.2.referenced_columns.length := by
  simp only [sqliteDescribe] at hok
  split at hok
  · cases hok
  · rename_i s2 hloop
    have hq : ∀ p ∈ s2.foreign_keys, SqliteFkQ p := by
      intro p hp
      rcases sqliteTablesLoop_fk_inv cat _ _ _ s2 hall hloop p hp with h | h
      · simp only [sqliteGetTableNames] at h
        rw [getTableNamesLoop_foreign_keys] at h
        cases h
      · exact h
    split at hok
    · cases hok
    · rename_i fixups hfix
      have hfix0 : sqliteFkFixupCollect s2 0 s2.foreign_keys = Except.ok [] :=
        sqliteFkFixupCollect_nil s2 _ 0 (fun p hp => (hq p hp).2)
      rw [hfix0] at hfix
      injection hfix with hfix2
      subst hfix2
      cases hok
      intro p hp
      simp only [sqliteFkAssign, List.foldl_nil] at hp
      rw [mem_sortByKey] at hp
      exact (hq p hp).1

/-! C2 -/

/-- Projection used to state the C2 counterexample: foreign-key list lengths
of a successful describe. -/
def describeFkLens : Except DescriberError SqlSchema → Option (List (Nat × Nat))
  | Except.ok s => some (s.foreign_keys.map
      (fun (p : TableId × ForeignKey) => (p.2.columns.length, p.2.referenced_columns.length)))
  | Except.error _ => none

/-- A SQLite catalog using the shortened foreign-key syntax: a two-column
foreign key whose `to` columns are null, referencing a table with a one-column
primary key. -/
def c2CatCex : SqliteCatalog :=
  { tableNames := ["a", "b"],
    colRows := fun t =>
      if t == "a" then [⟨0, "id", "integer", false, none, 1⟩]
      else if t == "b" then
        [⟨0, "x", "text", false, none, 0⟩, ⟨1, "y", "text", false, none, 0⟩]
      else [],
    fkRows := fun t =>
      if t == "b" then
        [⟨0, 0, "x", none, "a", "NO ACTION", "NO ACTION"⟩,
         ⟨0, 1, "y", none, "a", "NO ACTION", "NO ACTION"⟩]
      else [],
    indexListRows := fun _ => [],
    indexInfoRows := fun _ => [],
    indexXinfoRows := fun _ => [],
    views := [], size := 0 }

/-- C2 counterexample: SQLite `describe` succeeds on a catalog with a
shortened two-column foreign key referencing a one-column primary key, and the
returned model contains a foreign key with 2 referencing columns but 1
referenced column — nothing is rejected. -/
theorem c2_counterexample_sqlite_unequal_lengths :
    describeFkLens (sqliteDescribe c2CatCex) = some [(2, 1)] := by decide

/-- C2 (amended): every foreign key in a successful Postgres `describe()` has
`columns` and `referenced_columns` of equal length; on SQLite the same holds
provided every foreign-key catalog row names its referenced column ("to"
non-null).  A SQLite foreign key written in the shortened syntax instead
receives the referenced table's primary-key columns, whose count can differ
from the referencing column count; no foreign key is ever rejected. -/
theorem c2_fk_column_lists_equal_length :
    (∀ (cockroach pgNativeTypes : Bool) (schemaName : String)
       (gd : String → ColumnType → Option DefaultValue) (cat : PgCatalog)
       (s : SqlSchema) (ext : PostgresSchemaExt),
       pgDescribe cockroach pgNativeTypes schemaName gd cat = Except.ok (s, ext) →
       ∀ p ∈ s.foreign_keys, p.2.columns.length = p.2.referenced_columns.length) ∧
    (∀ (cat : SqliteCatalog) (s : SqlSchema),
       (∀ t, ∀ r ∈ cat.fkRows t, r.toCol.isSome) →
       sqliteDescribe cat = Except.ok s →
       ∀ p ∈ s.foreign_keys, p.2.columns.length = p.2.referenced_columns.length) :=
  ⟨fun cockroach pgNativeTypes schemaName gd cat s ext hok =>
      pgDescribe_fk_len cockroach pgNativeTypes schemaName gd cat s ext hok,
   fun cat s hall hok => sqliteDescribe_fk_len cat s hall hok⟩

def c2SqliteCatW : SqliteCatalog :=
  { tableNames := ["a", "b"],
    colRows := fun t =>
      if t == "a" then [⟨0, "id", "integer", false, none, 1⟩]
      else if t == "b" then [⟨0, "x", "text", false, none, 0⟩]
      else [],
    fkRows := fun t =>
      if t == "b" then [⟨0, 0, "x", some "id", "a", "NO ACTION", "NO ACTION"⟩]
      else [],
    indexListRows := fun _ => [],
    indexInfoRows := fun _ => [],
    indexXinfoRows := fun _ => [],
    views := [], size := 0 }

def c2SqliteSchemaW : SqlSchema :=
  { tables := [⟨"a", [], some ⟨[⟨"id"⟩], none⟩⟩, ⟨"b", [], none⟩],
    enums := [],
    columns :=
      [(0, ⟨"id", ⟨"integer", ColumnTypeFamily.Int, ColumnArity.Required, none⟩, none, true⟩),
       (1, ⟨"x", ⟨"text", ColumnTypeFamily.String, ColumnArity.Nullable, none⟩, none, false⟩)],
    foreign_keys :=
      [(1, ⟨none, ["x"], 0, ["id"], ForeignKeyAction.NoAction, ForeignKeyAction.NoAction⟩)],
    views := [], procedures := [] }

def c2PgCatW : PgCatalog :=
  { tables := [], sequences := [], enums := [], columns := [], fks := [],
    indexes := [], views := [], procedures := [], size := 0 }

theorem c2_fk_column_lists_equal_length_witness :
    (∀ p ∈ (⟨[], [], [], [], [], []⟩ : SqlSchema).foreign_keys,
      p.2.columns.length = p.2.referenced_columns.length) ∧
    (∀ p ∈ c2SqliteSchemaW.foreign_keys,
      p.2.columns.length = p.2.referenced_columns.length) :=
  ⟨c2_fk_column_lists_equal_length.1 false false "public" (fun _ _ => none)
      c2PgCatW _ ⟨[], [], []⟩ (by decide),
   c2_fk_column_lists_equal_length.2 c2SqliteCatW c2SqliteSchemaW
      (by intro t r hr
          revert hr
          simp only [c2SqliteCatW]
          split
          · intro hr
            simp only [List.mem_singleton] at hr
            subst hr
            rfl
          · intro hr
            cases hr)
      (by decide)⟩

/-! C9 lemmas -/

theorem map_keep_keys_any (m : List (String × TableId))
    (f : (String × TableId) → (String × TableId)) (hf : ∀ p, (f p).1 = p.1)
    (n : String) :
    (m.map f).any (fun p => p.1 == n) = m.any (fun p => p.1 == n) := by
  induction m with
  | nil => rfl
  | cons p rest ih =>
    simp only [List.map_cons, List.any_cons, hf, ih]

theorem imInsert_any_false (m : List (String × TableId)) (k n : String) (v : TableId)
    (hm : m.any (fun p => p.1 == n) = false) (hkn : (k == n) = false) :
    (imInsert m k v).any (fun p => p.1 == n) = false := by
  simp only [imInsert]
  split
  · rw [map_keep_keys_any _ _ (fun p => by split <;> rfl), hm]
  · rw [List.any_append, hm]
    simp [hkn]

theorem imInsert_length_of_not_key (m : List (String × TableId)) (k : String)
    (v : TableId) (h : m.any (fun p => p.1 == k) = false) :
    (imInsert m k v).length = m.length + 1 := by
  simp [imInsert, h]

theorem getTableNamesLoop_tables_length :
    ∀ (names : List String) (m : List (String × TableId)) (s : SqlSchema),
      ((getTableNamesLoop names m s).2).tables.length = s.tables.length + names.length := by
  intro names
  induction names with
  | nil => intro m s; rfl
  | cons n rest ih =>
    intro m s
    simp only [getTableNamesLoop, SqlSchema.push_table]
    rw [ih]
    simp only [List.length_append, List.length_cons, List.length_nil]
    omega

theorem getTableNamesLoop_map_length :
    ∀ (names : List String) (m : List (String × TableId)) (s : SqlSchema),
      names.Nodup →
      (∀ n ∈ names, m.any (fun p => p.1 == n) = false) →
      ((getTableNamesLoop names m s).1).length = m.length + names.length := by
  intro names
  induction names with
  | nil => intro m s _ _; rfl
  | cons n rest ih =>
    intro m s hnodup hfresh
    simp only [List.nodup_cons] at hnodup
    simp only [getTableNamesLoop, SqlSchema.push_table]
    have hmn : m.any (fun p => p.1 == n) = false := hfresh n (List.mem_cons_self _ _)
    rw [ih _ _ hnodup.2 ?_]
    · rw [imInsert_length_of_not_key m n _ hmn]
      simp only [List.length_cons]
      omega
    · intro n2 hn2
      refine imInsert_any_false m n n2 _ (hfresh n2 (List.mem_cons_of_mem _ hn2)) ?_
      exact beq_eq_false_iff_ne.mpr (fun he => hnodup.1 (he ▸ hn2))

theorem sqliteFkFinish_tables (tid : TableId) :
    ∀ (m : List (Int × IntermediateForeignKey)) (s : SqlSchema),
      (sqliteFkFinish tid m s).tables = s.tables := by
  intro m
  induction m with
  | nil => intro s; rfl
  | cons e rest ih =>
    intro s
    simp only [sqliteFkFinish, List.foldl_cons] at *
    rw [ih]

theorem sqlitePushForeignKeys_tables (tid : TableId) (table_ids : List (String × TableId))
    (rows : List SqliteFkRow) (s s2 : SqlSchema)
    (hok : sqlitePushForeignKeys tid table_ids rows s = Except.ok s2) :
    s2.tables = s.tables := by
  simp only [sqlitePushForeignKeys] at hok
  split at hok
  · cases hok
  · cases hok
    exact sqliteFkFinish_tables tid _ _

theorem sqliteGetTable_tables_length (cat : SqliteCatalog) (name : String) (tid : TableId)
    (table_ids : List (String × TableId)) (s s2 : SqlSchema)
    (hok : sqliteGetTable cat name tid table_ids s = Except.ok s2) :
    s2.tables.length = s.tables.length := by
  simp only [sqliteGetTable] at hok
  split at hok
  · cases hok
  · rw [sqlitePushForeignKeys_tables _ _ _ _ _ hok]
    simp [List.length_set]

theorem sqliteTablesLoop_tables_length (cat : SqliteCatalog) :
    ∀ (entries table_ids : List (String × TableId)) (s s2 : SqlSchema),
      sqliteTablesLoop cat entries table_ids s = Except.ok s2 →
      s2.tables.length = s.tables.length := by
  intro entries
  induction entries with
  | nil =>
    intro table_ids s s2 hok
    simp only [sqliteTablesLoop] at hok
    cases hok
    rfl
  | cons e rest ih =>
    intro table_ids s s2 hok
    obtain ⟨name, tid⟩ := e
    simp only [sqliteTablesLoop] at hok
    split at hok
    · cases hok
    · rename_i s3 htab
      rw [ih table_ids s3 s2 hok]
      exact sqliteGetTable_tables_length cat name tid table_ids s s3 htab

theorem sqliteFkAssign_tables (s : SqlSchema) (l : List (ForeignKeyId × List String)) :
    (sqliteFkAssign s l).tables = s.tables := by
  induction l generalizing s with
  | nil => rfl
  | cons p rest ih =>
    simp only [sqliteFkAssign, List.foldl_cons] at *
    rw [ih]
    split
    · rfl
    · rfl

theorem pgGetIndices_tables_length (cockroach : Bool) (table_ids : List (String × TableId))
    (rows : List PgIndexRow) (ext : PostgresSchemaExt) (s s2 : SqlSchema)
    (ext2 : PostgresSchemaExt)
    (hok : pgGetIndices cockroach table_ids rows ext s = Except.ok (s2, ext2)) :
    s2.tables.length = s.tables.length := by
  simp only [pgGetIndices] at hok
  split at hok
  · cases hok
  · cases hok
    exact pgAttachIndexes_tables_length _ _

/-- C9: `get_metadata` returns a table count equal to the number of tables in
the model a successful `describe` returns, on Postgres and SQLite alike; on
SQLite the count also equals the number of non-system tables, the denylist
filter being shared with `describe` through the common table-listing routine. -/
theorem c9_metadata_matches_describe_table_count :
    (∀ (cockroach pgNativeTypes : Bool) (schemaName : String)
       (gd : String → ColumnType → Option DefaultValue) (cat : PgCatalog)
       (s : SqlSchema) (ext : PostgresSchemaExt),
       cat.tables.Nodup →
       pgDescribe cockroach pgNativeTypes schemaName gd cat = Except.ok (s, ext) →
       (pgGetMetadata cat).table_count = s.tables.length) ∧
    (∀ (cat : SqliteCatalog) (s : SqlSchema),
       (cat.tableNames.filter (fun n => !is_system_table n)).Nodup →
       sqliteDescribe cat = Except.ok s →
       (sqliteGetMetadata cat).table_count = s.tables.length ∧
       (sqliteGetMetadata cat).table_count
         = (cat.tableNames.filter (fun n => !is_system_table n)).length) := by
  constructor
  · intro cockroach pgNativeTypes schemaName gd cat s ext hnodup hok
    simp only [pgDescribe] at hok
    split at hok
    · cases hok
    · rename_i cols hcols
      split at hok
      · cases hok
      · rename_i fks hfks
        split at hok
        · cases hok
        · rename_i s5 ext2 hidx
          injection hok with h
          rw [Prod.mk.injEq] at h
          obtain ⟨h1, h2⟩ := h
          subst h1
          subst h2
          simp only [pgGetMetadata]
          rw [getTableNamesLoop_map_length cat.tables [] SqlSchema.default hnodup
            (by intro n hn; rfl)]
          have h5 := pgGetIndices_tables_length cockroach _ cat.indexes _ _ s5 ext2 hidx
          simp only at h5 ⊢
          rw [h5, getTableNamesLoop_tables_length]
          rfl
  · intro cat s hnodup hok
    simp only [sqliteDescribe] at hok
    split at hok
    · cases hok
    · rename_i s2 hloop
      split at hok
      · cases hok
      · rename_i fixups hfix
        cases hok
        have hlen2 := sqliteTablesLoop_tables_length cat _ _ _ s2 hloop
        constructor
        · simp only [sqliteGetMetadata, sqliteGetTableNames]
          rw [getTableNamesLoop_map_length _ [] SqlSchema.default hnodup
            (by intro n hn; rfl)]
          simp only [sqliteFkAssign_tables]
          rw [hlen2]
          simp only [sqliteGetTableNames] at *
          rw [getTableNamesLoop_tables_length]
          rfl
        · simp only [sqliteGetMetadata, sqliteGetTableNames]
          rw [getTableNamesLoop_map_length _ [] SqlSchema.default hnodup
            (by intro n hn; rfl)]
          simp

def c9PgCatW : PgCatalog :=
  { tables := [], sequences := [], enums := [], columns := [], fks := [],
    indexes := [], views := [], procedures := [], size := 0 }

def c9SqliteCatW : SqliteCatalog :=
  { tableNames := ["sqlite_stat1", "t"],
    colRows := fun t => if t == "t" then [⟨0, "a", "text", false, none, 0⟩] else [],
    fkRows := fun _ => [],
    indexListRows := fun _ => [],
    indexInfoRows := fun _ => [],
    indexXinfoRows := fun _ => [],
    views := [], size := 0 }

def c9SqliteSchemaW : SqlSchema :=
  { tables := [⟨"t", [], none⟩],
    enums := [],
    columns := [(0, ⟨"a", ⟨"text", ColumnTypeFamily.String, ColumnArity.Nullable, none⟩,
      none, false⟩)],
    foreign_keys := [], views := [], procedures := [] }

theorem c9_metadata_witness :
    ((pgGetMetadata c9PgCatW).table_count
        = (⟨[], [], [], [], [], []⟩ : SqlSchema).tables.length) ∧
    ((sqliteGetMetadata c9SqliteCatW).table_count = c9SqliteSchemaW.tables.length ∧
     (sqliteGetMetadata c9SqliteCatW).table_count
        = (c9SqliteCatW.tableNames.filter (fun n => !is_system_table n)).length) :=
  ⟨c9_metadata_matches_describe_table_count.1 false false "public" (fun _ _ => none)
      c9PgCatW ⟨[], [], [], [], [], []⟩ ⟨[], [], []⟩ (by decide) (by decide),
   c9_metadata_matches_describe_table_count.2 c9SqliteCatW c9SqliteSchemaW
      (by decide) (by decide)⟩

/-! C1 lemmas -/

/-- Validity of a column catalog row: the closed catalog enumerations
(`is_identity`, `is_nullable`) hold one of their documented values, so the
describer's defensive panics cannot fire. -/
def PgColRowValid (r : PgColRow) : Prop :=
  (match r.is_identity with
   | some s => strLower s = "yes" ∨ strLower s = "no"
   | none => True) ∧
  (strLower r.is_nullable = "no" ∨ strLower r.is_nullable = "yes")

/-- Validity of a foreign-key catalog row's action characters. -/
def PgFkRowActsValid (r : PgFkRow) : Prop :=
  (pgFkAction r.confdeltype).isSome ∧ (pgFkAction r.confupdtype).isSome

theorem pgIsIdentity_isSome (r : PgColRow) (h : PgColRowValid r) :
    (pgIsIdentity r.is_identity).isSome := by
  obtain ⟨h1, _⟩ := h
  match hr : r.is_identity with
  | none => rfl
  | some s =>
    rw [hr] at h1
    simp only [pgIsIdentity]
    rcases h1 with h2 | h2 <;> simp [h2]

theorem get_column_type_postgresql_isSome (row : PgColRow) (enums : List Enum)
    (h : strLower row.is_nullable = "no" ∨ strLower row.is_nullable = "yes") :
    (get_column_type_postgresql row enums).isSome := by
  simp only [get_column_type_postgresql]
  rcases h with h | h <;> rw [h] <;> rfl

theorem get_column_type_cockroachdb_isSome (row : PgColRow) (enums : List Enum)
    (h : strLower row.is_nullable = "no" ∨ strLower row.is_nullable = "yes") :
    (get_column_type_cockroachdb row enums).isSome := by
  simp only [get_column_type_cockroachdb]
  rcases h with h | h <;> rw [h] <;> rfl

theorem pgColsLoop_ok (cockroach pgNativeTypes : Bool) (enums : List Enum)
    (table_ids : List (String × TableId))
    (gd : String → ColumnType → Option DefaultValue) :
    ∀ (rows : List PgColRow) (acc : List (TableId × Column)),
      (∀ r ∈ rows, PgColRowValid r) →
      ∃ cols, pgColsLoop cockroach pgNativeTypes enums table_ids gd rows acc
        = Except.ok cols := by
  intro rows
  induction rows with
  | nil => intro acc _; exact ⟨acc, rfl⟩
  | cons row rest ih =>
    intro acc hval
    have hrow := hval row (List.mem_cons_self _ _)
    have hrest : ∀ r ∈ rest, PgColRowValid r :=
      fun r hr => hval r (List.mem_cons_of_mem _ hr)
    simp only [pgColsLoop]
    match him : imGet table_ids row.table_name with
    | none => exact ih acc hrest
    | some table_id =>
      obtain ⟨b, hb⟩ := Option.isSome_iff_exists.mp (pgIsIdentity_isSome row hrow)
      rw [hb]
      have htpe : (if cockroach && !pgNativeTypes then get_column_type_cockroachdb row enums
          else get_column_type_postgresql row enums).isSome := by
        split
        · exact get_column_type_cockroachdb_isSome row enums hrow.2
        · exact get_column_type_postgresql_isSome row enums hrow.2
      obtain ⟨tpe, htpe2⟩ := Option.isSome_iff_exists.mp htpe
      rw [htpe2]
      exact ih _ hrest

theorem pgFkLoop_cross (schemaName : String) (table_ids : List (String × TableId)) :
    ∀ (rows : List PgFkRow) (m : List (Int × (TableId × ForeignKey))),
      (∀ r ∈ rows, PgFkRowActsValid r) →
      (∃ r ∈ rows, r.referenced_schema_name ≠ schemaName) →
      ∃ r ∈ rows, r.referenced_schema_name ≠ schemaName ∧
        pgFkLoop schemaName table_ids rows m = Except.error
          (DescriberError.crossSchema
            (schemaName ++ "." ++ r.table_name)
            (r.referenced_schema_name ++ "." ++ r.parent_table)
            r.constraint_name) := by
  intro rows
  induction rows with
  | nil =>
    rintro m _ ⟨r, hr, _⟩
    cases hr
  | cons row rest ih =>
    rintro m hval ⟨r0, hr0, hr0ne⟩
    by_cases hrow : row.referenced_schema_name = schemaName
    · have hoff : ∃ r ∈ rest, r.referenced_schema_name ≠ schemaName := by
        rcases List.mem_cons.mp hr0 with he | hm
        · subst he; exact absurd hrow hr0ne
        · exact ⟨r0, hm, hr0ne⟩
      have hcond : ¬ (schemaName ≠ row.referenced_schema_name) := by
        rw [hrow]
        simp
      have hrest : ∀ r ∈ rest, PgFkRowActsValid r :=
        fun r hr => hval r (List.mem_cons_of_mem _ hr)
      simp only [pgFkLoop, if_neg hcond]
      match him : imGet table_ids row.parent_table with
      | none =>
        obtain ⟨r, hm, hne, heq⟩ := ih m hrest hoff
        exact ⟨r, List.mem_cons_of_mem _ hm, hne, heq⟩
      | some referenced_table_id =>
        match him2 : imGet table_ids row.table_name with
        | none =>
          obtain ⟨r, hm, hne, heq⟩ := ih m hrest hoff
          exact ⟨r, List.mem_cons_of_mem _ hm, hne, heq⟩
        | some table_id =>
          have hacts := hval row (List.mem_cons_self _ _)
          obtain ⟨od, hod⟩ := Option.isSome_iff_exists.mp hacts.1
          obtain ⟨ou, hou⟩ := Option.isSome_iff_exists.mp hacts.2
          rw [hod, hou]
          obtain ⟨r, hm, hne, heq⟩ := ih _ hrest hoff
          exact ⟨r, List.mem_cons_of_mem _ hm, hne, heq⟩
    · refine ⟨row, List.mem_cons_self _ _, hrow, ?_⟩
      have hcond : schemaName ≠ row.referenced_schema_name :=
        fun he => hrow he.symm
      simp only [pgFkLoop, if_pos hcond]

/-- C1: a catalog result set containing a foreign-key row whose referenced
schema differs from the schema under description makes the Postgres
`describe()` return a CrossSchemaReference error carrying the source table,
target table and constraint name, and no schema model at all.  (The closed
catalog enumerations — nullability, identity, action codes — are assumed
valid, as the engine controls them.) -/
theorem c1_cross_schema_fk_aborts_describe :
    ∀ (cockroach pgNativeTypes : Bool) (schemaName : String)
      (gd : String → ColumnType → Option DefaultValue) (cat : PgCatalog),
      (∀ r ∈ cat.columns, PgColRowValid r) →
      (∀ r ∈ cat.fks, PgFkRowActsValid r) →
      (∃ r ∈ cat.fks, r.referenced_schema_name ≠ schemaName) →
      ∃ r ∈ cat.fks, r.referenced_schema_name ≠ schemaName ∧
        pgDescribe cockroach pgNativeTypes schemaName gd cat
          = Except.error (DescriberError.crossSchema
              (schemaName ++ "." ++ r.table_name)
              (r.referenced_schema_name ++ "." ++ r.parent_table)
              r.constraint_name) := by
  intro cockroach pgNativeTypes schemaName gd cat hcols hacts hoff
  obtain ⟨cols, hok⟩ := pgColsLoop_ok cockroach pgNativeTypes (pgGetEnums cat.enums)
    (getTableNamesLoop cat.tables [] SqlSchema.default).1 gd cat.columns [] hcols
  obtain ⟨r, hm, hne, herr⟩ := pgFkLoop_cross schemaName
    (getTableNamesLoop cat.tables [] SqlSchema.default).1 cat.fks [] hacts hoff
  refine ⟨r, hm, hne, ?_⟩
  simp only [pgDescribe, hok, pgGetForeignKeys, herr]

def c1CatW : PgCatalog :=
  { tables := ["t"], sequences := [], enums := [],
    columns := [],
    fks := [⟨7, "x", "u", "y", 'a', 'a', "other", "fk1", "t", 1⟩],
    indexes := [], views := [], procedures := [], size := 0 }

theorem c1_cross_schema_witness :
    ∃ r ∈ c1CatW.fks, r.referenced_schema_name ≠ "public" ∧
      pgDescribe false false "public" (fun _ _ => none) c1CatW
        = Except.error (DescriberError.crossSchema
            ("public" ++ "." ++ r.table_name)
            (r.referenced_schema_name ++ "." ++ r.parent_table)
            r.constraint_name) :=
  c1_cross_schema_fk_aborts_describe false false "public" (fun _ _ => none) c1CatW
    (by intro r hr; cases hr)
    (by
      intro r hr
      simp only [c1CatW, List.mem_singleton] at hr
      subst hr
      exact ⟨rfl, rfl⟩)
    (by decide)

/-! C7 -/

/-- C7: after a successful Postgres describe, the columns-by-table and
foreign-keys-by-table vectors are sorted by owning table id and the
extension-data vectors are sorted by their id key, and the binary-search-based
accessors find an entry for every key present in these vectors.
(The `index_algorithm` / `get_opclass` accessors are the source's; the
columns/foreign-keys lookups model the walkers' binary-search range accessors,
`walkers.rs` not being among the provided sources.) -/
theorem c7_describe_sorts_vectors_for_binary_search :
    ∀ (cockroach pgNativeTypes : Bool) (schemaName : String)
      (gd : String → ColumnType → Option DefaultValue) (cat : PgCatalog)
      (s : SqlSchema) (ext : PostgresSchemaExt),
      pgDescribe cockroach pgNativeTypes schemaName gd cat = Except.ok (s, ext) →
      List.Sorted (fun (a b : TableId × Column) => a.1 ≤ b.1) s.columns ∧
      List.Sorted (fun (a b : TableId × ForeignKey) => a.1 ≤ b.1) s.foreign_keys ∧
      List.Sorted (fun (a b : IndexId × SqlIndexAlgorithm) => a.1 ≤ b.1) ext.indexes ∧
      List.Sorted (fun (a b : IndexFieldId × SQLOperatorClass) => a.1 ≤ b.1) ext.opclasses ∧
      (∀ p ∈ ext.indexes, ∃ v, ext.index_algorithm p.1 = some v ∧ (p.1, v) ∈ ext.indexes) ∧
      (∀ p ∈ ext.opclasses, ∃ v, ext.get_opclass p.1 = some v ∧ (p.1, v) ∈ ext.opclasses) ∧
      (∀ p ∈ s.columns, ∃ v, bsearchByKey s.columns p.1 = some v ∧ (p.1, v) ∈ s.columns) ∧
      (∀ p ∈ s.foreign_keys, ∃ v, bsearchByKey s.foreign_keys p.1 = some v ∧
        (p.1, v) ∈ s.foreign_keys) := by
  intro cockroach pgNativeTypes schemaName gd cat s ext hok
  simp only [pgDescribe] at hok
  split at hok
  · cases hok
  · split at hok
    · cases hok
    · split at hok
      · cases hok
      · rename_i s5 ext2 hidx
        injection hok with h
        rw [Prod.mk.injEq] at h
        obtain ⟨h1, h2⟩ := h
        subst h1
        subst h2
        refine ⟨sortByKey_sorted _ _, sortByKey_sorted _ _, sortByKey_sorted _ _,
          sortByKey_sorted _ _, ?_, ?_, ?_, ?_⟩
        · intro p hp
          exact bsearchByKey_finds
            (sortByKey_sorted (fun (q : IndexId × SqlIndexAlgorithm) => q.1)
              ext2.indexes) hp
        · intro p hp
          exact bsearchByKey_finds
            (sortByKey_sorted (fun (q : IndexFieldId × SQLOperatorClass) => q.1)
              ext2.opclasses) hp
        · intro p hp
          refine bsearchByKey_finds
            (sortByKey_sorted (fun (q : TableId × Column) => q.1) _) hp
        · intro p hp
          refine bsearchByKey_finds
            (sortByKey_sorted (fun (q : TableId × ForeignKey) => q.1) _) hp

def c7CatW : PgCatalog :=
  { tables := ["t"], sequences := [], enums := [], columns := [], fks := [],
    indexes := [⟨"i", "c", false, false, "t", "btree", 1, none, none, some "ASC"⟩],
    views := [], procedures := [], size := 0 }

def c7SchemaW : SqlSchema :=
  { tables := [⟨"t", [⟨"i", [⟨"c", some SQLSortOrder.Asc⟩], IndexType.Normal⟩], none⟩],
    enums := [], columns := [], foreign_keys := [], views := [], procedures := [] }

def c7ExtW : PostgresSchemaExt :=
  { opclasses := [], indexes := [(⟨0, 0⟩, SqlIndexAlgorithm.BTree)], sequences := [] }

theorem c7_sorted_vectors_witness :
    List.Sorted (fun (a b : TableId × Column) => a.1 ≤ b.1) c7SchemaW.columns ∧
    List.Sorted (fun (a b : TableId × ForeignKey) => a.1 ≤ b.1) c7SchemaW.foreign_keys ∧
    List.Sorted (fun (a b : IndexId × SqlIndexAlgorithm) => a.1 ≤ b.1) c7ExtW.indexes ∧
    List.Sorted (fun (a b : IndexFieldId × SQLOperatorClass) => a.1 ≤ b.1) c7ExtW.opclasses ∧
    (∀ p ∈ c7ExtW.indexes, ∃ v, c7ExtW.index_algorithm p.1 = some v ∧
      (p.1, v) ∈ c7ExtW.indexes) ∧
    (∀ p ∈ c7ExtW.opclasses, ∃ v, c7ExtW.get_opclass p.1 = some v ∧
      (p.1, v) ∈ c7ExtW.opclasses) ∧
    (∀ p ∈ c7SchemaW.columns, ∃ v, bsearchByKey c7SchemaW.columns p.1 = some v ∧
      (p.1, v) ∈ c7SchemaW.columns) ∧
    (∀ p ∈ c7SchemaW.foreign_keys, ∃ v, bsearchByKey c7SchemaW.foreign_keys p.1 = some v ∧
      (p.1, v) ∈ c7SchemaW.foreign_keys) :=
  c7_describe_sorts_vectors_for_binary_search false false "public" (fun _ _ => none)
    c7CatW c7SchemaW c7ExtW (by decide)

/-! C4 lemmas: Postgres index grouping -/

/-- The sort-order decode on catalog-valid values, as a total function. -/
def pgSortOrderPure : Option String → Option SQLSortOrder
  | none => none
  | some v => if v == "ASC" then some SQLSortOrder.Asc else some SQLSortOrder.Desc

/-- Validity of an index catalog row: the computed `column_order` is one of
the three values the query can produce. -/
def PgIndexRowValid (r : PgIndexRow) : Prop :=
  r.column_order = none ∨ r.column_order = some "ASC" ∨ r.column_order = some "DESC"

theorem pgSortOrderOf_valid (r : PgIndexRow) (h : PgIndexRowValid r) :
    pgSortOrderOf r.column_order = Except.ok (pgSortOrderPure r.column_order) := by
  rcases h with h | h | h <;> rw [h] <;> rfl

/-- The index column a non-primary-key catalog row contributes. -/
def pgMkIndexColumn (r : PgIndexRow) : IndexColumn :=
  ⟨r.column_name, pgSortOrderPure r.column_order⟩

/-- Whether an index catalog row contributes a column to index `n` of table
`tid`. -/
def pgRowMatches (table_ids : List (String × TableId)) (row : PgIndexRow)
    (tid : TableId) (n : String) : Bool :=
  (imGet table_ids row.table_name == some tid) && (row.name == n) && !row.is_primary_key

/-- The non-primary-key catalog rows of table `tid` and index name `n`, in row
order. -/
def pgIndexGroup (table_ids : List (String × TableId)) (rows : List PgIndexRow)
    (tid : TableId) (n : String) : List PgIndexRow :=
  rows.filter (fun row => pgRowMatches table_ids row tid n)

/-- The indexes named `n` accumulated for table `tid`. -/
def entryIndicesFilter (m : List (TableId × PgIndexEntry)) (tid : TableId)
    (n : String) : List Index :=
  (((omLookup m tid).getD ([], none)).1).filter (fun i => i.name == n)

/-- The single index a nonempty row group assembles. -/
def mkIndexOf (n : String) (grp : List PgIndexRow) : List Index :=
  match grp with
  | [] => []
  | r0 :: _ =>
    [⟨n, grp.map pgMkIndexColumn,
      if r0.is_unique then IndexType.Unique else IndexType.Normal⟩]

theorem findIndexByName_none (n : String) :
    ∀ (l : List Index), findIndexByName l n = none →
      l.filter (fun i => i.name == n) = [] := by
  intro l
  induction l with
  | nil => intro _; rfl
  | cons i rest ih =>
    intro h
    simp only [findIndexByName] at h
    split at h
    · cases h
    · rename_i hname
      have hnf : (i.name == n) = false := by simpa using hname
      cases hrest : findIndexByName rest n with
      | none =>
        simp only [List.filter_cons, hnf, Bool.false_eq_true, if_false]
        exact ih hrest
      | some p => rw [hrest] at h; cases h

theorem findIndexByName_found (n : String) (new : Index)
    (hnew : (new.name == n) = true) :
    ∀ (l : List Index) (pos : Nat) (idx : Index),
      findIndexByName l n = some (pos, idx) →
      l.filter (fun i => i.name == n)
          = idx :: (l.drop (pos + 1)).filter (fun i => i.name == n) ∧
      (l.set pos new).filter (fun i => i.name == n)
          = new :: (l.drop (pos + 1)).filter (fun i => i.name == n) := by
  intro l
  induction l with
  | nil => intro pos idx h; cases h
  | cons i rest ih =>
    intro pos idx h
    simp only [findIndexByName] at h
    split at h
    · rename_i hname
      injection h with h2
      rw [Prod.mk.injEq] at h2
      obtain ⟨h3, h4⟩ := h2
      subst h3
      subst h4
      constructor
      · simp only [List.filter_cons, hname, if_true, List.drop_succ_cons, List.drop_zero]
      · simp only [List.set_cons_zero, List.filter_cons, hnew, if_true,
          List.drop_succ_cons, List.drop_zero]
    · rename_i hname
      have hnf : (i.name == n) = false := by simpa using hname
      cases hrest : findIndexByName rest n with
      | none => rw [hrest] at h; cases h
      | some p =>
        obtain ⟨pos2, idx2⟩ := p
        rw [hrest] at h
        have h2 : pos2 + 1 = pos ∧ idx2 = idx := by simpa using h
        obtain ⟨h3, h4⟩ := h2
        subst h4
        obtain ⟨ha, hb⟩ := ih pos2 idx2 hrest
        subst h3
        constructor
        · simp only [List.filter_cons, hnf, Bool.false_eq_true, if_false,
            List.drop_succ_cons]
          exact ha
        · simp only [List.set_cons_succ, List.filter_cons, hnf, Bool.false_eq_true,
            if_false, List.drop_succ_cons]
          exact hb

theorem filter_set_fail {α : Type _} (p : α → Bool) :
    ∀ (l : List α) (pos : Nat) (old new : α),
      l[pos]? = some old → p old = false → p new = false →
      (l.set pos new).filter p = l.filter p := by
  intro l
  induction l with
  | nil => intro pos old new h; cases h
  | cons a rest ih =>
    intro pos old new hget hold hnew
    match pos with
    | 0 =>
      simp only [List.getElem?_cons_zero, Option.some.injEq] at hget
      subst hget
      simp only [List.set_cons_zero, List.filter_cons, hold, hnew,
        Bool.false_eq_true, if_false]
    | pos2 + 1 =>
      simp only [List.getElem?_cons_succ] at hget
      simp only [List.set_cons_succ, List.filter_cons]
      rw [ih pos2 old new hget hold hnew]

theorem findIndexByName_getElem (n : String) :
    ∀ (l : List Index) (pos : Nat) (idx : Index),
      findIndexByName l n = some (pos, idx) →
      l[pos]? = some idx ∧ (idx.name == n) = true := by
  intro l
  induction l with
  | nil => intro pos idx h; cases h
  | cons i rest ih =>
    intro pos idx h
    simp only [findIndexByName] at h
    split at h
    · rename_i hname
      have h2 : 0 = pos ∧ i = idx := by simpa using h
      obtain ⟨h3, h4⟩ := h2
      subst h3
      subst h4
      exact ⟨by simp, hname⟩
    · cases hrest : findIndexByName rest n with
      | none => rw [hrest] at h; cases h
      | some p =>
        obtain ⟨pos2, idx2⟩ := p
        rw [hrest] at h
        have h2 : pos2 + 1 = pos ∧ idx2 = idx := by simpa using h
        obtain ⟨h3, h4⟩ := h2
        subst h4
        subst h3
        obtain ⟨ha, hb⟩ := ih pos2 idx2 hrest
        refine ⟨?_, hb⟩
        simpa only [List.getElem?_cons_succ] using ha

theorem mkIndexOf_ne_nil (nn : String) (r0 : PgIndexRow) (grest : List PgIndexRow) :
    mkIndexOf nn (r0 :: grest) ≠ [] := by
  simp [mkIndexOf]

theorem pgIndexStep_inv (cockroach : Bool) (table_ids : List (String × TableId))
    (G : TableId → String → List PgIndexRow)
    (m : List (TableId × PgIndexEntry)) (ext : PostgresSchemaExt) (row : PgIndexRow)
    (st2 : List (TableId × PgIndexEntry) × PostgresSchemaExt)
    (hval : PgIndexRowValid row)
    (hinv : ∀ tid nn, entryIndicesFilter m tid nn = mkIndexOf nn (G tid nn))
    (hstep : pgIndexStep cockroach table_ids (m, ext) row = Except.ok st2) :
    ∀ tid nn, entryIndicesFilter st2.1 tid nn
      = mkIndexOf nn (G tid nn
          ++ (if pgRowMatches table_ids row tid nn then [row] else [])) := by
  intro tid nn
  simp only [pgIndexStep] at hstep
  split at hstep
  · rename_i hg
    injection hstep with h
    subst h
    have hcond : pgRowMatches table_ids row tid nn = false := by
      simp [pgRowMatches, hg]
    rw [hcond, if_neg (show ¬(false = true) by simp), List.append_nil]
    exact hinv tid nn
  · rename_i table_id hg
    split at hstep
    · cases hstep
    · rename_i sort_order heq2
      have hso : pgSortOrderPure row.column_order = sort_order := by
        rw [pgSortOrderOf_valid row hval] at heq2
        injection heq2
      by_cases htid : tid = table_id
      case neg =>
        have hcond : pgRowMatches table_ids row tid nn = false := by
          have hb : (imGet table_ids row.table_name == some tid) = false := by
            rw [hg, beq_eq_false_iff_ne]
            exact fun hc => htid (Option.some.inj hc).symm
          simp [pgRowMatches, hb]
        rw [hcond, if_neg (show ¬(false = true) by simp), List.append_nil]
        have hne2 : tid ≠ table_id := htid
        split at hstep
        · injection hstep with h
          subst h
          simp only [entryIndicesFilter]
          rw [omLookup_omInsert_ne m table_id tid _ hne2]
          exact hinv tid nn
        · split at hstep
          · injection hstep with h
            subst h
            simp only [entryIndicesFilter]
            rw [omLookup_omInsert_ne m table_id tid _ hne2]
            exact hinv tid nn
          · injection hstep with h
            subst h
            simp only [entryIndicesFilter]
            rw [omLookup_omInsert_ne m table_id tid _ hne2]
            exact hinv tid nn
      case pos =>
      subst htid
      split at hstep
      · rename_i hpk
        injection hstep with h
        subst h
        have hcond : pgRowMatches table_ids row tid nn = false := by
          simp [pgRowMatches, hpk]
        rw [hcond, if_neg (show ¬(false = true) by simp), List.append_nil]
        simp only [entryIndicesFilter]
        rw [omLookup_omInsert_self, Option.getD_some]
        cases hcase : ((omLookup m tid).getD ([], none)).2 with
        | none => exact hinv tid nn
        | some pk => exact hinv tid nn
      · rename_i hpk
        split at hstep
        · rename_i index_pos existing_index heqf
          injection hstep with h
          subst h
          obtain ⟨hget, hidxname⟩ :=
            findIndexByName_getElem row.name _ index_pos existing_index heqf
          by_cases hnn : nn = row.name
          case pos =>
            subst hnn
            have hcond : pgRowMatches table_ids row tid row.name = true := by
              simp [pgRowMatches, hg, hpk]
            rw [hcond, if_pos rfl]
            have hold := hinv tid row.name
            have hnewname : (({ existing_index with
                columns := existing_index.columns
                  ++ [(⟨row.column_name, sort_order⟩ : IndexColumn)] } : Index).name
                == row.name) = true := hidxname
            obtain ⟨ha, hb2⟩ :=
              findIndexByName_found row.name _ hnewname _ index_pos existing_index heqf
            simp only [entryIndicesFilter] at hold ⊢
            rw [omLookup_omInsert_self, Option.getD_some]
            rw [ha] at hold
            cases hgrp : G tid row.name with
            | nil =>
              rw [hgrp] at hold
              simp [mkIndexOf] at hold
            | cons r0 grest =>
              rw [hgrp] at hold
              simp only [mkIndexOf] at hold
              obtain ⟨h6, h7⟩ := List.cons_eq_cons.mp hold
              rw [hb2, h7, h6]
              simp only [List.cons_append, mkIndexOf, List.map_cons, List.map_append,
                List.map_nil]
              simp [pgMkIndexColumn, hso]
          case neg =>
            have hb : (row.name == nn) = false := by
              rw [beq_eq_false_iff_ne]
              exact fun hc => hnn hc.symm
            have hcond : pgRowMatches table_ids row tid nn = false := by
              simp [pgRowMatches, hb]
            rw [hcond, if_neg (show ¬(false = true) by simp), List.append_nil]
            simp only [entryIndicesFilter]
            rw [omLookup_omInsert_self, Option.getD_some]
            have hexname : existing_index.name = row.name := by
              simpa using hidxname
            have hof : ((fun (i : Index) => i.name == nn) existing_index) = false := by
              simp only [hexname]
              exact hb
            have hnf : ((fun (i : Index) => i.name == nn) ({ existing_index with
                columns := existing_index.columns
                  ++ [(⟨row.column_name, sort_order⟩ : IndexColumn)] } : Index)) = false := hof
            rw [filter_set_fail _ _ index_pos existing_index _ hget hof hnf]
            exact hinv tid nn
        · rename_i heqf
          injection hstep with h
          subst h
          by_cases hnn : nn = row.name
          case pos =>
            subst hnn
            have hcond : pgRowMatches table_ids row tid row.name = true := by
              simp [pgRowMatches, hg, hpk]
            rw [hcond, if_pos rfl]
            have hold := hinv tid row.name
            have hflt := findIndexByName_none row.name _ heqf
            simp only [entryIndicesFilter] at hold ⊢
            rw [hflt] at hold
            rw [omLookup_omInsert_self, Option.getD_some]
            rw [List.filter_append, hflt]
            cases hgrp : G tid row.name with
            | cons r0 grest =>
              rw [hgrp] at hold
              exact absurd hold.symm (mkIndexOf_ne_nil row.name r0 grest)
            | nil =>
              simp only [List.nil_append, List.filter_cons, List.filter_nil]
              simp [mkIndexOf, pgMkIndexColumn, hso]
          case neg =>
            have hb : (row.name == nn) = false := by
              rw [beq_eq_false_iff_ne]
              exact fun hc => hnn hc.symm
            have hcond : pgRowMatches table_ids row tid nn = false := by
              simp [pgRowMatches, hb]
            rw [hcond, if_neg (show ¬(false = true) by simp), List.append_nil]
            simp only [entryIndicesFilter]
            rw [omLookup_omInsert_self, Option.getD_some]
            rw [List.filter_append]
            simp only [List.filter_cons, List.filter_nil, hb, Bool.false_eq_true, if_false,
              List.append_nil]
            exact hinv tid nn

theorem pgIndexStep_omSorted (cockroach : Bool) (table_ids : List (String × TableId))
    (m : List (TableId × PgIndexEntry)) (ext : PostgresSchemaExt) (row : PgIndexRow)
    (st2 : List (TableId × PgIndexEntry) × PostgresSchemaExt)
    (hs : OmSorted m)
    (hstep : pgIndexStep cockroach table_ids (m, ext) row = Except.ok st2) :
    OmSorted st2.1 := by
  simp only [pgIndexStep] at hstep
  split at hstep
  · injection hstep with h
    subst h
    exact hs
  · split at hstep
    · cases hstep
    · split at hstep
      · injection hstep with h
        subst h
        exact omInsert_sorted hs _ _
      · split at hstep
        · injection hstep with h
          subst h
          exact omInsert_sorted hs _ _
        · injection hstep with h
          subst h
          exact omInsert_sorted hs _ _

theorem pgIndicesLoop_inv (cockroach : Bool) (table_ids : List (String × TableId)) :
    ∀ (rows : List PgIndexRow) (G : TableId → String → List PgIndexRow)
      (m : List (TableId × PgIndexEntry)) (ext : PostgresSchemaExt)
      (st2 : List (TableId × PgIndexEntry) × PostgresSchemaExt),
      (∀ r ∈ rows, PgIndexRowValid r) →
      (∀ tid nn, entryIndicesFilter m tid nn = mkIndexOf nn (G tid nn)) →
      pgIndicesLoop cockroach table_ids rows (m, ext) = Except.ok st2 →
      ∀ tid nn, entryIndicesFilter st2.1 tid nn
        = mkIndexOf nn (G tid nn
            ++ rows.filter (fun r => pgRowMatches table_ids r tid nn)) := by
  intro rows
  induction rows with
  | nil =>
    intro G m ext st2 _ hinv hloop tid nn
    simp only [pgIndicesLoop] at hloop
    injection hloop with h
    subst h
    simpa using hinv tid nn
  | cons row rest ih =>
    intro G m ext st2 hval hinv hloop tid nn
    simp only [pgIndicesLoop] at hloop
    split at hloop
    · cases hloop
    · rename_i st1 hstep
      obtain ⟨m1, ext1⟩ := st1
      have hinv1 := pgIndexStep_inv cockroach table_ids G m ext row (m1, ext1)
        (hval row (List.mem_cons_self row rest)) hinv hstep
      have hrest := ih (fun tid2 nn2 => G tid2 nn2
          ++ (if pgRowMatches table_ids row tid2 nn2 then [row] else []))
        m1 ext1 st2 (fun r hr => hval r (List.mem_cons_of_mem row hr)) hinv1 hloop tid nn
      have harg : (G tid nn ++ (if pgRowMatches table_ids row tid nn then [row] else []))
          ++ rest.filter (fun r => pgRowMatches table_ids r tid nn)
          = G tid nn ++ (row :: rest).filter (fun r => pgRowMatches table_ids r tid nn) := by
        by_cases hp : pgRowMatches table_ids row tid nn = true
        · simp [List.filter_cons, hp, List.append_assoc]
        · simp [List.filter_cons, hp]
      rw [harg] at hrest
      exact hrest

theorem pgIndicesLoop_omSorted (cockroach : Bool) (table_ids : List (String × TableId)) :
    ∀ (rows : List PgIndexRow) (m : List (TableId × PgIndexEntry))
      (ext : PostgresSchemaExt)
      (st2 : List (TableId × PgIndexEntry) × PostgresSchemaExt),
      OmSorted m →
      pgIndicesLoop cockroach table_ids rows (m, ext) = Except.ok st2 →
      OmSorted st2.1 := by
  intro rows
  induction rows with
  | nil =>
    intro m ext st2 hs hloop
    simp only [pgIndicesLoop] at hloop
    injection hloop with h
    subst h
    exact hs
  | cons row rest ih =>
    intro m ext st2 hs hloop
    simp only [pgIndicesLoop] at hloop
    split at hloop
    · cases hloop
    · rename_i st1 hstep
      obtain ⟨m1, ext1⟩ := st1
      exact ih m1 ext1 st2 (pgIndexStep_omSorted cockroach table_ids m ext row _ hs hstep) hloop

theorem omSorted_keys_nodup {K : Type _} [LinearOrder K] {β : Type _}
    {m : List (K × β)} (hs : OmSorted m) : (m.map (fun p => p.1)).Nodup := by
  have h2 : List.Pairwise (fun a b : K × β => a.1 ≠ b.1) m :=
    hs.imp (fun h => ne_of_lt h)
  exact List.pairwise_map.mpr h2

theorem pgAttachIndexes_indices :
    ∀ (m : List (TableId × PgIndexEntry)) (s : SqlSchema) (tid : TableId) (e : PgIndexEntry),
      (m.map (fun p => p.1)).Nodup →
      (tid, e) ∈ m →
      tid < s.tables.length →
      ((pgAttachIndexes m s).tables[tid]?).map Table.indices = some e.1 := by
  intro m
  induction m with
  | nil =>
    intro s tid e _ hmem
    cases hmem
  | cons ehead rest ih =>
    intro s tid e hnodup hmem hlt
    simp only [List.map_cons, List.nodup_cons] at hnodup
    rcases List.mem_cons.mp hmem with he | hmem2
    · subst he
      have hnotin : tid ∉ rest.map (fun p => p.1) := hnodup.1
      simp only [pgAttachIndexes, List.foldl_cons]
      rw [show List.foldl pgAttachStep (pgAttachStep s (tid, e)) rest
            = pgAttachIndexes rest (pgAttachStep s (tid, e)) from rfl]
      rw [pgAttachIndexes_getElem?_of_not_key rest _ tid hnotin]
      simp only [pgAttachStep]
      have ht := List.getElem?_eq_getElem hlt
      simp only [ht]
      rw [List.getElem?_set_self (by exact hlt)]
      rfl
    · simp only [pgAttachIndexes, List.foldl_cons]
      rw [show List.foldl pgAttachStep (pgAttachStep s ehead) rest
            = pgAttachIndexes rest (pgAttachStep s ehead) from rfl]
      exact ih (pgAttachStep s ehead) tid e hnodup.2 hmem2
        (by rw [pgAttachStep_tables_length]; exact hlt)

theorem pgGetIndices_grouping (cockroach : Bool) (table_ids : List (String × TableId))
    (rows : List PgIndexRow) (ext : PostgresSchemaExt) (s s2 : SqlSchema)
    (ext2 : PostgresSchemaExt)
    (hval : ∀ r ∈ rows, PgIndexRowValid r)
    (hok : pgGetIndices cockroach table_ids rows ext s = Except.ok (s2, ext2))
    (tid : TableId) (nn : String) (hlt : tid < s.tables.length)
    (hne : rows.filter (fun r => pgRowMatches table_ids r tid nn) ≠ []) :
    ∃ t, s2.tables[tid]? = some t ∧
      t.indices.filter (fun i => i.name == nn)
        = mkIndexOf nn (rows.filter (fun r => pgRowMatches table_ids r tid nn)) := by
  simp only [pgGetIndices] at hok
  split at hok
  · cases hok
  · rename_i mm ext3 hloop
    injection hok with h
    rw [Prod.mk.injEq] at h
    obtain ⟨h1, h2⟩ := h
    subst h1
    have hinvm := pgIndicesLoop_inv cockroach table_ids rows (fun _ _ => []) [] ext
      (mm, ext3) hval (fun _ _ => rfl) hloop
    have hsor := pgIndicesLoop_omSorted cockroach table_ids rows [] ext (mm, ext3)
      omSorted_nil hloop
    have hmain := hinvm tid nn
    simp only [List.nil_append] at hmain
    cases hl : omLookup mm tid with
    | none =>
      exfalso
      simp only [entryIndicesFilter, hl, Option.getD_none, List.filter_nil] at hmain
      cases hgrp : rows.filter (fun r => pgRowMatches table_ids r tid nn) with
      | nil => exact hne hgrp
      | cons r0 grest =>
        rw [hgrp] at hmain
        exact mkIndexOf_ne_nil nn r0 grest hmain.symm
    | some e =>
      have hmem := mem_of_omLookup_eq_some hl
      have hnodup := omSorted_keys_nodup hsor
      have hatt := pgAttachIndexes_indices mm s tid e hnodup hmem hlt
      cases hs2 : (pgAttachIndexes mm s).tables[tid]? with
      | none =>
        rw [hs2] at hatt
        cases hatt
      | some t =>
        refine ⟨t, rfl, ?_⟩
        rw [hs2] at hatt
        have hti : t.indices = e.1 := by simpa using hatt
        rw [hti]
        simpa only [entryIndicesFilter, hl, Option.getD_some] using hmain

theorem pgIndexGroup_indkeyidx_sorted (table_ids : List (String × TableId))
    (rows : List PgIndexRow) (tid : TableId) (nn : String)
    (hs : List.Sorted (fun a b : PgIndexRow =>
        toLex (a.name, a.indkeyidx) ≤ toLex (b.name, b.indkeyidx)) rows) :
    List.Sorted (· ≤ ·)
      ((rows.filter (fun r => pgRowMatches table_ids r tid nn)).map
        (fun r => r.indkeyidx)) := by
  have hf : List.Pairwise (fun a b : PgIndexRow =>
      toLex (a.name, a.indkeyidx) ≤ toLex (b.name, b.indkeyidx))
      (rows.filter (fun r => pgRowMatches table_ids r tid nn)) :=
    List.Pairwise.filter _ hs
  refine List.pairwise_map.mpr ?_
  refine List.Pairwise.imp_of_mem ?_ hf
  intro a b ha hb hab
  have hna : a.name = nn := by
    have h2 := (List.mem_filter.mp ha).2
    simp only [pgRowMatches, Bool.and_eq_true, beq_iff_eq] at h2
    exact h2.1.2
  have hnb : b.name = nn := by
    have h2 := (List.mem_filter.mp hb).2
    simp only [pgRowMatches, Bool.and_eq_true, beq_iff_eq] at h2
    exact h2.1.2
  rcases (Prod.Lex.le_iff _ _).mp hab with hlt | ⟨_, hle⟩
  · exfalso
    rw [hna, hnb] at hlt
    exact lt_irrefl nn hlt
  · exact hle

theorem sqliteGetIndices_pair (cat : SqliteCatalog) (lr : SqliteIndexListRow)
    (r1 r2 : SqliteIdxInfoRow) (n1 n2 : String)
    (ho : (lr.origin == "pk") = false) (hp : lr.isPartial = false)
    (hinfo : cat.indexInfoRows lr.name = [r1, r2])
    (hx : cat.indexXinfoRows lr.name = [])
    (hn1 : r1.name = some n1) (hn2 : r2.name = some n2)
    (hs1 : r1.seqno = 1) (hs2 : r2.seqno = 0) :
    sqliteGetIndices cat [lr] = Except.ok
      [⟨lr.name, [IndexColumn.new n2, IndexColumn.new n1],
        if lr.unique then IndexType.Unique else IndexType.Normal⟩] := by
  simp [sqliteGetIndices, sqliteInfoPass, sqliteXinfoPass, hinfo, hx, ho, hp,
    hn1, hn2, hs1, hs2, IndexColumn.new]

/-! C4: index grouping and column order -/

def c4CatCex : PgCatalog :=
  { tables := ["t"], sequences := [], enums := [], columns := [], fks := [],
    indexes := [⟨"i", "b", false, false, "t", "btree", 1, none, none, some "ASC"⟩,
                ⟨"i", "a", false, false, "t", "btree", 0, none, none, some "ASC"⟩],
    views := [], procedures := [], size := 0 }

/-- The per-index column-name lists of every table of a Postgres describe
result. -/
def describeIndexColumnNames
    (r : Except DescriberError (SqlSchema × PostgresSchemaExt)) :
    Option (List (List (List String))) :=
  match r with
  | Except.error _ => none
  | Except.ok (s, _) =>
    some (s.tables.map (fun t => t.indices.map (fun i => i.columns.map (fun c => c.name))))

/-- C4 counterexample: the Postgres describer appends index columns in row
arrival order, so when the two rows of a two-column index arrive with their
catalog positions reversed (indkeyidx 1 before 0), the produced Index has
columns ["b", "a"], not the catalog-declared position order ["a", "b"]. -/
theorem c4_counterexample_pg_arrival_order :
    (∀ r ∈ c4CatCex.indexes, r.is_primary_key = false ∧ r.table_name = "t" ∧ r.name = "i") ∧
    c4CatCex.indexes.map (fun r => (r.column_name, r.indkeyidx)) = [("b", 1), ("a", 0)] ∧
    describeIndexColumnNames (pgDescribe false false "public" (fun _ _ => none) c4CatCex)
      = some [[["b", "a"]]] := by decide

def c4RowsW : List PgIndexRow :=
  [⟨"i", "a", false, false, "t", "btree", 0, none, none, some "ASC"⟩,
   ⟨"i", "b", false, false, "t", "btree", 1, none, none, some "ASC"⟩]

def c4SW : SqlSchema := ⟨[⟨"t", [], none⟩], [], [], [], [], []⟩

def c4S2W : SqlSchema :=
  ⟨[⟨"t", [⟨"i", [⟨"a", some SQLSortOrder.Asc⟩, ⟨"b", some SQLSortOrder.Asc⟩],
      IndexType.Normal⟩], none⟩], [], [], [], [], []⟩

def c4Ext2W : PostgresSchemaExt :=
  ⟨[], [(⟨0, 0⟩, SqlIndexAlgorithm.BTree), (⟨0, 0⟩, SqlIndexAlgorithm.BTree)], []⟩

def c4LrW : SqliteIndexListRow := ⟨"ix", false, "c", false⟩

def c4SqCatW : SqliteCatalog :=
  { tableNames := [], colRows := fun _ => [], fkRows := fun _ => [],
    indexListRows := fun _ => [],
    indexInfoRows := fun _ => [⟨1, some "x"⟩, ⟨0, some "y"⟩],
    indexXinfoRows := fun _ => [], views := [], size := 0 }

/-- C4 (amended): a group of same-table same-name non-primary-key index rows
collapses into exactly one Index whose columns follow the rows' arrival order.
On Postgres, when the rows arrive sorted by (index name, indkeyidx) — the order
the catalog query's ORDER BY produces — the table's indexes contain exactly one
index of that name, with one column per group row in that order, so the column
positions (indkeyidx) are ascending; with unordered arrival the columns follow
arrival order, not position order (see the counterexample).  On SQLite, columns
are placed at their seqno position, so a two-row index arriving with positions
reversed still yields one Index with both columns in position order. -/
theorem c4_index_grouping_column_order :
    (∀ (cockroach : Bool) (table_ids : List (String × TableId))
        (rows : List PgIndexRow) (ext : PostgresSchemaExt) (s s2 : SqlSchema)
        (ext2 : PostgresSchemaExt) (tid : TableId) (nn : String),
        (∀ r ∈ rows, PgIndexRowValid r) →
        List.Sorted (fun a b : PgIndexRow =>
          toLex (a.name, a.indkeyidx) ≤ toLex (b.name, b.indkeyidx)) rows →
        pgGetIndices cockroach table_ids rows ext s = Except.ok (s2, ext2) →
        tid < s.tables.length →
        pgIndexGroup table_ids rows tid nn ≠ [] →
        ∃ t, s2.tables[tid]? = some t ∧
          t.indices.filter (fun i => i.name == nn)
            = mkIndexOf nn (pgIndexGroup table_ids rows tid nn) ∧
          List.Sorted (· ≤ ·)
            ((pgIndexGroup table_ids rows tid nn).map (fun r => r.indkeyidx)))
    ∧
    (∀ (cat : SqliteCatalog) (lr : SqliteIndexListRow) (r1 r2 : SqliteIdxInfoRow)
        (n1 n2 : String),
        (lr.origin == "pk") = false → lr.isPartial = false →
        cat.indexInfoRows lr.name = [r1, r2] →
        cat.indexXinfoRows lr.name = [] →
        r1.name = some n1 → r2.name = some n2 →
        r1.seqno = 1 → r2.seqno = 0 →
        sqliteGetIndices cat [lr] = Except.ok
          [⟨lr.name, [IndexColumn.new n2, IndexColumn.new n1],
            if lr.unique then IndexType.Unique else IndexType.Normal⟩]) := by
  constructor
  · intro cockroach table_ids rows ext s s2 ext2 tid nn hval hsort hok hlt hne
    obtain ⟨t, ht, hflt⟩ := pgGetIndices_grouping cockroach table_ids rows ext s s2 ext2
      hval hok tid nn hlt hne
    exact ⟨t, ht, hflt, pgIndexGroup_indkeyidx_sorted table_ids rows tid nn hsort⟩
  · intro cat lr r1 r2 n1 n2 ho hp hinfo hx hn1 hn2 hs1 hs2
    exact sqliteGetIndices_pair cat lr r1 r2 n1 n2 ho hp hinfo hx hn1 hn2 hs1 hs2

theorem c4_index_grouping_witness :
    (∃ t, c4S2W.tables[0]? = some t ∧
        t.indices.filter (fun i => i.name == "i")
          = mkIndexOf "i" (pgIndexGroup [("t", 0)] c4RowsW 0 "i") ∧
        List.Sorted (· ≤ ·)
          ((pgIndexGroup [("t", 0)] c4RowsW 0 "i").map (fun r => r.indkeyidx))) ∧
    sqliteGetIndices c4SqCatW [c4LrW]
      = Except.ok [⟨"ix", [IndexColumn.new "y", IndexColumn.new "x"], IndexType.Normal⟩] :=
  ⟨c4_index_grouping_column_order.1 false [("t", 0)] c4RowsW ⟨[], [], []⟩ c4SW c4S2W
      c4Ext2W 0 "i"
      (by intro r hr
          simp only [c4RowsW, List.mem_cons, List.mem_singleton] at hr
          rcases hr with h | h | h
          · subst h
            exact Or.inr (Or.inl rfl)
          · subst h
            exact Or.inr (Or.inl rfl)
          · cases h)
      (by unfold c4RowsW
          refine List.Pairwise.cons ?_ (List.pairwise_singleton _ _)
          intro b hb
          simp only [List.mem_singleton] at hb
          subst hb
          exact (Prod.Lex.le_iff _ _).mpr (Or.inr ⟨rfl, by decide⟩))
      (by decide) (by decide) (by decide),
   c4_index_grouping_column_order.2 c4SqCatW c4LrW ⟨1, some "x"⟩ ⟨0, some "y"⟩ "x" "y"
      rfl rfl rfl rfl rfl rfl rfl rfl⟩

/-! C3 lemmas: foreign-key grouping and ordering -/

/-- Whether a Postgres foreign-key catalog row survives the two table lookups
of the row loop. -/
def pgFkRowUsed (table_ids : List (String × TableId)) (r : PgFkRow) : Bool :=
  (imGet table_ids r.parent_table).isSome && (imGet table_ids r.table_name).isSome

/-- Whether a row contributes to the foreign key of constraint `cid`. -/
def pgFkMatches (table_ids : List (String × TableId)) (r : PgFkRow) (cid : Int) : Bool :=
  pgFkRowUsed table_ids r && (r.con_id == cid)

/-- The used catalog rows of constraint `cid`, in row order. -/
def pgFkGroup (table_ids : List (String × TableId)) (rows : List PgFkRow)
    (cid : Int) : List PgFkRow :=
  rows.filter (fun r => pgFkMatches table_ids r cid)

/-- The foreign key a row group assembles: ids, constraint name and actions
from the first row, one referencing/referenced column pair per row, in row
order. -/
def pgFkOfGroup (table_ids : List (String × TableId)) :
    List PgFkRow → Option (TableId × ForeignKey)
  | [] => none
  | r0 :: grest =>
    match imGet table_ids r0.table_name, imGet table_ids r0.parent_table,
        pgFkAction r0.confdeltype, pgFkAction r0.confupdtype with
    | some tid, some rtid, some del, some upd =>
      some (tid, ⟨some r0.constraint_name, (r0 :: grest).map (fun r => r.child_column),
        rtid, (r0 :: grest).map (fun r => r.parent_column), del, upd⟩)
    | _, _, _, _ => none

theorem pgFkLoop_group (schemaName : String) (table_ids : List (String × TableId)) :
    ∀ (rows : List PgFkRow) (G : Int → List PgFkRow)
      (m : List (Int × (TableId × ForeignKey)))
      (M : List (Int × (TableId × ForeignKey))),
      (∀ r ∈ rows, PgFkRowActsValid r) →
      (∀ cid, ∀ r ∈ G cid, pgFkRowUsed table_ids r = true ∧ PgFkRowActsValid r) →
      (∀ cid, omLookup m cid = pgFkOfGroup table_ids (G cid)) →
      pgFkLoop schemaName table_ids rows m = Except.ok M →
      ∀ cid, omLookup M cid
        = pgFkOfGroup table_ids (G cid ++ pgFkGroup table_ids rows cid) := by
  intro rows
  induction rows with
  | nil =>
    intro G m M _ _ hGinv hok cid
    simp only [pgFkLoop] at hok
    injection hok with h
    subst h
    simpa [pgFkGroup] using hGinv cid
  | cons row rest ih =>
    intro G m M hval hGside hGinv hok cid
    simp only [pgFkLoop] at hok
    split at hok
    · cases hok
    · rename_i hschema
      split at hok
      · rename_i heqp
        have hused : pgFkRowUsed table_ids row = false := by
          simp [pgFkRowUsed, heqp]
        have hx := ih G m M (fun r hr => hval r (List.mem_cons_of_mem row hr))
          hGside hGinv hok cid
        have harg : G cid ++ pgFkGroup table_ids rest cid
            = G cid ++ pgFkGroup table_ids (row :: rest) cid := by
          simp [pgFkGroup, List.filter_cons, pgFkMatches, hused]
        rw [harg] at hx
        exact hx
      · rename_i rtid heqp
        split at hok
        · rename_i heqc
          have hused : pgFkRowUsed table_ids row = false := by
            simp [pgFkRowUsed, heqc]
          have hx := ih G m M (fun r hr => hval r (List.mem_cons_of_mem row hr))
            hGside hGinv hok cid
          have harg : G cid ++ pgFkGroup table_ids rest cid
              = G cid ++ pgFkGroup table_ids (row :: rest) cid := by
            simp [pgFkGroup, List.filter_cons, pgFkMatches, hused]
          rw [harg] at hx
          exact hx
        · rename_i tid heqc
          split at hok
          · cases hok
          · rename_i del heqd
            split at hok
            · cases hok
            · rename_i upd hequ
              have hused : pgFkRowUsed table_ids row = true := by
                simp [pgFkRowUsed, heqp, heqc]
              have hGside1 : ∀ cid2, ∀ r ∈ (fun cid2 => G cid2
                  ++ (if pgFkMatches table_ids row cid2 then [row] else [])) cid2,
                  pgFkRowUsed table_ids r = true ∧ PgFkRowActsValid r := by
                intro cid2 r hr
                simp only [List.mem_append] at hr
                rcases hr with hr | hr
                · exact hGside cid2 r hr
                · by_cases hm : pgFkMatches table_ids row cid2 = true
                  · rw [if_pos hm] at hr
                    simp only [List.mem_singleton] at hr
                    rw [hr]
                    exact ⟨hused, hval row (List.mem_cons_self row rest)⟩
                  · rw [if_neg hm] at hr
                    cases hr
              have hharg : ∀ (G1 : Int → List PgFkRow),
                  (∀ cid2, G1 cid2 = G cid2
                    ++ (if pgFkMatches table_ids row cid2 then [row] else [])) →
                  G1 cid ++ pgFkGroup table_ids rest cid
                    = G cid ++ pgFkGroup table_ids (row :: rest) cid := by
                intro G1 hG1
                rw [hG1 cid]
                by_cases hm : pgFkMatches table_ids row cid = true
                · simp [pgFkGroup, List.filter_cons, hm, List.append_assoc]
                · simp [pgFkGroup, List.filter_cons, hm]
              split at hok
              · rename_i p0 tid0 fk heqm
                have hGinv1 : ∀ cid2, omLookup (omInsert m row.con_id (tid0, { fk with columns := fk.columns ++ [row.child_column], referenced_columns := fk.referenced_columns ++ [row.parent_column] })) cid2 = pgFkOfGroup table_ids (G cid2 ++ (if pgFkMatches table_ids row cid2 then [row] else [])) := by
                  intro cid2
                  by_cases hc : cid2 = row.con_id
                  · subst hc
                    rw [omLookup_omInsert_self]
                    have hmt : pgFkMatches table_ids row row.con_id = true := by
                      simp [pgFkMatches, hused]
                    rw [if_pos hmt]
                    have hG := hGinv row.con_id
                    rw [heqm] at hG
                    cases hGc : G row.con_id with
                    | nil =>
                      rw [hGc] at hG
                      simp [pgFkOfGroup] at hG
                    | cons r0 grest =>
                      rw [hGc] at hG
                      obtain ⟨hu0, hv0⟩ := hGside row.con_id r0 (hGc ▸ List.mem_cons_self r0 grest)
                      simp only [pgFkRowUsed, Bool.and_eq_true, Option.isSome_iff_exists] at hu0
                      obtain ⟨⟨rtid0, hrt0⟩, ⟨tidr0, htd0⟩⟩ := hu0
                      obtain ⟨hdv, huv⟩ := hv0
                      rw [Option.isSome_iff_exists] at hdv huv
                      obtain ⟨del0, hdel0⟩ := hdv
                      obtain ⟨upd0, hupd0⟩ := huv
                      simp only [pgFkOfGroup, htd0, hrt0, hdel0, hupd0] at hG
                      injection hG with hG2
                      rw [Prod.mk.injEq] at hG2
                      obtain ⟨hG3, hG4⟩ := hG2
                      subst hG3
                      subst hG4
                      simp only [List.cons_append, pgFkOfGroup, htd0, hrt0, hdel0, hupd0]
                      simp [List.map_append]
                  · rw [omLookup_omInsert_ne m row.con_id cid2 _ hc]
                    have hmf : pgFkMatches table_ids row cid2 = false := by
                      have hb : (row.con_id == cid2) = false := by
                        rw [beq_eq_false_iff_ne]
                        exact fun hc2 => hc hc2.symm
                      simp [pgFkMatches, hb]
                    rw [if_neg (by simp [hmf]), List.append_nil]
                    exact hGinv cid2
                have hx := ih (fun cid2 => G cid2
                    ++ (if pgFkMatches table_ids row cid2 then [row] else []))
                  _ M (fun r hr => hval r (List.mem_cons_of_mem row hr))
                  hGside1 hGinv1 hok cid
                rw [hharg _ (fun _ => rfl)] at hx
                exact hx
              · rename_i heqm
                have hGinv1 : ∀ cid2, omLookup (omInsert m row.con_id (tid, ⟨some row.constraint_name, [row.child_column], rtid, [row.parent_column], del, upd⟩)) cid2 = pgFkOfGroup table_ids (G cid2 ++ (if pgFkMatches table_ids row cid2 then [row] else [])) := by
                  intro cid2
                  by_cases hc : cid2 = row.con_id
                  · subst hc
                    rw [omLookup_omInsert_self]
                    have hmt : pgFkMatches table_ids row row.con_id = true := by
                      simp [pgFkMatches, hused]
                    rw [if_pos hmt]
                    have hG := hGinv row.con_id
                    rw [heqm] at hG
                    cases hGc : G row.con_id with
                    | cons r0 grest =>
                      rw [hGc] at hG
                      obtain ⟨hu0, hv0⟩ := hGside row.con_id r0 (hGc ▸ List.mem_cons_self r0 grest)
                      simp only [pgFkRowUsed, Bool.and_eq_true, Option.isSome_iff_exists] at hu0
                      obtain ⟨⟨rtid0, hrt0⟩, ⟨tidr0, htd0⟩⟩ := hu0
                      obtain ⟨hdv, huv⟩ := hv0
                      rw [Option.isSome_iff_exists] at hdv huv
                      obtain ⟨del0, hdel0⟩ := hdv
                      obtain ⟨upd0, hupd0⟩ := huv
                      simp only [pgFkOfGroup, htd0, hrt0, hdel0, hupd0] at hG
                      cases hG
                    | nil =>
                      simp only [List.nil_append, pgFkOfGroup, heqp, heqc, heqd, hequ,
                        List.map_cons, List.map_nil]
                  · rw [omLookup_omInsert_ne m row.con_id cid2 _ hc]
                    have hmf : pgFkMatches table_ids row cid2 = false := by
                      have hb : (row.con_id == cid2) = false := by
                        rw [beq_eq_false_iff_ne]
                        exact fun hc2 => hc hc2.symm
                      simp [pgFkMatches, hb]
                    rw [if_neg (by simp [hmf]), List.append_nil]
                    exact hGinv cid2
                have hx := ih (fun cid2 => G cid2
                    ++ (if pgFkMatches table_ids row cid2 then [row] else []))
                  _ M (fun r hr => hval r (List.mem_cons_of_mem row hr))
                  hGside1 hGinv1 hok cid
                rw [hharg _ (fun _ => rfl)] at hx
                exact hx

/-- Whether a SQLite foreign-key catalog row contributes to foreign key `id`. -/
def sqliteFkMatches (table_ids : List (String × TableId)) (r : SqliteFkRow)
    (id : Int) : Bool :=
  (imGet table_ids r.table).isSome && (r.id == id)

/-- The used catalog rows of foreign key `id`, in row order. -/
def sqliteFkGroup (table_ids : List (String × TableId)) (rows : List SqliteFkRow)
    (id : Int) : List SqliteFkRow :=
  rows.filter (fun r => sqliteFkMatches table_ids r id)

theorem omInsert_perm_fresh {K : Type _} [LinearOrder K] {β : Type _} :
    ∀ (l : List (K × β)) (k : K) (v : β), k ∉ l.map (fun p => p.1) →
      List.Perm (omInsert l k v) ((k, v) :: l) := by
  intro l
  induction l with
  | nil =>
    intro k v _
    exact List.Perm.refl _
  | cons p rest ih =>
    intro k v hk
    obtain ⟨k0, v0⟩ := p
    simp only [List.map_cons, List.mem_cons, not_or] at hk
    by_cases h1 : k < k0
    · rw [show omInsert ((k0, v0) :: rest) k v = (k, v) :: (k0, v0) :: rest by
        simp only [omInsert, if_pos h1]]
    · by_cases h2 : k = k0
      · exact absurd h2 hk.1
      · rw [show omInsert ((k0, v0) :: rest) k v = (k0, v0) :: omInsert rest k v by
          simp only [omInsert, if_neg h1]; rw [if_neg h2]]
        exact List.Perm.trans (List.Perm.cons _ (ih k v hk.2))
          (List.Perm.swap _ _ _)

theorem seq_mem_of_fkFilterMap (G : List SqliteFkRow) (x : Int)
    (hx : x ∈ (G.filterMap (fun r => r.toCol.map (fun c => (r.seq, c)))).map
      (fun p => p.1)) :
    x ∈ G.map (fun r => r.seq) := by
  rw [List.mem_map] at hx
  obtain ⟨p, hp, hpx⟩ := hx
  rw [List.mem_filterMap] at hp
  obtain ⟨r, hr, hre⟩ := hp
  cases htc : r.toCol with
  | none => rw [htc] at hre; cases hre
  | some c =>
    rw [htc] at hre
    have hre2 : (r.seq, c) = p := by simpa using hre
    rw [List.mem_map]
    refine ⟨r, hr, ?_⟩
    rw [← hpx, ← hre2]

/-- The per-entry invariant of the SQLite `push_foreign_keys` accumulator. -/
def SqliteFkMapInv (G : Int → List SqliteFkRow)
    (m : List (Int × IntermediateForeignKey)) : Prop :=
  ∀ id, (omLookup m id = none → G id = []) ∧
    (∀ ifk, omLookup m id = some ifk →
      OmSorted ifk.columns ∧
      List.Perm ifk.columns ((G id).map (fun r => (r.seq, r.fromCol))) ∧
      OmSorted ifk.referenced_columns ∧
      List.Perm ifk.referenced_columns
        ((G id).filterMap (fun r => r.toCol.map (fun c => (r.seq, c)))))

theorem sqliteFkUpdate_props (G : List SqliteFkRow) (row : SqliteFkRow)
    (fk : IntermediateForeignKey)
    (hseqG : row.seq ∉ G.map (fun r => r.seq))
    (hs1 : OmSorted fk.columns)
    (hp1 : List.Perm fk.columns (G.map (fun r => (r.seq, r.fromCol))))
    (hs2 : OmSorted fk.referenced_columns)
    (hp2 : List.Perm fk.referenced_columns
      (G.filterMap (fun r => r.toCol.map (fun c => (r.seq, c))))) :
    OmSorted (omInsert fk.columns row.seq row.fromCol) ∧
    List.Perm (omInsert fk.columns row.seq row.fromCol)
      ((G ++ [row]).map (fun r => (r.seq, r.fromCol))) ∧
    ((∀ c, row.toCol = some c →
       OmSorted (omInsert fk.referenced_columns row.seq c) ∧
       List.Perm (omInsert fk.referenced_columns row.seq c)
         ((G ++ [row]).filterMap (fun r => r.toCol.map (fun c2 => (r.seq, c2))))) ∧
     (row.toCol = none →
       List.Perm fk.referenced_columns
         ((G ++ [row]).filterMap (fun r => r.toCol.map (fun c2 => (r.seq, c2)))))) := by
  have hfr1 : row.seq ∉ fk.columns.map (fun p => p.1) := by
    intro hx
    apply hseqG
    have hpm := (hp1.map (fun p => p.1)).mem_iff.mp hx
    simpa [List.map_map, Function.comp] using hpm
  have hfr2 : row.seq ∉ fk.referenced_columns.map (fun p => p.1) := by
    intro hx
    apply hseqG
    have hpm := (hp2.map (fun p => p.1)).mem_iff.mp hx
    exact seq_mem_of_fkFilterMap G row.seq hpm
  refine ⟨omInsert_sorted hs1 _ _, ?_, ?_, ?_⟩
  · have h4 := omInsert_perm_fresh fk.columns row.seq row.fromCol hfr1
    have h5 : List.Perm (omInsert fk.columns row.seq row.fromCol)
        ((row.seq, row.fromCol) :: G.map (fun r => (r.seq, r.fromCol))) :=
      h4.trans (List.Perm.cons _ hp1)
    have h6 : List.Perm ((row.seq, row.fromCol) :: G.map (fun r => (r.seq, r.fromCol)))
        (G.map (fun r => (r.seq, r.fromCol)) ++ [(row.seq, row.fromCol)]) :=
      (List.perm_append_singleton _ _).symm
    have h7 := h5.trans h6
    simpa [List.map_append] using h7
  · intro c htc
    refine ⟨omInsert_sorted hs2 _ _, ?_⟩
    have h4 := omInsert_perm_fresh fk.referenced_columns row.seq c hfr2
    have h5 := h4.trans (List.Perm.cons _ hp2)
    have h6 : List.Perm ((row.seq, c)
          :: G.filterMap (fun r => r.toCol.map (fun c2 => (r.seq, c2))))
        (G.filterMap (fun r => r.toCol.map (fun c2 => (r.seq, c2))) ++ [(row.seq, c)]) :=
      (List.perm_append_singleton _ _).symm
    have h7 := h5.trans h6
    simpa [List.filterMap_append, List.filterMap_cons, List.filterMap_nil, htc] using h7
  · intro htc
    simpa [List.filterMap_append, List.filterMap_cons, List.filterMap_nil, htc] using hp2

theorem sqliteFkLoop_group (table_ids : List (String × TableId)) :
    ∀ (rows : List SqliteFkRow) (G : Int → List SqliteFkRow)
      (m M : List (Int × IntermediateForeignKey)),
      (∀ id, ((G id ++ sqliteFkGroup table_ids rows id).map (fun r => r.seq)).Nodup) →
      SqliteFkMapInv G m →
      sqliteFkLoop table_ids rows m = Except.ok M →
      SqliteFkMapInv (fun id => G id ++ sqliteFkGroup table_ids rows id) M := by
  intro rows
  induction rows with
  | nil =>
    intro G m M _ hinv hok
    simp only [sqliteFkLoop] at hok
    injection hok with h
    subst h
    intro id
    simp only [sqliteFkGroup, List.filter_nil, List.append_nil]
    exact hinv id
  | cons row rest ih =>
    intro G m M hnodup hinv hok
    simp only [sqliteFkLoop] at hok
    split at hok
    · rename_i heqt
      have hgr : ∀ id, sqliteFkGroup table_ids (row :: rest) id
          = sqliteFkGroup table_ids rest id := by
        intro id
        simp [sqliteFkGroup, List.filter_cons, sqliteFkMatches, heqt]
      have hx := ih G m M (fun id => by rw [← hgr id]; exact hnodup id) hinv hok
      intro id
      simp only [hgr]
      exact hx id
    · rename_i rtid2 heqt
      have hmt : sqliteFkMatches table_ids row row.id = true := by
        simp [sqliteFkMatches, heqt]
      have hmf : ∀ id, id ≠ row.id → sqliteFkMatches table_ids row id = false := by
        intro id hne
        have hb : (row.id == id) = false := by
          rw [beq_eq_false_iff_ne]
          exact fun hc => hne hc.symm
        simp [sqliteFkMatches, hb]
      obtain ⟨G1, hG1⟩ : ∃ G1 : Int → List SqliteFkRow,
          G1 = fun id2 => G id2
            ++ (if sqliteFkMatches table_ids row id2 then [row] else []) := ⟨_, rfl⟩
      have hG1self : G1 row.id = G row.id ++ [row] := by
        rw [hG1]
        simp [hmt]
      have hG1ne : ∀ id, id ≠ row.id → G1 id = G id := by
        intro id hne
        rw [hG1]
        simp [hmf id hne]
      have hG1geq : ∀ id, G1 id ++ sqliteFkGroup table_ids rest id
          = G id ++ sqliteFkGroup table_ids (row :: rest) id := by
        intro id
        by_cases hm2 : id = row.id
        · subst hm2
          rw [hG1self]
          have hgc : sqliteFkGroup table_ids (row :: rest) row.id
              = row :: sqliteFkGroup table_ids rest row.id := by
            simp [sqliteFkGroup, List.filter_cons, hmt]
          rw [hgc, List.append_assoc, List.singleton_append]
        · rw [hG1ne id hm2]
          have hgc : sqliteFkGroup table_ids (row :: rest) id
              = sqliteFkGroup table_ids rest id := by
            simp [sqliteFkGroup, List.filter_cons, hmf id hm2]
          rw [hgc]
      have hnodup1 : ∀ id, ((G1 id ++ sqliteFkGroup table_ids rest id).map
          (fun r => r.seq)).Nodup := by
        intro id
        rw [hG1geq id]
        exact hnodup id
      have hseqG : row.seq ∉ (G row.id).map (fun r => r.seq) := by
        have hb := hnodup row.id
        have hgc : sqliteFkGroup table_ids (row :: rest) row.id
            = row :: sqliteFkGroup table_ids rest row.id := by
          simp [sqliteFkGroup, List.filter_cons, hmt]
        rw [hgc, List.map_append, List.nodup_append] at hb
        intro hx
        exact hb.2.2 hx (by simp)
      split at hok
      · rename_i o0 fk heqm
        obtain ⟨hs1, hp1, hs2, hp2⟩ := (hinv row.id).2 fk heqm
        have hprops := sqliteFkUpdate_props (G row.id) row fk hseqG hs1 hp1 hs2 hp2
        obtain ⟨ha1, ha2, ha3, ha6⟩ := hprops
        cases htc : row.toCol with
        | some c =>
          rw [htc] at hok
          obtain ⟨ha4, ha5⟩ := ha3 c htc
          have hinv1 : SqliteFkMapInv G1 (omInsert m row.id { fk with columns := omInsert fk.columns row.seq row.fromCol, referenced_columns := omInsert fk.referenced_columns row.seq c }) := by
            intro id
            by_cases hc : id = row.id
            · subst hc
              rw [hG1self]
              constructor
              · intro hnone
                rw [omLookup_omInsert_self] at hnone
                cases hnone
              · intro ifk hifk
                rw [omLookup_omInsert_self] at hifk
                injection hifk with hifk2
                subst hifk2
                exact ⟨ha1, ha2, ha4, ha5⟩
            · rw [hG1ne id hc]
              constructor
              · intro hnone
                rw [omLookup_omInsert_ne m row.id id _ hc] at hnone
                exact (hinv id).1 hnone
              · intro ifk hifk
                rw [omLookup_omInsert_ne m row.id id _ hc] at hifk
                exact (hinv id).2 ifk hifk
          have hx := ih G1 _ M hnodup1 hinv1 hok
          intro id
          have h2 := hx id
          simp only [hG1geq] at h2
          exact h2
        | none =>
          rw [htc] at hok
          have ha5 := ha6 htc
          have hinv1 : SqliteFkMapInv G1 (omInsert m row.id { fk with columns := omInsert fk.columns row.seq row.fromCol, referenced_columns := fk.referenced_columns }) := by
            intro id
            by_cases hc : id = row.id
            · subst hc
              rw [hG1self]
              constructor
              · intro hnone
                rw [omLookup_omInsert_self] at hnone
                cases hnone
              · intro ifk hifk
                rw [omLookup_omInsert_self] at hifk
                injection hifk with hifk2
                subst hifk2
                exact ⟨ha1, ha2, hs2, ha5⟩
            · rw [hG1ne id hc]
              constructor
              · intro hnone
                rw [omLookup_omInsert_ne m row.id id _ hc] at hnone
                exact (hinv id).1 hnone
              · intro ifk hifk
                rw [omLookup_omInsert_ne m row.id id _ hc] at hifk
                exact (hinv id).2 ifk hifk
          have hx := ih G1 _ M hnodup1 hinv1 hok
          intro id
          have h2 := hx id
          simp only [hG1geq] at h2
          exact h2
      · rename_i heqm
        have hGnil : G row.id = [] := (hinv row.id).1 heqm
        split at hok
        · cases hok
        · rename_i del heqd
          split at hok
          · cases hok
          · rename_i upd hequ
            cases htc : row.toCol with
            | some c =>
              rw [htc] at hok
              have hinv1 : SqliteFkMapInv G1 (omInsert m row.id { columns := omInsert [] row.seq row.fromCol, referenced_table := rtid2, referenced_columns := omInsert [] row.seq c, on_delete_action := del, on_update_action := upd }) := by
                intro id
                by_cases hc : id = row.id
                · subst hc
                  rw [hG1self, hGnil]
                  constructor
                  · intro hnone
                    rw [omLookup_omInsert_self] at hnone
                    cases hnone
                  · intro ifk hifk
                    rw [omLookup_omInsert_self] at hifk
                    injection hifk with hifk2
                    subst hifk2
                    refine ⟨List.sorted_singleton _, ?_, List.sorted_singleton _, ?_⟩
                    · have he : (([] : List SqliteFkRow) ++ [row]).map
                          (fun r => (r.seq, r.fromCol)) = [(row.seq, row.fromCol)] := by simp
                      rw [he]
                      exact List.Perm.refl _
                    · have he : (([] : List SqliteFkRow) ++ [row]).filterMap
                          (fun r => r.toCol.map (fun c2 => (r.seq, c2)))
                          = [(row.seq, c)] := by simp [htc]
                      rw [he]
                      exact List.Perm.refl _
                · rw [hG1ne id hc]
                  constructor
                  · intro hnone
                    rw [omLookup_omInsert_ne m row.id id _ hc] at hnone
                    exact (hinv id).1 hnone
                  · intro ifk hifk
                    rw [omLookup_omInsert_ne m row.id id _ hc] at hifk
                    exact (hinv id).2 ifk hifk
              have hx := ih G1 _ M hnodup1 hinv1 hok
              intro id
              have h2 := hx id
              simp only [hG1geq] at h2
              exact h2
            | none =>
              rw [htc] at hok
              have hinv1 : SqliteFkMapInv G1 (omInsert m row.id { columns := omInsert [] row.seq row.fromCol, referenced_table := rtid2, referenced_columns := [], on_delete_action := del, on_update_action := upd }) := by
                intro id
                by_cases hc : id = row.id
                · subst hc
                  rw [hG1self, hGnil]
                  constructor
                  · intro hnone
                    rw [omLookup_omInsert_self] at hnone
                    cases hnone
                  · intro ifk hifk
                    rw [omLookup_omInsert_self] at hifk
                    injection hifk with hifk2
                    subst hifk2
                    refine ⟨List.sorted_singleton _, ?_, List.sorted_nil, ?_⟩
                    · have he : (([] : List SqliteFkRow) ++ [row]).map
                          (fun r => (r.seq, r.fromCol)) = [(row.seq, row.fromCol)] := by simp
                      rw [he]
                      exact List.Perm.refl _
                    · have he : (([] : List SqliteFkRow) ++ [row]).filterMap
                          (fun r => r.toCol.map (fun c2 => (r.seq, c2)))
                          = [] := by simp [htc]
                      rw [he]
                · rw [hG1ne id hc]
                  constructor
                  · intro hnone
                    rw [omLookup_omInsert_ne m row.id id _ hc] at hnone
                    exact (hinv id).1 hnone
                  · intro ifk hifk
                    rw [omLookup_omInsert_ne m row.id id _ hc] at hifk
                    exact (hinv id).2 ifk hifk
              have hx := ih G1 _ M hnodup1 hinv1 hok
              intro id
              have h2 := hx id
              simp only [hG1geq] at h2
              exact h2

theorem pgFkGroup_colidx_sorted (table_ids : List (String × TableId))
    (rows : List PgFkRow) (cid : Int)
    (hs : List.Sorted (fun a b : PgFkRow =>
        toLex (a.con_id, a.colidx) ≤ toLex (b.con_id, b.colidx)) rows) :
    List.Sorted (· ≤ ·) ((pgFkGroup table_ids rows cid).map (fun r => r.colidx)) := by
  have hf : List.Pairwise (fun a b : PgFkRow =>
      toLex (a.con_id, a.colidx) ≤ toLex (b.con_id, b.colidx))
      (rows.filter (fun r => pgFkMatches table_ids r cid)) :=
    List.Pairwise.filter _ hs
  refine List.pairwise_map.mpr ?_
  refine List.Pairwise.imp_of_mem ?_ hf
  intro a b ha hb hab
  have hna : a.con_id = cid := by
    have h2 := (List.mem_filter.mp ha).2
    simp only [pgFkMatches, Bool.and_eq_true, beq_iff_eq] at h2
    exact h2.2
  have hnb : b.con_id = cid := by
    have h2 := (List.mem_filter.mp hb).2
    simp only [pgFkMatches, Bool.and_eq_true, beq_iff_eq] at h2
    exact h2.2
  rcases (Prod.Lex.le_iff _ _).mp hab with hlt | ⟨_, hle⟩
  · exfalso
    rw [hna, hnb] at hlt
    exact lt_irrefl cid hlt
  · exact hle

theorem pgGetForeignKeys_sorted (schemaName : String)
    (table_ids : List (String × TableId)) (rows : List PgFkRow)
    (init fks : List (TableId × ForeignKey))
    (hok : pgGetForeignKeys schemaName table_ids rows init = Except.ok fks) :
    List.Sorted (fun a b => fkSortKey a ≤ fkSortKey b) fks := by
  simp only [pgGetForeignKeys] at hok
  split at hok
  · cases hok
  · injection hok with h
    subst h
    exact sortByKey_sorted _ _

theorem fk_fst_sorted_of_lex (l : List (TableId × ForeignKey))
    (h : List.Sorted (fun a b => fkSortKey a ≤ fkSortKey b) l) :
    List.Sorted (fun a b : TableId × ForeignKey => a.1 ≤ b.1) l := by
  refine h.imp ?_
  intro a b hab
  simp only [fkSortKey] at hab
  rcases (Prod.Lex.le_iff _ _).mp hab with hlt | ⟨heq, _⟩
  · exact le_of_lt hlt
  · exact le_of_eq heq

theorem pgDescribe_fk_sorted (cockroach pgNativeTypes : Bool) (schemaName : String)
    (gd : String → ColumnType → Option DefaultValue) (cat : PgCatalog)
    (s : SqlSchema) (ext : PostgresSchemaExt)
    (hok : pgDescribe cockroach pgNativeTypes schemaName gd cat = Except.ok (s, ext)) :
    FkListSorted s.foreign_keys := by
  simp only [pgDescribe] at hok
  split at hok
  · cases hok
  · rename_i cols hcols
    split at hok
    · cases hok
    · rename_i fks hfks
      split at hok
      · cases hok
      · rename_i s5 ext2 hidx
        injection hok with h
        rw [Prod.mk.injEq] at h
        obtain ⟨h1, h2⟩ := h
        have hfk5 : s5.foreign_keys = fks :=
          pgGetIndices_foreign_keys _ _ _ _ _ _ _ hidx
        have hsor := pgGetForeignKeys_sorted _ _ _ _ _ hfks
        have hfk : s.foreign_keys = sortByKey (fun p => p.1) s5.foreign_keys := by
          rw [← h1]
        rw [hfk, hfk5]
        unfold FkListSorted
        rw [sortByKey_eq_self (fun p : TableId × ForeignKey => p.1) (fk_fst_sorted_of_lex fks hsor)]
        exact hsor

theorem sqliteDescribe_fk_sorted (cat : SqliteCatalog) (s : SqlSchema)
    (hok : sqliteDescribe cat = Except.ok s) : FkListSorted s.foreign_keys := by
  simp only [sqliteDescribe] at hok
  split at hok
  · cases hok
  · rename_i s2 hloop
    split at hok
    · cases hok
    · rename_i fixups hfix
      injection hok with h
      have hfk : s.foreign_keys
          = sortByKey fkSortKey (sqliteFkAssign s2 fixups).foreign_keys := by
        rw [← h]
      rw [FkListSorted, hfk]
      exact sortByKey_sorted _ _

def c3PgRowsW : List PgFkRow :=
  [⟨5, "b", "u", "y", 'a', 'a', "public", "fk", "t", 0⟩,
   ⟨5, "a", "u", "x", 'a', 'a', "public", "fk", "t", 1⟩]

def c3MW : List (Int × (TableId × ForeignKey)) :=
  [(5, (0, ⟨some "fk", ["b", "a"], 1, ["y", "x"],
    ForeignKeyAction.NoAction, ForeignKeyAction.NoAction⟩))]

def c3SqRowsW : List SqliteFkRow :=
  [⟨3, 1, "b", some "y", "p", "NO ACTION", "NO ACTION"⟩,
   ⟨3, 0, "a", some "x", "p", "NO ACTION", "NO ACTION"⟩]

def c3SqMW : List (Int × IntermediateForeignKey) :=
  [(3, ⟨[(0, "a"), (1, "b")], 0, [(0, "x"), (1, "y")],
    ForeignKeyAction.NoAction, ForeignKeyAction.NoAction⟩)]

def c3PgCatW : PgCatalog :=
  { tables := [], sequences := [], enums := [], columns := [], fks := [],
    indexes := [], views := [], procedures := [], size := 0 }

def c3SqCatW : SqliteCatalog :=
  { tableNames := [], colRows := fun _ => [], fkRows := fun _ => [],
    indexListRows := fun _ => [], indexInfoRows := fun _ => [],
    indexXinfoRows := fun _ => [], views := [], size := 0 }

/-- C3: a multi-column foreign key returned as several catalog rows sharing
one constraint id becomes a single ForeignKey.  On Postgres the accumulator
map holds exactly one entry per constraint id, with one referencing/referenced
column pair per used row in row order — under the catalog query's ORDER BY
(con_id, column position), stated as a sortedness hypothesis, that is ascending
position order, and the positional pairing of child and parent columns is
preserved.  On SQLite the per-id intermediate key stores both column lists as
maps keyed by the catalog `seq` field, kept ascending by key regardless of row
arrival order (given distinct positions per key).  Both describers return the
global foreign-key list sorted by (owning table id, columns). -/
theorem c3_fk_grouping_and_sorting :
    (∀ (schemaName : String) (table_ids : List (String × TableId))
        (rows : List PgFkRow) (M : List (Int × (TableId × ForeignKey))) (cid : Int),
        (∀ r ∈ rows, PgFkRowActsValid r) →
        List.Sorted (fun a b : PgFkRow =>
          toLex (a.con_id, a.colidx) ≤ toLex (b.con_id, b.colidx)) rows →
        pgFkLoop schemaName table_ids rows [] = Except.ok M →
        omLookup M cid = pgFkOfGroup table_ids (pgFkGroup table_ids rows cid) ∧
        List.Sorted (· ≤ ·) ((pgFkGroup table_ids rows cid).map (fun r => r.colidx)))
    ∧
    (∀ (table_ids : List (String × TableId)) (rows : List SqliteFkRow)
        (M : List (Int × IntermediateForeignKey)) (id : Int),
        (∀ id2, ((sqliteFkGroup table_ids rows id2).map (fun r => r.seq)).Nodup) →
        sqliteFkLoop table_ids rows [] = Except.ok M →
        (omLookup M id = none → sqliteFkGroup table_ids rows id = []) ∧
        (∀ ifk, omLookup M id = some ifk →
          OmSorted ifk.columns ∧
          List.Perm ifk.columns
            ((sqliteFkGroup table_ids rows id).map (fun r => (r.seq, r.fromCol))) ∧
          OmSorted ifk.referenced_columns ∧
          List.Perm ifk.referenced_columns
            ((sqliteFkGroup table_ids rows id).filterMap
              (fun r => r.toCol.map (fun c => (r.seq, c))))))
    ∧
    (∀ (cockroach pgNativeTypes : Bool) (schemaName : String)
        (gd : String → ColumnType → Option DefaultValue) (cat : PgCatalog)
        (s : SqlSchema) (ext : PostgresSchemaExt),
        pgDescribe cockroach pgNativeTypes schemaName gd cat = Except.ok (s, ext) →
        FkListSorted s.foreign_keys)
    ∧
    (∀ (cat : SqliteCatalog) (s : SqlSchema),
        sqliteDescribe cat = Except.ok s → FkListSorted s.foreign_keys) := by
  refine ⟨?_, ?_, ?_, ?_⟩
  · intro schemaName table_ids rows M cid hval hsort hok
    have hx := pgFkLoop_group schemaName table_ids rows (fun _ => []) [] M hval
      (fun cid2 r hr => absurd hr (List.not_mem_nil r))
      (fun cid2 => rfl) hok cid
    rw [List.nil_append] at hx
    exact ⟨hx, pgFkGroup_colidx_sorted table_ids rows cid hsort⟩
  · intro table_ids rows M id hnodup hok
    have hx := sqliteFkLoop_group table_ids rows (fun _ => []) [] M
      (fun id2 => by rw [List.nil_append]; exact hnodup id2)
      (fun id2 => ⟨fun _ => rfl, fun ifk h => by cases h⟩) hok id
    simp only [List.nil_append] at hx
    exact hx
  · intro cockroach pgNativeTypes schemaName gd cat s ext hok
    exact pgDescribe_fk_sorted cockroach pgNativeTypes schemaName gd cat s ext hok
  · intro cat s hok
    exact sqliteDescribe_fk_sorted cat s hok

theorem c3_fk_grouping_witness :
    (omLookup c3MW 5
        = pgFkOfGroup [("t", 0), ("u", 1)] (pgFkGroup [("t", 0), ("u", 1)] c3PgRowsW 5) ∧
      List.Sorted (· ≤ ·)
        ((pgFkGroup [("t", 0), ("u", 1)] c3PgRowsW 5).map (fun r => r.colidx))) ∧
    ((omLookup c3SqMW 3 = none → sqliteFkGroup [("p", 0)] c3SqRowsW 3 = []) ∧
      (∀ ifk, omLookup c3SqMW 3 = some ifk →
        OmSorted ifk.columns ∧
        List.Perm ifk.columns
          ((sqliteFkGroup [("p", 0)] c3SqRowsW 3).map (fun r => (r.seq, r.fromCol))) ∧
        OmSorted ifk.referenced_columns ∧
        List.Perm ifk.referenced_columns
          ((sqliteFkGroup [("p", 0)] c3SqRowsW 3).filterMap
            (fun r => r.toCol.map (fun c => (r.seq, c)))))) ∧
    FkListSorted ((⟨[], [], [], [], [], []⟩ : SqlSchema)).foreign_keys :=
  ⟨c3_fk_grouping_and_sorting.1 "public" [("t", 0), ("u", 1)] c3PgRowsW c3MW 5
      (by
        intro r hr
        simp only [c3PgRowsW, List.mem_cons, List.mem_singleton] at hr
        rcases hr with h | h | h
        · rw [h]
          exact ⟨rfl, rfl⟩
        · rw [h]
          exact ⟨rfl, rfl⟩
        · cases h)
      (by decide) (by decide),
   c3_fk_grouping_and_sorting.2.1 [("p", 0)] c3SqRowsW c3SqMW 3
      (by
        intro id2
        by_cases hb : ((3 : Int) == id2) = true
        · have him : (imGet [("p", (0 : TableId))] "p").isSome = true := by decide
          have hgq : sqliteFkGroup [("p", 0)] c3SqRowsW id2 = c3SqRowsW := by
            simp [sqliteFkGroup, c3SqRowsW, List.filter_cons, sqliteFkMatches, him, hb]
          rw [hgq]
          decide
        · have him : (imGet [("p", (0 : TableId))] "p").isSome = true := by decide
          have hgq : sqliteFkGroup [("p", 0)] c3SqRowsW id2 = [] := by
            simp [sqliteFkGroup, c3SqRowsW, List.filter_cons, sqliteFkMatches, him, hb]
          rw [hgq]
          exact List.nodup_nil)
      (by decide),
   c3_fk_grouping_and_sorting.2.2.2 c3SqCatW ⟨[], [], [], [], [], []⟩ (by decide)⟩
